import Mathlib

/-!
# TradingView crawler: orchestrator and worker protocol

A shallow embedding of `src/src/TradingViewCrawler.js` (the crawl orchestrator) as an
event-driven state machine.  Every JavaScript handler (a method or a closure registered
on a worker, a timer or an interval) is one Lean function on the orchestrator state; the
Node.js event loop is the relation that picks the next handler to run.  Handlers run to
completion, as in the single-threaded source.  The worker process of
`src/src/CrawlerWorker.js` is a second state machine of the same kind, further down.

Numbers that count things (workers, retries, milliseconds, percentages) are natural
numbers.
-/

namespace TradingViewCrawler

/-! ## JavaScript values -/

/-- JavaScript primitive values that can sit in a task field. -/
inductive JSVal where
  | undefined
  | null
  | bool (b : Bool)
  | num (n : Int)
  | nan
  | str (s : String)
  deriving DecidableEq, Repr

/-- JavaScript truthiness: `undefined`, `null`, `false`, `0`, `NaN` and `''` are falsy. -/
def JSVal.truthy : JSVal → Bool
  | .undefined => false
  | .null => false
  | .bool b => b
  | .num n => n != 0
  | .nan => false
  | .str s => s != ""

/-- The `typeof` operator on primitives (`typeof null` is `'object'`). -/
def JSVal.typeof : JSVal → String
  | .undefined => "undefined"
  | .null => "object"
  | .bool _ => "boolean"
  | .num _ => "number"
  | .nan => "number"
  | .str _ => "string"

/-- String conversion, as performed by `value + '_'` and by `Object.fromEntries`. -/
def JSVal.toStr : JSVal → String
  | .undefined => "undefined"
  | .null => "null"
  | .bool b => if b then "true" else "false"
  | .num n => toString n
  | .nan => "NaN"
  | .str s => s

/-- A task object.  `retries` is `none` when the field is absent. -/
structure Task where
  symbol : JSVal
  timeframe : JSVal
  range : JSVal
  retries : Option Nat
  deriving DecidableEq, Repr

/-- The expression `task.retries || 0`. -/
def Task.retriesOrZero (t : Task) : Nat := t.retries.getD 0

/-- The object literal `{ ...task, retries: (task.retries || 0) + 1 }`. -/
def Task.retried (t : Task) : Task := { t with retries := some (t.retriesOrZero + 1) }

/-- One element of the array handed to `addSymbols`: a primitive, a function, or an
object (whose fields are read as a task). -/
inductive JSEntry where
  | prim (v : JSVal)
  | func
  | obj (t : Task)
  deriving DecidableEq, Repr

/-- Truthiness of an array element: every object and function is truthy. -/
def JSEntry.truthy : JSEntry → Bool
  | .prim v => v.truthy
  | .func => true
  | .obj _ => true

/-- The `typeof` operator on an array element. -/
def JSEntry.typeof : JSEntry → String
  | .prim v => v.typeof
  | .func => "function"
  | .obj _ => "object"

/-- The property read `s.symbol` (a primitive other than null/undefined has no such
property, a function has none either). -/
def JSEntry.symbol : JSEntry → JSVal
  | .prim _ => .undefined
  | .func => .undefined
  | .obj t => t.symbol

/-- The argument of `addSymbols`: anything that is not an array, or an array. -/
inductive JSArg where
  | notArray
  | array (entries : List JSEntry)
  deriving DecidableEq, Repr

/-- One candle of a collected series (prices in fixed point). -/
structure Candle where
  time : Nat
  open_ : Int
  high : Int
  low : Int
  close : Int
  volume : Nat
  deriving DecidableEq, Repr

/-- The `collectedData` object a worker reports. -/
structure CollectedData where
  symbol : JSVal
  timeframe : JSVal
  periods : List Candle
  info : Option String
  deriving DecidableEq, Repr

/-- The `data` field of a worker message: missing (undefined or null), an empty array,
or a collected-data object. -/
inductive JSData where
  | missing
  | emptyArray
  | collected (d : CollectedData)
  deriving DecidableEq, Repr

/-- Messages a worker sends to its parent over IPC, by `message.type`. -/
inductive WorkerMessage where
  | result (data : JSData)
  | error (error : String)
  | log (data : String)
  | progress
  | memory
  | other
  deriving DecidableEq, Repr

/-- What the parent sends to a worker process: IPC messages and kill signals. -/
inductive Outgoing where
  | start (task : Task) (token signature : String) (timeout : Nat)
  | timeout
  | terminate
  | kill (signal : String)
  deriving DecidableEq, Repr

/-! ## JavaScript `Map` -/

/-- A JavaScript `Map`, kept in insertion order. -/
abbrev JSMap (κ ν : Type) := List (κ × ν)

namespace JSMap

variable {κ ν : Type} [DecidableEq κ]

/-- The method `Map.prototype.has`. -/
def has (m : JSMap κ ν) (k : κ) : Bool := m.any (fun e => decide (e.1 = k))

/-- The method `Map.prototype.get` (`none` for `undefined`). -/
def get (m : JSMap κ ν) (k : κ) : Option ν := (m.find? (fun e => decide (e.1 = k))).map Prod.snd

/-- The method `Map.prototype.set`: overwrite in place, or append a new entry. -/
def set (m : JSMap κ ν) (k : κ) (v : ν) : JSMap κ ν :=
  if m.has k then m.map (fun e => if e.1 = k then (k, v) else e) else m ++ [(k, v)]

/-- The method `Map.prototype.delete`. -/
def delete (m : JSMap κ ν) (k : κ) : JSMap κ ν := m.filter (fun e => decide (e.1 ≠ k))

/-- The property `Map.prototype.size`. -/
def size (m : JSMap κ ν) : Nat := m.length

end JSMap

/-- The function `Object.fromEntries(map)`: keys become strings, later entries win. -/
def objectFromEntries {ν : Type} (m : JSMap JSVal ν) : JSMap String ν :=
  m.foldl (fun o e => JSMap.set o e.1.toStr e.2) []

/-! ## Orchestrator state -/

/-- The resolved `this.options` object. -/
structure Options where
  maxWorkers : Nat
  timeout : Nat
  retries : Nat
  outputDir : String
  token : String
  signature : String
  throttleDelay : Nat
  maxMemoryUsage : Nat
  workerMemoryLimit : Nat
  deriving DecidableEq, Repr

/-- The counters `this.taskStats`. -/
structure Stats where
  total : Nat
  completed : Nat
  failed : Nat
  retried : Nat
  deriving DecidableEq, Repr

/-- The value stored in `activeWorkers`: `worker` is the index of the forked process,
`timeoutId` is absent until the hard timeout has been armed. -/
structure WorkerInfo where
  worker : Nat
  task : Task
  startTime : Nat
  retries : Nat
  timeoutId : Option Nat
  deriving DecidableEq, Repr

/-- A forked worker process together with what its handlers close over: the `id` and
the `task` of the `_spawnWorker` call that forked it.  `startAcked` tells that the
callback of the `start` send has run, or never will. -/
structure Proc where
  id : String
  task : Task
  exited : Bool
  startAcked : Bool
  deriving DecidableEq, Repr

/-- The callbacks handed to `setTimeout`. -/
inductive TimerKind where
  | spawnNext
  | processQueue
  | hardTimeout (w : Nat)
  | graceKill (w : Nat)
  | forceKill (w : Nat)
  deriving DecidableEq, Repr

/-- A pending `setTimeout`. -/
structure Timer where
  id : Nat
  due : Nat
  kind : TimerKind
  deriving DecidableEq, Repr

/-- The object `{ results, errors, stats }` handed to a completion resolver. -/
structure Snapshot where
  results : JSMap String JSData
  errors : JSMap String String
  stats : Stats
  deriving DecidableEq, Repr

/-- The fields of a `TradingViewCrawler` instance, followed by the part of the Node.js
runtime its handlers act on: the clock, pending timers and intervals, forked processes,
suspended `async` calls, and logs of what was admitted, sent, written and resolved. -/
structure State where
  options : Options
  activeWorkers : JSMap String WorkerInfo
  taskQueue : List Task
  running : Bool
  results : JSMap JSVal JSData
  errors : JSMap JSVal String
  completionPromise : Option Nat
  completionResolver : Option Nat
  throttled : Bool
  taskStats : Stats
  resourceMonitorInterval : Option Nat
  clock : Nat
  timers : List Timer
  nextHandle : Nat
  intervals : List Nat
  spawned : List Proc
  pendingStarts : Nat
  pendingStops : List (List Nat)
  admitted : List Task
  outbox : List (Nat × Outgoing)
  saved : List (String × JSData)
  resolverCalls : List (Nat × Snapshot)
  deriving DecidableEq, Repr

/-- The state the constructor leaves, for resolved options `o`. -/
def init (o : Options) : State where
  options := o
  activeWorkers := []
  taskQueue := []
  running := false
  results := []
  errors := []
  completionPromise := none
  completionResolver := none
  throttled := false
  taskStats := ⟨0, 0, 0, 0⟩
  resourceMonitorInterval := none
  clock := 0
  timers := []
  nextHandle := 0
  intervals := []
  spawned := []
  pendingStarts := 0
  pendingStops := []
  admitted := []
  outbox := []
  saved := []
  resolverCalls := []

/-- How the `try` block of `_spawnWorker` goes: it runs to its end; or `fork` throws; or
`fork` returns a child process and `worker.send` throws, after the worker has been
registered in `activeWorkers` and its handlers have been attached. -/
inductive SpawnOutcome where
  | ok
  | throws (message : String)
  | sendThrows (message : String)
  deriving DecidableEq, Repr

/-! ## Runtime primitives -/

/-- The call `setTimeout(callback, delay)`. -/
def setTimeout (s : State) (kind : TimerKind) (delay : Nat) : State :=
  { s with timers := s.timers ++ [⟨s.nextHandle, s.clock + delay, kind⟩],
           nextHandle := s.nextHandle + 1 }

/-- The call `clearTimeout(id)`. -/
def clearTimeout (s : State) (id : Nat) : State :=
  { s with timers := s.timers.filter (fun t => decide (t.id ≠ id)) }

/-- The call `clearInterval(id)`. -/
def clearInterval (s : State) (id : Nat) : State :=
  { s with intervals := s.intervals.filter (fun h => decide (h ≠ id)) }

/-- The call `worker.send(message)` or `worker.kill(signal)` on process `w`. -/
def send (s : State) (w : Nat) (m : Outgoing) : State :=
  { s with outbox := s.outbox ++ [(w, m)] }

/-! ## Public getters -/

/-- The method `getResults`. -/
def getResults (s : State) : JSMap String JSData := objectFromEntries s.results

/-- The method `getErrors`. -/
def getErrors (s : State) : JSMap String String := objectFromEntries s.errors

/-- The object literal `{ results: this.getResults(), errors: Object.fromEntries(this.errors),
stats: this.taskStats }`. -/
def snapshot (s : State) : Snapshot := ⟨getResults s, objectFromEntries s.errors, s.taskStats⟩

/-- The shared tail of `_checkCompletion` and `stop`: `if (this.completionResolver)`
call it with the snapshot and null both completion fields. -/
def resolveCompletion (s : State) : State :=
  match s.completionResolver with
  | some r =>
    { s with resolverCalls := s.resolverCalls ++ [(r, snapshot s)],
             completionResolver := none,
             completionPromise := none }
  | none => s

/-- The shared head of `_checkCompletion` and `stop`: `if (this.resourceMonitorInterval)`
clear the interval and null the field.  (A Node.js interval handle is an object, hence
truthy whenever it is present.) -/
def stopMonitoring (s : State) : State :=
  match s.resourceMonitorInterval with
  | some h => { clearInterval s h with resourceMonitorInterval := none }
  | none => s

/-! ## Orchestrator methods and handlers -/

/-- The callback of `symbols.filter` in `addSymbols`. -/
def validSymbol (s : JSEntry) : Bool :=
  if !s.truthy || s.typeof != "object" then false
  else if !s.symbol.truthy then false
  else true

/-- An array element as a queue entry: only objects carry task fields. -/
def JSEntry.asTask : JSEntry → Option Task
  | .obj t => some t
  | _ => none

/-- The method `addSymbols`. -/
def addSymbols (s : State) (symbols : JSArg) : State :=
  match symbols with
  | .notArray => s
  | .array entries =>
    if entries.length = 0 then s
    else
      let validSymbols := entries.filter validSymbol
      { s with taskQueue := s.taskQueue ++ validSymbols.filterMap JSEntry.asTask,
               taskStats := { s.taskStats with total := s.taskStats.total + validSymbols.length } }

/-- The method `_checkCompletion`. -/
def _checkCompletion (s : State) : State :=
  if s.taskQueue.length = 0 ∧ s.activeWorkers.size = 0 ∧ s.running = true then
    resolveCompletion { stopMonitoring s with running := false }
  else s

/-- The statements `this.taskStats.retried++; this.taskQueue.push(retried copy)`. -/
def requeue (s : State) (task : Task) : State :=
  { s with taskStats := { s.taskStats with retried := s.taskStats.retried + 1 },
           taskQueue := s.taskQueue ++ [task.retried] }

/-- The statement `this.taskStats.failed++`. -/
def markFailed (s : State) : State :=
  { s with taskStats := { s.taskStats with failed := s.taskStats.failed + 1 } }

/-- The worker id `task.symbol + '_' + Date.now()`. -/
def workerId (task : Task) (now : Nat) : String := task.symbol.toStr ++ "_" ++ toString now

/-- The file-name sanitisation `symbol.replace(/[:/]/g, '_')`. -/
def sanitize (symbol : String) : String :=
  String.mk (symbol.toList.map (fun c => if c = ':' ∨ c = '/' then '_' else c))

/-- The method `_saveResult`, up to the write request: the file name inside `outputDir`
and the payload.  A symbol that is not a string has no `replace` method, the exception is
caught and nothing is written. -/
def _saveResult (s : State) (symbol : JSVal) (data : JSData) : State :=
  match data with
  | .missing => s
  | .emptyArray => s
  | .collected _ =>
    match symbol with
    | .str sym => { s with saved := s.saved ++ [(sanitize sym ++ ".json", data)] }
    | _ => s

/-- The statement `this.activeWorkers.get(id).timeoutId = timeoutId`. -/
def storeTimeoutId (m : JSMap String WorkerInfo) (id : String) (timeoutId : Nat) :
    JSMap String WorkerInfo :=
  m.map (fun e => if e.1 = id then (e.1, { e.2 with timeoutId := some timeoutId }) else e)

/-- The method `_spawnWorker`: the whole `try` block when nothing throws; the `catch`
block alone when `fork` throws; and when `worker.send` throws, the `try` block up to the
send (the process is forked and registered, no `start` message leaves and no hard timeout
is armed) followed by the `catch` block.  A send that throws never runs its callback. -/
def _spawnWorker (s : State) (task : Task) (fork : SpawnOutcome) : State :=
  match fork with
  | .ok =>
    let w := s.spawned.length
    let id := workerId task s.clock
    let s1 := { s with
      spawned := s.spawned ++ [⟨id, task, false, false⟩],
      activeWorkers :=
        JSMap.set s.activeWorkers id ⟨w, task, s.clock, task.retriesOrZero, none⟩ }
    let s2 := send s1 w (.start task s1.options.token s1.options.signature s1.options.timeout)
    let timeoutId := s2.nextHandle
    let s3 := setTimeout s2 (.hardTimeout w) s2.options.timeout
    { s3 with activeWorkers := storeTimeoutId s3.activeWorkers id timeoutId }
  | .throws message =>
    let s1 := { s with errors := JSMap.set s.errors task.symbol message }
    let s2 := if task.retriesOrZero < s1.options.retries then requeue s1 task else markFailed s1
    setTimeout s2 .processQueue 100
  | .sendThrows message =>
    let w := s.spawned.length
    let id := workerId task s.clock
    let s0 := { s with
      spawned := s.spawned ++ [(⟨id, task, false, true⟩ : Proc)],
      activeWorkers :=
        JSMap.set s.activeWorkers id ⟨w, task, s.clock, task.retriesOrZero, none⟩ }
    let s1 := { s0 with errors := JSMap.set s0.errors task.symbol message }
    let s2 := if task.retriesOrZero < s1.options.retries then requeue s1 task else markFailed s1
    setTimeout s2 .processQueue 100

/-- The closure `spawnNextWorker` of `_processQueue`.  The task taken by
`this.taskQueue.shift()` is also appended to the log `admitted`. -/
def spawnNextWorker (s : State) (fork : SpawnOutcome) : State :=
  if !s.running || s.throttled then s
  else if s.activeWorkers.size < s.options.maxWorkers ∧ s.taskQueue.length > 0 then
    match s.taskQueue with
    | [] => s
    | task :: rest =>
      let s1 :=
        _spawnWorker { s with taskQueue := rest, admitted := s.admitted ++ [task] } task fork
      setTimeout s1 .spawnNext s1.options.throttleDelay
  else _checkCompletion s

/-- The method `_processQueue`. -/
def _processQueue (s : State) (fork : SpawnOutcome) : State :=
  if !s.running then s else spawnNextWorker s fork

/-- The handler `worker.on('message', ...)` of the worker spawned for `task`. -/
def onMessage (s : State) (task : Task) (message : WorkerMessage) : State :=
  match message with
  | .result data =>
    _saveResult
      { s with taskStats := { s.taskStats with completed := s.taskStats.completed + 1 },
               results := JSMap.set s.results task.symbol data }
      task.symbol data
  | .error error =>
    let s1 := { s with errors := JSMap.set s.errors task.symbol error }
    if task.retriesOrZero < s1.options.retries then requeue s1 task else markFailed s1
  | .log _ => s
  | .progress => s
  | .memory => s
  | .other => s

/-- The handler `worker.on('error', ...)`. -/
def onError (s : State) (id : String) (task : Task) (message : String) : State :=
  let s1 := { s with errors := JSMap.set s.errors task.symbol message,
                     activeWorkers := JSMap.delete s.activeWorkers id }
  setTimeout s1 .processQueue 100

/-- The text of an exit code inside a template string (`null` when killed by a signal). -/
def codeText : Option Int → String
  | none => "null"
  | some c => toString c

/-- The handler `worker.on('exit', ...)`. -/
def onExit (s : State) (id : String) (task : Task) (code : Option Int)
    (signal : Option String) : State :=
  let s1 :=
    match s.activeWorkers.get id with
    | some _ =>
      if code ≠ some 0 ∧ signal ≠ some "SIGTERM" then
        if code ≠ some 0 ∧ task.retriesOrZero < s.options.retries then requeue s task
        else if code ≠ some 0 then
          { markFailed s with
            errors := JSMap.set s.errors task.symbol ("Worker exited with code " ++ codeText code) }
        else s
      else s
    | none => s
  setTimeout { s1 with activeWorkers := JSMap.delete s1.activeWorkers id } .processQueue 100

/-- The callback of `worker.send(start message, callback)`; `err` tells whether the
send failed. -/
def onSendCallback (s : State) (w : Nat) (id : String) (err : Bool) : State :=
  if err then
    let s1 := send s w (.kill "SIGTERM")
    setTimeout { s1 with activeWorkers := JSMap.delete s1.activeWorkers id } .processQueue 100
  else s

/-- The hard-timeout callback armed by `_spawnWorker`. -/
def onHardTimeout (s : State) (w : Nat) (id : String) (task : Task) : State :=
  if s.activeWorkers.has id then
    let s1 := send s w .timeout
    let s2 := setTimeout s1 (.graceKill w) 2000
    if task.retriesOrZero < s2.options.retries then requeue s2 task
    else { markFailed s2 with errors := JSMap.set s2.errors task.symbol "Task timed out" }
  else s

/-- The callback armed by the hard timeout: kill after two seconds if still active. -/
def onGraceKill (s : State) (w : Nat) (id : String) : State :=
  if s.activeWorkers.has id then send s w (.kill "SIGTERM") else s

/-- The callback armed by `stop`: force-kill a worker that is still connected. -/
def onForceKill (s : State) (w : Nat) (connected : Bool) : State :=
  if connected then send s w (.kill "SIGKILL") else s

/-- One iteration of the `for` loop of `stop` over `activeWorkers.entries()`: clear the
hard timeout, send `terminate`, arm the five-second force kill. -/
def stopWorker (s : State) (e : String × WorkerInfo) : State :=
  let s1 := match e.2.timeoutId with
    | some t => clearTimeout s t
    | none => s
  let s2 := send s1 e.2.worker .terminate
  setTimeout s2 (.forceKill e.2.worker) 5000

/-- The part of `stop` after `await Promise.all(terminationPromises)`. -/
def stopFinish (s : State) : State :=
  resolveCompletion { s with activeWorkers := [] }

/-- The method `stop`, up to its `await`: with no active worker there is nothing to
await and the method runs to its end; otherwise the call is suspended until every
worker it signalled has exited. -/
def stop (s : State) : State :=
  if !s.running then s
  else
    let s1 := stopMonitoring { s with running := false }
    let s2 := s1.activeWorkers.foldl stopWorker s1
    let terminationPromises := s1.activeWorkers.map (fun e => e.2.worker)
    if terminationPromises.length > 0 then
      { s2 with pendingStops := s2.pendingStops ++ [terminationPromises] }
    else stopFinish s2

/-- Resumption of the `k`-th suspended `stop` call. -/
def stopResume (s : State) (k : Nat) : State :=
  stopFinish { s with pendingStops := s.pendingStops.eraseIdx k }

/-- The method `_startResourceMonitoring`: arm the one-second interval. -/
def _startResourceMonitoring (s : State) : State :=
  { s with resourceMonitorInterval := some s.nextHandle,
           intervals := s.intervals ++ [s.nextHandle],
           nextHandle := s.nextHandle + 1 }

/-- The method `start`, up to `await fs.mkdir(...)`. -/
def start (s : State) : State :=
  if s.running then s else { s with running := true, pendingStarts := s.pendingStarts + 1 }

/-- The part of `start` after the `await`. -/
def startResume (s : State) (fork : SpawnOutcome) : State :=
  _processQueue (_startResourceMonitoring { s with pendingStarts := s.pendingStarts - 1 }) fork

/-- The interval callback of `_startResourceMonitoring`.  `percent` is
`memoryUsagePercent`, or `none` when reading the memory statistics throws.  For whole
numbers `percent < maxMemoryUsage * 0.8` is `5 * percent < 4 * maxMemoryUsage`. -/
def resourceMonitorTick (s : State) (percent : Option Nat) (fork : SpawnOutcome) : State :=
  match percent with
  | none => s
  | some memoryUsagePercent =>
    if memoryUsagePercent > s.options.maxMemoryUsage then
      if !s.throttled then { s with throttled := true } else s
    else if s.throttled ∧ 5 * memoryUsagePercent < 4 * s.options.maxMemoryUsage then
      _processQueue { s with throttled := false } fork
    else s

/-- The method `waitForCompletion`, as a state change: a promise and its resolver are
created only when something is queued or active and no promise exists. -/
def waitForCompletion (s : State) : State :=
  if s.taskQueue.length = 0 ∧ s.activeWorkers.size = 0 then s
  else if s.completionPromise.isNone then
    { s with completionPromise := some s.nextHandle,
             completionResolver := some s.nextHandle,
             nextHandle := s.nextHandle + 1 }
  else s

/-! ## The event loop -/

/-- What can happen next: a call of a public method, the resumption of a suspended
`async` method, time passing, a timer or interval firing, or an event of a forked
worker process. -/
inductive Event where
  | addSymbols (symbols : JSArg)
  | start
  | startResume (fork : SpawnOutcome)
  | stop
  | stopResume (k : Nat)
  | waitForCompletion
  | advance (ms : Nat)
  | timer (id : Nat) (fork : SpawnOutcome) (connected : Bool)
  | monitorTick (handle : Nat) (percent : Option Nat) (fork : SpawnOutcome)
  | workerMessage (w : Nat) (message : WorkerMessage)
  | workerError (w : Nat) (message : String)
  | workerExit (w : Nat) (code : Option Int) (signal : Option String)
  | sendCallback (w : Nat) (err : Bool)
  deriving DecidableEq, Repr

/-- Run the callback of a timer that has just been removed from the pending list. -/
def fireTimer (s : State) (t : Timer) (fork : SpawnOutcome) (connected : Bool) : State :=
  match t.kind with
  | .spawnNext => spawnNextWorker s fork
  | .processQueue => _processQueue s fork
  | .hardTimeout w =>
    match s.spawned.get? w with
    | some p => onHardTimeout s w p.id p.task
    | none => s
  | .graceKill w =>
    match s.spawned.get? w with
    | some p => onGraceKill s w p.id
    | none => s
  | .forceKill w => onForceKill s w connected

/-- The `once('exit')` listeners registered by suspended `stop` calls: each clears its
force-kill timer and settles its termination promise. -/
def settleExit (s : State) (w : Nat) : State :=
  { s with timers := s.timers.filter (fun t => decide (t.kind ≠ .forceKill w)),
           pendingStops := s.pendingStops.map (fun ws => ws.filter (fun v => decide (v ≠ w))) }

/-- One turn of the event loop; `none` when the event cannot occur in this state (no such
timer or not yet due, no such process, a process that has already exited, a suspended
call that is still waiting). -/
def step (s : State) : Event → Option State
  | .addSymbols symbols => some (addSymbols s symbols)
  | .start => some (start s)
  | .startResume fork => if s.pendingStarts > 0 then some (startResume s fork) else none
  | .stop => some (stop s)
  | .stopResume k =>
    match s.pendingStops.get? k with
    | some [] => some (stopResume s k)
    | _ => none
  | .waitForCompletion => some (waitForCompletion s)
  | .advance ms => some { s with clock := s.clock + ms }
  | .timer id fork connected =>
    match s.timers.find? (fun t => decide (t.id = id)) with
    | some t =>
      if t.due ≤ s.clock then some (fireTimer (clearTimeout s id) t fork connected) else none
    | none => none
  | .monitorTick handle percent fork =>
    if handle ∈ s.intervals then some (resourceMonitorTick s percent fork) else none
  | .workerMessage w message =>
    match s.spawned.get? w with
    | some p => some (onMessage s p.task message)
    | none => none
  | .workerError w message =>
    match s.spawned.get? w with
    | some p => some (onError s p.id p.task message)
    | none => none
  | .workerExit w code signal =>
    match s.spawned.get? w with
    | some p =>
      if p.exited then none
      else
        let s1 := { s with spawned := s.spawned.set w { p with exited := true } }
        some (settleExit (onExit s1 p.id p.task code signal) w)
    | none => none
  | .sendCallback w err =>
    match s.spawned.get? w with
    | some p =>
      if p.startAcked then none
      else
        let s1 := { s with spawned := s.spawned.set w { p with startAcked := true } }
        some (onSendCallback s1 w p.id err)
    | none => none

/-- Run a sequence of events; `none` as soon as one of them cannot occur. -/
def run (s : State) : List Event → Option State
  | [] => some s
  | e :: es =>
    match step s e with
    | some s1 => run s1 es
    | none => none

/-! ## Invariants used in the proofs -/

/-- A handler that neither touches the options nor adds an active worker. -/
def NoGrow (s s1 : State) : Prop :=
  s1.options = s.options ∧ s1.activeWorkers.size ≤ s.activeWorkers.size

/-- The concurrency bound: the options are still the configured ones and `activeWorkers`
has no more entries than `maxWorkers`. -/
def WithinLimit (o : Options) (s : State) : Prop :=
  s.options = o ∧ s.activeWorkers.size ≤ o.maxWorkers

/-! ## Concrete scenarios -/

/-- Options of the three-task scenario: two worker slots, no spawn delay. -/
def poolOptions : Options := ⟨2, 30000, 3, "./data", "", "", 0, 80, 300⟩

/-- A task for symbol `sym` as a caller writes it: daily candles, no `retries` field. -/
def taskFor (sym : String) : Task := ⟨.str sym, .str "D", .num 100, none⟩

/-- The data a worker collected for `X`: one daily candle. -/
def sampleData : CollectedData := ⟨.str "X", .str "D", [⟨1, 10, 12, 9, 11, 5⟩], none⟩

/-- Three tasks are added, the crawler is started, and the spawn timer armed by the
first admission fires twice. -/
def poolEvents : List Event :=
  [.addSymbols (.array [.obj (taskFor "A"), .obj (taskFor "B"), .obj (taskFor "C")]),
   .start, .startResume .ok, .advance 1, .timer 2 .ok true, .advance 1, .timer 4 .ok true]

/-- The state the three-task scenario ends in. -/
def poolState : State := (run (init poolOptions) poolEvents).getD (init poolOptions)

/-- The task objects inside the argument of one `addSymbols` call (valid or not). -/
def passedTasks : Event → List Task
  | .addSymbols (.array entries) => entries.filterMap JSEntry.asTask
  | _ => []

/-- Every task in the queue, in `activeWorkers` and in the closure of a forked worker has
`(task.retries || 0)` within the configured retry limit. -/
def RetriesBounded (o : Options) (s : State) : Prop :=
  s.options = o ∧
    (∀ t ∈ s.taskQueue, t.retriesOrZero ≤ o.retries) ∧
    (∀ e ∈ s.activeWorkers, e.2.task.retriesOrZero ≤ o.retries) ∧
    (∀ p ∈ s.spawned, p.task.retriesOrZero ≤ o.retries)

/-- Options of the failing-worker scenarios with one retry allowed. -/
def retryOptions : Options := ⟨2, 30000, 1, "./data", "", "", 500, 80, 300⟩

/-- One task `X` is added and started; its worker follows `CrawlerWorker.js` on failure:
after 40 ms it sends an `error` message and 5 ms later it exits with code 1. -/
def failingEvents : List Event :=
  [.addSymbols (.array [.obj (taskFor "X")]), .start, .startResume .ok,
   .advance 40, .workerMessage 0 (.error "Chart error: boom"),
   .advance 5, .workerExit 0 (some 1) none]

/-- The state after the first failure of `X` with one retry allowed. -/
def afterFirstFailure : State :=
  (run (init retryOptions) failingEvents).getD (init retryOptions)

/-- The failing-worker scenario continued until the run completes.  Each exit arms a
`_processQueue` timer of 100 ms (timers 3, 6 and 9); the first two admit the two queued
copies of `X` in turn, each worker reports an error and exits with code 1, and the third
finds nothing left. -/
def exhaustingEvents : List Event :=
  failingEvents ++
    [.advance 100, .timer 3 .ok true,
     .advance 40, .workerMessage 1 (.error "Chart error: boom"),
     .advance 5, .workerExit 1 (some 1) none,
     .advance 100, .timer 6 .ok true,
     .advance 40, .workerMessage 2 (.error "Chart error: boom"),
     .advance 5, .workerExit 2 (some 1) none,
     .advance 100, .timer 9 .ok true]

/-- The state at the end of `exhaustingEvents`. -/
def afterExhaustion : State :=
  (run (init retryOptions) exhaustingEvents).getD (init retryOptions)

/-- Options with `retries: 0` supplied by the caller. -/
def noRetryOptions : Options := ⟨2, 30000, 0, "./data", "", "", 500, 80, 300⟩

/-- The state in which the worker for `X` has just been spawned (`retries: 0`). -/
def spawnedNoRetry : State :=
  (run (init noRetryOptions)
    [.addSymbols (.array [.obj (taskFor "X")]), .start, .startResume .ok]).getD
    (init noRetryOptions)

/-- The constructor defaults for everything but `maxWorkers`, here two. -/
def defaultOptions : Options := ⟨2, 30000, 3, "./data", "", "", 500, 80, 300⟩

/-- The state in which the worker for `X` has just been spawned (default options). -/
def spawnedDefault : State :=
  (run (init defaultOptions)
    [.addSymbols (.array [.obj (taskFor "X")]), .start, .startResume .ok]).getD
    (init defaultOptions)

/-- The state after the send of the `start` message for `X` has failed. -/
def afterSendFailure : State :=
  (run spawnedDefault [.sendCallback 0 true]).getD spawnedDefault

/-- After the failed send the killed worker exits, and the `_processQueue` timer armed by
the send callback fires 100 ms later. -/
def afterSendFailureEvents : List Event :=
  [.workerExit 0 none (some "SIGTERM"), .advance 100, .timer 3 .ok true]

/-- The state in which the run that lost `X` to a send failure has ended. -/
def afterLostTask : State := (run afterSendFailure afterSendFailureEvents).getD spawnedDefault

/-- The state after the child process for `X` has emitted an `error` event. -/
def afterErrorEvent : State :=
  (run spawnedDefault [.workerError 0 "channel closed"]).getD spawnedDefault

/-- The worker for `X` reports an error after 40 ms and exits with code 1. -/
def reportedFailure : List Event :=
  [.advance 40, .workerMessage 0 (.error "Chart error: boom"),
   .advance 5, .workerExit 0 (some 1) none]

/-- The state after the worker for `X` reported an error and exited with code 1, with
`retries: 0`. -/
def afterFailureNoRetry : State := (run spawnedNoRetry reportedFailure).getD spawnedNoRetry

/-- Spec side of `addSymbols`: an entry is kept when it is a non-null object whose
`symbol` field is non-empty (truthy). -/
def keptEntry : JSEntry → Option Task
  | .obj t => if t.symbol.truthy then some t else none
  | _ => none

/-- The elements of the argument of `addSymbols` (none for a non-array). -/
def JSArg.entries : JSArg → List JSEntry
  | .notArray => []
  | .array entries => entries

/-- The events that can occur while a `stop` call is suspended, other than a call of
`start` and the resumption of a suspended `stop`. -/
def Event.duringStop : Event → Bool
  | .start => false
  | .stopResume _ => false
  | _ => true

/-- The running flag and the completion signal are the same in both states. -/
def SameCompletion (s s1 : State) : Prop :=
  s1.running = s.running ∧ s1.completionResolver = s.completionResolver ∧
    s1.completionPromise = s.completionPromise ∧ s1.resolverCalls = s.resolverCalls

/-- One task `X` is added and `waitForCompletion` is called, but `start` never is. -/
def waitingNotStarted : State :=
  (run (init defaultOptions)
    [.addSymbols (.array [.obj (taskFor "X")]), .waitForCompletion]).getD (init defaultOptions)

/-- The crawler is started with one task `X` and a caller waits for completion. -/
def waitingRunning : State :=
  (run (init defaultOptions)
    [.addSymbols (.array [.obj (taskFor "X")]), .start, .startResume .ok,
     .waitForCompletion]).getD (init defaultOptions)

/-- While `stop` is suspended the worker reports its data and exits; `stop` and
`waitForCompletion` are called once more in between. -/
def eventsDuringStop : List Event :=
  [.advance 40, .stop, .workerMessage 0 (.result (.collected sampleData)),
   .waitForCompletion, .advance 5, .workerExit 0 (some 0) none]

/-- The state in which the suspended `stop` is about to resume. -/
def beforeStopResume : State :=
  (run (stop waitingRunning) eventsDuringStop).getD waitingRunning

/-- The state after the suspended `stop` has resumed and returned. -/
def afterStop : State :=
  (step beforeStopResume (.stopResume 0)).getD waitingRunning

/-- `X` fails once and succeeds on its retry: the first worker reports an error and exits
with code 1, the `_processQueue` call armed by the exit admits a retried copy, and the
second worker reports its data. -/
def retrySucceedsEvents : List Event :=
  failingEvents ++
    [.advance 100, .timer 3 .ok true,
     .advance 40, .workerMessage 1 (.result (.collected sampleData))]

/-- The state after the retry of `X` has reported its data. -/
def afterRetrySucceeded : State :=
  (run (init defaultOptions) retrySucceedsEvents).getD (init defaultOptions)

/-- While `stop` is suspended `start` is called again; the process of the worker emits an
`error` event and the `_processQueue` call armed by the handler runs 100 ms later; then
the worker reports its data and exits. -/
def restartDuringStop : List Event :=
  [.start, .startResume .ok, .workerError 0 "channel closed", .advance 100,
   .timer 6 .ok true, .workerMessage 0 (.result (.collected sampleData)),
   .workerExit 0 (some 0) none]

/-- The state in which the `stop` suspended across the restart is about to resume. -/
def beforeLateResume : State :=
  (run (stop waitingRunning) restartDuringStop).getD waitingRunning

/-- The state after that `stop` has resumed and returned. -/
def afterLateResume : State :=
  (step beforeLateResume (.stopResume 0)).getD waitingRunning

/-! ## Where a task is -/

/-- The symbols of a list of tasks. -/
def symbolsOf (l : List Task) : List JSVal := l.map (fun t => t.symbol)

/-- The tasks one `addSymbols` call appends to the queue. -/
def validTasks : JSArg → List Task
  | .notArray => []
  | .array entries => (entries.filter validSymbol).filterMap JSEntry.asTask

/-- The tasks an event adds to the queue through `addSymbols`. -/
def addedBy : Event → List Task
  | .addSymbols symbols => validTasks symbols
  | _ => []

/-- All tasks added through `addSymbols` during a run. -/
def addedTasks : List Event → List Task
  | [] => []
  | e :: es => addedBy e ++ addedTasks es

/-- Number of queue entries for a symbol. -/
def queueCopies (s : State) (sym : JSVal) : Nat :=
  (s.taskQueue.filter (fun t => decide (t.symbol = sym))).length

/-- Whether `activeWorkers` holds a worker for a symbol. -/
def heldActive (s : State) (sym : JSVal) : Bool :=
  s.activeWorkers.any (fun e => decide (e.2.task.symbol = sym))

/-- Whether a symbol is terminal: recorded in the results map or in the errors map. -/
def isTerminal (s : State) (sym : JSVal) : Bool :=
  JSMap.has s.results sym || JSMap.has s.errors sym

/-- In how many of the three places (queue copies counted one by one, the active-worker
set, terminal) a symbol currently is. -/
def placeCount (s : State) (sym : JSVal) : Nat :=
  queueCopies s sym + (if heldActive s sym then 1 else 0) + (if isTerminal s sym then 1 else 0)

/-- Bookkeeping invariant behind the placement of tasks, for the tasks `added` so far:
whatever is active, forked, or recorded in results or errors has been admitted; whatever
has been admitted or is queued was added; and an added task not yet admitted is queued
exactly once. -/
structure Placement (added : List Task) (s : State) : Prop where
  active : ∀ e ∈ s.activeWorkers, e.2.task.symbol ∈ symbolsOf s.admitted
  forked : ∀ p ∈ s.spawned, p.task.symbol ∈ symbolsOf s.admitted
  results : ∀ k, JSMap.has s.results k = true → k ∈ symbolsOf s.admitted
  errors : ∀ k, JSMap.has s.errors k = true → k ∈ symbolsOf s.admitted
  admitted : ∀ k ∈ symbolsOf s.admitted, k ∈ symbolsOf added
  queued : ∀ q ∈ s.taskQueue, q.symbol ∈ symbolsOf added
  waiting : ∀ t ∈ added, t.symbol ∉ symbolsOf s.admitted →
    t ∈ s.taskQueue ∧ queueCopies s t.symbol = 1

/-- The effect of a handler that acts for a task with symbol `c`: nothing is admitted, the
queue is unchanged or gets one more entry for `c`, and every worker, forked process,
result key and error key is an old one or one for `c`. -/
structure Touches (c : JSVal) (s s1 : State) : Prop where
  admitted : s1.admitted = s.admitted
  queue : s1.taskQueue = s.taskQueue ∨
    ∃ t : Task, t.symbol = c ∧ s1.taskQueue = s.taskQueue ++ [t]
  active : ∀ e ∈ s1.activeWorkers,
    e.2.task.symbol = c ∨ ∃ e0 ∈ s.activeWorkers, e.2.task.symbol = e0.2.task.symbol
  forked : ∀ p ∈ s1.spawned,
    p.task.symbol = c ∨ ∃ p0 ∈ s.spawned, p.task.symbol = p0.task.symbol
  results : ∀ k, JSMap.has s1.results k = true → k = c ∨ JSMap.has s.results k = true
  errors : ∀ k, JSMap.has s1.errors k = true → k = c ∨ JSMap.has s.errors k = true

/-- The effect of a handler that acts for no task: the queue, the maps and the admission
log are unchanged, workers may only disappear. -/
structure Quiet (s s1 : State) : Prop where
  admitted : s1.admitted = s.admitted
  queue : s1.taskQueue = s.taskQueue
  active : ∀ e ∈ s1.activeWorkers, e ∈ s.activeWorkers
  forked : s1.spawned = s.spawned
  results : s1.results = s.results
  errors : s1.errors = s.errors

/-- One task `X` is added and started; its worker reports collected data and has not
exited yet. -/
def resultEvents : List Event :=
  [.addSymbols (.array [.obj (taskFor "X")]), .start, .startResume .ok,
   .advance 40, .workerMessage 0 (.result (.collected sampleData))]

/-- The state after the `result` message of `X` and before the exit of its worker. -/
def afterResult : State := (run (init defaultOptions) resultEvents).getD (init defaultOptions)

/-! ## The constructor's options -/

/-- The own properties of the `options` argument of the constructor, for the recognised
keys: `none` when the key is absent, `some v` when it is supplied with value `v`. -/
structure RawOptions where
  maxWorkers : Option JSVal
  timeout : Option JSVal
  retries : Option JSVal
  outputDir : Option JSVal
  token : Option JSVal
  signature : Option JSVal
  throttleDelay : Option JSVal
  maxMemoryUsage : Option JSVal
  workerMemoryLimit : Option JSVal
  deriving DecidableEq, Repr

/-- The object `this.options` as the constructor builds it, for the recognised keys. -/
structure ResolvedOptions where
  maxWorkers : JSVal
  timeout : JSVal
  retries : JSVal
  outputDir : JSVal
  token : JSVal
  signature : JSVal
  throttleDelay : JSVal
  maxMemoryUsage : JSVal
  workerMemoryLimit : JSVal
  deriving DecidableEq, Repr

/-- The operator `a || b`. -/
def JSVal.or (a b : JSVal) : JSVal := if a.truthy then a else b

/-- The property read `options.key`: `undefined` for an absent key. -/
def readOption (own : Option JSVal) : JSVal := own.getD .undefined

/-- The effect of the trailing `...options` on a key written earlier in the object
literal: a supplied key overwrites the value computed for it. -/
def spreadOver (own : Option JSVal) (computed : JSVal) : JSVal := own.getD computed

/-- The expression `Math.max(1, os.cpus().length - 1)`. -/
def defaultMaxWorkers (cpuCount : Nat) : Int := max 1 ((cpuCount : Int) - 1)

/-- The object literal assigned to `this.options` in the constructor: every key is first
computed as `options.key || default`, then `...options` is spread over the result. -/
def resolveOptions (options : RawOptions) (cpuCount : Nat) : ResolvedOptions where
  maxWorkers := spreadOver options.maxWorkers
    ((readOption options.maxWorkers).or (.num (defaultMaxWorkers cpuCount)))
  timeout := spreadOver options.timeout ((readOption options.timeout).or (.num 30000))
  retries := spreadOver options.retries ((readOption options.retries).or (.num 3))
  outputDir := spreadOver options.outputDir ((readOption options.outputDir).or (.str "./data"))
  token := spreadOver options.token ((readOption options.token).or (.str ""))
  signature := spreadOver options.signature ((readOption options.signature).or (.str ""))
  throttleDelay :=
    spreadOver options.throttleDelay ((readOption options.throttleDelay).or (.num 500))
  maxMemoryUsage :=
    spreadOver options.maxMemoryUsage ((readOption options.maxMemoryUsage).or (.num 80))
  workerMemoryLimit :=
    spreadOver options.workerMemoryLimit ((readOption options.workerMemoryLimit).or (.num 300))

/-- The default argument `options = {}`: no key supplied. -/
def noOptions : RawOptions := ⟨none, none, none, none, none, none, none, none, none⟩

/-- The worker for `X` reports the collected data `sampleData`: the state after the
`result` message, computed by the handler. -/
def afterResultMessage : State :=
  onMessage spawnedDefault (taskFor "X") (.result (.collected sampleData))

/-! ## The completion signal -/

/-- What a handler other than `waitForCompletion` can do to the completion signal: leave
it alone, or invoke the pending resolver once and null both fields.  Handles are never
reused. -/
def CompletionStep (s s1 : State) : Prop :=
  s.nextHandle ≤ s1.nextHandle ∧
    ((s1.completionPromise = s.completionPromise ∧
        s1.completionResolver = s.completionResolver ∧
        s1.resolverCalls = s.resolverCalls) ∨
      (∃ r snap, s.completionResolver = some r ∧ s1.completionResolver = none ∧
        s1.completionPromise = none ∧ s1.resolverCalls = s.resolverCalls ++ [(r, snap)]))

/-- The completion signal fires at most once: promise and resolver are set or null
together, a pending resolver has not been invoked, and no resolver was invoked twice. -/
def SingleFire (s : State) : Prop :=
  s.completionPromise = s.completionResolver ∧
    (∀ r, s.completionResolver = some r →
      r < s.nextHandle ∧ r ∉ s.resolverCalls.map Prod.fst) ∧
    (∀ r ∈ s.resolverCalls.map Prod.fst, r < s.nextHandle) ∧
    (s.resolverCalls.map Prod.fst).Nodup

/-- One task `X` is added, the crawler is started and a caller waits for completion. -/
def waitingEvents : List Event :=
  [.addSymbols (.array [.obj (taskFor "X")]), .start, .startResume .ok, .waitForCompletion]

/-! ## The worker process (`src/src/CrawlerWorker.js`)

The worker is embedded the same way: its module-level variables and the locals of the
one `crawlSymbol` call form the state, every callback is a function on it, and the
market-data client, the timer and the parent are the environment that picks the next
callback.  A continuation of an `await` runs right after the callback that settled the
promise, and `process.nextTick(() => process.exit(code))` runs before any other event, so
both are folded into the callback that triggers them. -/

/-- The `task` of a `start` message as the worker uses it.  `range` is the number the
comparison `chart.periods.length >= range` compares with (`none` when it is not a number,
as for `undefined`: the comparison is then false); `timeout` is `none` when absent. -/
structure StartTask where
  symbol : JSVal
  timeframe : JSVal
  range : Option Int
  timeout : Option Nat
  token : String
  signature : String
  deriving DecidableEq, Repr

/-- Whether creating the client, the chart session and the market request succeeds. -/
inductive SetupOutcome where
  | ok
  | clientThrows (message : String)
  | chartThrows (message : String)
  deriving DecidableEq, Repr

/-- Where the one `crawlSymbol` call of the worker stands. -/
inductive WorkerPhase where
  | idle
  | collecting
  | ending
  | failing
  deriving DecidableEq, Repr

/-- The signals the worker installs a handler for. -/
inductive WorkerSignal where
  | sigterm
  | sigint
  deriving DecidableEq, Repr

/-- IPC messages the parent sends, by `message.type`. -/
inductive ParentMessage where
  | start (task : StartTask) (setup : SetupOutcome)
  | terminate
  | timeout
  | other
  deriving DecidableEq, Repr

/-- The module-level variables `activeClient`, `activeTimeout`, `isExiting`, the locals
`collectedData` and `timeoutReached` of `crawlSymbol`, the `periods` of the chart, and
what the process has done so far: messages sent to the parent, calls of `client.end()`,
and the exit code once the process has exited. -/
structure WorkerState where
  activeClient : Bool
  activeTimeout : Bool
  timerArmed : Bool
  isExiting : Bool
  phase : WorkerPhase
  symbol : JSVal
  range : Option Int
  timeoutDuration : Nat
  chartPeriods : List Candle
  collectedData : CollectedData
  timeoutReached : Bool
  sent : List WorkerMessage
  teardowns : Nat
  exitCode : Option Nat
  deriving DecidableEq, Repr

/-- The worker process before it has received its `start` message. -/
def idleWorker : WorkerState where
  activeClient := false
  activeTimeout := false
  timerArmed := false
  isExiting := false
  phase := .idle
  symbol := .undefined
  range := none
  timeoutDuration := 30000
  chartPeriods := []
  collectedData := ⟨.undefined, .undefined, [], none⟩
  timeoutReached := false
  sent := []
  teardowns := 0
  exitCode := none

/-- The call `process.send(message)`. -/
def workerSend (w : WorkerState) (m : WorkerMessage) : WorkerState :=
  { w with sent := w.sent ++ [m] }

/-- The expression `error.message || 'Unknown error'`. -/
def errorText (message : String) : String :=
  if message = "" then "Unknown error" else message

/-- The function `cleanupAndExit`, with the `process.exit(code)` it schedules. -/
def cleanupAndExit (w : WorkerState) (code : Nat) : WorkerState :=
  if w.isExiting then w
  else
    let w1 := { w with isExiting := true }
    let w2 := if w1.activeTimeout
      then { w1 with activeTimeout := false, timerArmed := false } else w1
    let w3 := if w2.activeClient
      then { w2 with teardowns := w2.teardowns + 1, activeClient := false } else w2
    { w3 with exitCode := some code }

/-- The `catch` block of `crawlSymbol`: report the error, then tear the client down
(awaited, errors ignored) before `cleanupAndExit(1)`. -/
def crawlFailed (w : WorkerState) (message : String) : WorkerState :=
  let w1 := workerSend w (.error (errorText message))
  if w1.activeClient then { w1 with teardowns := w1.teardowns + 1, phase := .failing }
  else cleanupAndExit w1 1

/-- The part of `crawlSymbol` after `await Promise.race(...)` has resolved with
`collectedData`: clear the timer if the data won, send the result (an object with a
`periods` array always passes the validation), then `await client.end()`. -/
def crawlResolved (w : WorkerState) : WorkerState :=
  let w1 := if w.activeTimeout && !w.timeoutReached
    then { w with activeTimeout := false, timerArmed := false } else w
  let w2 := workerSend w1 (.result (.collected w1.collectedData))
  { w2 with teardowns := w2.teardowns + 1, phase := .ending }

/-- The function `crawlSymbol` up to `await Promise.race(...)`. -/
def crawlSymbol (w : WorkerState) (task : StartTask) (setup : SetupOutcome) : WorkerState :=
  let w1 := workerSend
    { w with
      symbol := task.symbol,
      range := task.range,
      timeoutDuration := if task.timeout.getD 0 = 0 then 30000 else task.timeout.getD 0 }
    (.log ("Starting to crawl " ++ task.symbol.toStr ++ " on " ++
      task.timeframe.toStr ++ " timeframe"))
  match setup with
  | .clientThrows message => crawlFailed w1 message
  | .chartThrows message => crawlFailed { w1 with activeClient := true } message
  | .ok =>
    { w1 with
      activeClient := true,
      collectedData := ⟨task.symbol, task.timeframe, [], none⟩,
      timeoutReached := false,
      activeTimeout := true,
      timerArmed := true,
      phase := .collecting }

/-- The comparison `chart.periods.length >= range`. -/
def reachesRange (length : Nat) (range : Option Int) : Bool :=
  match range with
  | some r => decide (r ≤ (length : Int))
  | none => false

/-- The callback of `chart.onUpdate`; the chart holds its new `periods` already. -/
def chartOnUpdate (w : WorkerState) : WorkerState :=
  if w.chartPeriods.length > 0 then
    let w1 := { w with collectedData := { w.collectedData with periods := w.chartPeriods } }
    let w2 := workerSend w1 (.log ("Collected " ++ toString w.chartPeriods.length ++
      " candles for " ++ w.symbol.toStr))
    if reachesRange w.chartPeriods.length w.range then
      if w2.phase = .collecting then crawlResolved w2 else w2
    else w2
  else w

/-- The callback of `chart.onSymbolLoaded`; `infos` is `chart.infos`, given by its
description, or `none` when the chart has none. -/
def chartOnSymbolLoaded (w : WorkerState) (infos : Option String) : WorkerState :=
  match infos with
  | some description =>
    let w1 := workerSend w (.log ("Symbol loaded: " ++
      (if description = "" then w.symbol.toStr else description)))
    { w1 with collectedData := { w1.collectedData with info := some description } }
  | none =>
    workerSend w (.log ("Symbol loaded: " ++ w.symbol.toStr ++ " (no info available)"))

/-- The callback of `chart.onError`: reject the data promise; the rejection is felt only
while the race is pending. -/
def chartOnError (w : WorkerState) (args : List String) : WorkerState :=
  if w.phase = .collecting then crawlFailed w ("Chart error: " ++ " ".intercalate args) else w

/-- The callback of the timeout timer. -/
def onTimeout (w : WorkerState) : WorkerState :=
  let w1 := { w with timerArmed := false, timeoutReached := true }
  if w1.chartPeriods.length > 0 then
    let w2 := workerSend w1 (.log ("Timeout reached, but returning partial data (" ++
      toString w1.chartPeriods.length ++ " candles) for " ++ w1.symbol.toStr))
    if w2.phase = .collecting then crawlResolved w2 else w2
  else if w1.phase = .collecting then
    crawlFailed w1 ("Timeout after " ++ toString w1.timeoutDuration ++ "ms while crawling " ++
      w1.symbol.toStr)
  else w1

/-- The continuation of the awaited `client.end()`: on the success path `cleanupAndExit(0)`
when it resolves and the `catch` block when it rejects; inside the `catch` block
`cleanupAndExit(1)` either way. -/
def onEndSettled (w : WorkerState) (error : Option String) : WorkerState :=
  match w.phase with
  | .ending =>
    match error with
    | none => cleanupAndExit w 0
    | some message => crawlFailed w message
  | .failing => cleanupAndExit w 1
  | _ => w

/-- The handlers `process.on('SIGTERM', ...)` and `process.on('SIGINT', ...)`. -/
def onSignal (w : WorkerState) (sig : WorkerSignal) : WorkerState :=
  let name := match sig with
    | .sigterm => "SIGTERM"
    | .sigint => "SIGINT"
  cleanupAndExit (workerSend w (.log ("Worker received " ++ name ++ " signal"))) 0

/-- The handler `process.on('unhandledRejection', ...)`. -/
def onUnhandledRejection (w : WorkerState) : WorkerState := cleanupAndExit w 1

/-- The handler `process.on('message', ...)`: only `message.type === 'start'` is acted
on. -/
def onParentMessage (w : WorkerState) (message : ParentMessage) : WorkerState :=
  match message with
  | .start task setup => crawlSymbol w task setup
  | .terminate => w
  | .timeout => w
  | .other => w

/-- What can happen to the worker process next. -/
inductive WorkerEvent where
  | message (m : ParentMessage)
  | signal (sig : WorkerSignal)
  | unhandledRejection
  | chartUpdate (periods : List Candle)
  | symbolLoaded (infos : Option String)
  | chartError (args : List String)
  | timeoutFires
  | endSettled (error : Option String)
  deriving DecidableEq, Repr

/-- One event of the worker process; `none` when the event cannot occur: the process has
exited, a second `start` arrives (the worker handles one task), the chart does not exist
yet, the timer is not armed, or no `client.end()` is awaited. -/
def workerStep (w : WorkerState) (e : WorkerEvent) : Option WorkerState :=
  if w.exitCode.isSome then none
  else
    match e with
    | .message (.start task setup) =>
      if w.phase = .idle then some (onParentMessage w (.start task setup)) else none
    | .message m => some (onParentMessage w m)
    | .signal sig => some (onSignal w sig)
    | .unhandledRejection => some (onUnhandledRejection w)
    | .chartUpdate periods =>
      if w.phase = .idle then none else some (chartOnUpdate { w with chartPeriods := periods })
    | .symbolLoaded infos =>
      if w.phase = .idle then none else some (chartOnSymbolLoaded w infos)
    | .chartError args => if w.phase = .idle then none else some (chartOnError w args)
    | .timeoutFires => if w.timerArmed then some (onTimeout w) else none
    | .endSettled error =>
      if w.phase = .ending ∨ w.phase = .failing then some (onEndSettled w error) else none

/-- Run a sequence of worker events; `none` as soon as one cannot occur. -/
def workerRun (w : WorkerState) : List WorkerEvent → Option WorkerState
  | [] => some w
  | e :: es =>
    match workerStep w e with
    | some w1 => workerRun w1 es
    | none => none

/-- The terminal messages among those the worker has sent: `result` and `error`. -/
def terminalMessages (w : WorkerState) : List WorkerMessage :=
  w.sent.filter (fun m =>
    match m with
    | .result _ => true
    | .error _ => true
    | _ => false)

/-- The chart's `periods` after a sequence of events, starting from `current`: every
update replaces them, as the client delivers cumulative snapshots. -/
def periodsAfter (current : List Candle) : List WorkerEvent → List Candle
  | [] => current
  | .chartUpdate periods :: es => periodsAfter periods es
  | _ :: es => periodsAfter current es

/-- The client contract that `periods` never shrinks: along the events, every update
carries at least as many periods as the chart held before (`held` of them at first). -/
def neverShrinks (held : Nat) : List WorkerEvent → Bool
  | [] => true
  | .chartUpdate periods :: es => decide (held ≤ periods.length) && neverShrinks periods.length es
  | _ :: es => neverShrinks held es

/-- Invariant of the worker: `isExiting` is set only together with the exit; the
collected periods are the chart's periods; an idle worker has no chart data; while the
race is pending in a live worker the timer is armed, has not fired, and the client is
set; and a live worker that is idle or collecting has sent no terminal message. -/
structure WorkerInv (w : WorkerState) : Prop where
  exiting : w.isExiting = true → w.exitCode ≠ none
  sync : w.collectedData.periods = w.chartPeriods
  fresh : w.phase = .idle → w.chartPeriods = []
  armed : w.phase = .collecting → w.exitCode = none →
    w.timerArmed = true ∧ w.timeoutReached = false ∧ w.activeClient = true
  silent : w.phase = .idle ∨ w.phase = .collecting → w.exitCode = none →
    terminalMessages w = []

/-- The task of the worker scenarios: 500 daily candles of `X` within 1000 ms. -/
def slowTask : StartTask := ⟨.str "X", .str "D", some 500, some 1000, "", ""⟩

/-- Ten candles, as a chart delivers them in one cumulative snapshot. -/
def tenCandles : List Candle :=
  (List.range 10).map (fun i => ⟨1700000000 + 86400 * i, 100, 110, 90, 105, 1000⟩)

/-- The worker is started on `slowTask`, the symbol loads, and the chart delivers four
and then ten candles. -/
def slowEvents : List WorkerEvent :=
  [.message (.start slowTask .ok), .symbolLoaded (some "X Corp"),
   .chartUpdate (tenCandles.take 4), .chartUpdate tenCandles]

/-- The worker with ten of its 500 candles collected, its timer still pending. -/
def slowWorker : WorkerState := (workerRun idleWorker slowEvents).getD idleWorker

/-- A task asking for two candles. -/
def smallTask : StartTask := ⟨.str "X", .str "D", some 2, some 1000, "", ""⟩

/-- The worker collects the two candles it was asked for and sends its result; the
awaited `client.end()` then rejects, and the teardown inside the `catch` block settles. -/
def teardownFailureEvents : List WorkerEvent :=
  [.message (.start smallTask .ok), .chartUpdate (tenCandles.take 2),
   .endSettled (some "WebSocket is not open"), .endSettled none]

/-- The worker after `teardownFailureEvents`. -/
def afterTeardownFailure : WorkerState :=
  (workerRun idleWorker teardownFailureEvents).getD idleWorker

/-- The worker after it has received `SIGTERM` while collecting. -/
def afterSigterm : WorkerState := (workerStep slowWorker (.signal .sigterm)).getD idleWorker

/-! ## Admission attempts while throttled -/

/-- One task `X` is added, a caller waits and the crawler is started; the admission loop
finds the queue empty half a second later. -/
def firstTaskSpawned : List Event :=
  [.addSymbols (.array [.obj (taskFor "X")]), .waitForCompletion, .start, .startResume .ok,
   .advance 500, .timer 3 .ok true, .advance 500]

/-- The worker for `X` reports its data and exits; the `_processQueue` call armed by the
exit handler becomes due. -/
def firstTaskDone : List Event :=
  [.advance 2000, .workerMessage 0 (.result (.collected sampleData)), .advance 5,
   .workerExit 0 (some 0) none, .advance 100]

/-- The monitor reads 90 % (ceiling 80 %) while the only worker is running. -/
def throttledEvents : List Event :=
  firstTaskSpawned ++ [.monitorTick 1 (some 90) .ok] ++ firstTaskDone

/-- The monitor reads 50 % while the only worker is running. -/
def unthrottledEvents : List Event :=
  firstTaskSpawned ++ [.monitorTick 1 (some 50) .ok] ++ firstTaskDone

/-- Running and throttled, the queue empty, no worker active, a resolver pending. -/
def idleThrottled : State :=
  (run (init defaultOptions) throttledEvents).getD (init defaultOptions)

/-- Running and not throttled, the queue empty, no worker active, a resolver pending. -/
def idleUnthrottled : State :=
  (run (init defaultOptions) unthrottledEvents).getD (init defaultOptions)

/-- The state after the `_processQueue` call armed by the exit handler has run while
throttled. -/
def afterThrottledAttempt : State :=
  (step idleThrottled (.timer 4 .ok true)).getD (init defaultOptions)

/-! ## Queue order -/

/-- A handler that admits nothing and at most pushes onto the end of the queue. -/
def PushOnly (s s1 : State) : Prop :=
  s1.admitted = s.admitted ∧ s.taskQueue <+: s1.taskQueue

/-- The queue discipline between a state and a later one: the log of admitted tasks only
grows at its end, and so does the sequence "admitted tasks, then queued tasks", which
lists the tasks in the order they entered the queue. -/
def QueueOrder (s s1 : State) : Prop :=
  s.admitted <+: s1.admitted ∧ s.admitted ++ s.taskQueue <+: s1.admitted ++ s1.taskQueue

/-- Between `s` and `s1` either nothing was re-enqueued, or `task` was re-enqueued once
(`retried` grew by one) and its copy with `retries + 1` is the last queue element, behind
everything that was queued before. -/
def RequeuedAtTail (task : Task) (s s1 : State) : Prop :=
  (s1.taskStats.retried = s.taskStats.retried ∧ s1.taskQueue = s.taskQueue) ∨
    (s1.taskStats.retried = s.taskStats.retried + 1 ∧
      s1.taskQueue = s.taskQueue ++ [task.retried])

/-- One worker slot, otherwise the defaults. -/
def fifoOptions : Options := ⟨1, 30000, 3, "./data", "", "", 500, 80, 300⟩

/-- Tasks `A`, `B`, `C` are added and the crawler is started; the worker for `A` crashes
after 45 ms with exit code 1. -/
def fifoStart : List Event :=
  [.addSymbols (.array [.obj (taskFor "A"), .obj (taskFor "B"), .obj (taskFor "C")]),
   .start, .startResume .ok, .advance 45, .workerExit 0 (some 1) none]

/-- The `_processQueue` call armed by the exit admits the next task; the first spawn
timer finds the pool full; the second worker reports its data and exits, and the call
armed by that exit admits again. -/
def fifoRest : List Event :=
  [.advance 100, .timer 3 .ok true, .advance 355, .timer 2 .ok true,
   .advance 2000, .workerMessage 1 (.result (.collected sampleData)), .advance 5,
   .workerExit 1 (some 0) none, .advance 100, .timer 6 .ok true]

/-- The state after the worker for `A` has crashed. -/
def afterCrash : State := (run (init fifoOptions) fifoStart).getD (init fifoOptions)

/-- The state after `B` and `C` have been admitted. -/
def afterThirdAdmission : State := (run afterCrash fifoRest).getD (init fifoOptions)

/-! ## Spawn times -/

/-- The clock readings (`Date.now()`) at which the events of a run fork a worker process,
in the order of the forks. -/
def spawnTimes (s : State) : List Event → List Nat
  | [] => []
  | e :: es =>
    match step s e with
    | some s1 =>
      (if s.spawned.length < s1.spawned.length then [s.clock] else []) ++ spawnTimes s1 es
    | none => []

/-- Four tasks with two worker slots and the default `throttleDelay` of 500 ms.  `A` is
spawned at 0 ms and `B` at 500 ms by the spawn timer, whose next firing finds the pool
full.  Both workers report their data and exit, at 3000 ms and 3040 ms; each exit arms a
`_processQueue` call 100 ms later (timers 5 and 6), and both calls run. -/
def burstEvents : List Event :=
  [.addSymbols (.array [.obj (taskFor "A"), .obj (taskFor "B"), .obj (taskFor "C"),
     .obj (taskFor "D")]),
   .start, .startResume .ok, .advance 500, .timer 2 .ok true, .advance 500,
   .timer 4 .ok true, .advance 2000,
   .workerMessage 0 (.result (.collected sampleData)), .workerExit 0 (some 0) none,
   .advance 40,
   .workerMessage 1 (.result (.collected sampleData)), .workerExit 1 (some 0) none,
   .advance 60, .timer 5 .ok true, .advance 40, .timer 6 .ok true]

/-- The state at the end of `burstEvents`. -/
def afterBurst : State := (run (init defaultOptions) burstEvents).getD (init defaultOptions)

/-! ## The life of a task -/

/-- Whether an event keeps to the orderly course of a run in state `s`: `stop` is not
called (so no suspended `stop` resumes), the send of a `start` message does not fail, and
a worker exits with code 0 or on `SIGTERM` only after the result or the error of its task
has been recorded. -/
def Event.orderly (s : State) : Event → Bool
  | .stop => false
  | .stopResume _ => false
  | .sendCallback _ err => !err
  | .workerExit w code signal =>
    match s.spawned.get? w with
    | some p =>
      (decide (code ≠ some 0) && decide (signal ≠ some "SIGTERM")) ||
        isTerminal s p.task.symbol
    | none => true
  | _ => true

/-- Whether every event of a run is orderly in the state in which it occurs. -/
def orderlyRun (s : State) : List Event → Bool
  | [] => true
  | e :: es =>
    e.orderly s &&
      match step s e with
      | some s1 => orderlyRun s1 es
      | none => true

/-- Worker ids are what `_spawnWorker` computes: the id of every forked process and the
key of every `activeWorkers` entry is `symbol + '_' + time` for its own task. -/
structure Keyed (s : State) : Prop where
  procs : ∀ p ∈ s.spawned, ∃ n, p.id = workerId p.task n
  workers : ∀ e ∈ s.activeWorkers, ∃ n, e.1 = workerId e.2.task n

/-- Every `activeWorkers` entry belongs to a forked process that has not exited. -/
def Alive (s : State) : Prop :=
  ∀ e ∈ s.activeWorkers, ∃ p ∈ s.spawned, p.id = e.1 ∧ p.exited = false

/-- As long as nothing has been re-queued, a task taken from the queue is not in the
queue and is held in `activeWorkers` or terminal. -/
def Taken (s : State) : Prop :=
  s.taskStats.retried = 0 → ∀ c ∈ symbolsOf s.admitted,
    queueCopies s c = 0 ∧ (heldActive s c = true ∨ isTerminal s c = true)

/-- The effect of a handler acting for the task with symbol `c`, as far as the places of
tasks go: it admits nothing and forks nothing, leaves the queue alone unless it re-queues
(`retried` grows), removes no worker of another symbol, forgets no result or error, and
leaves `c` held or terminal if it was. -/
structure Handles (c : JSVal) (s s1 : State) : Prop where
  retried : s.taskStats.retried ≤ s1.taskStats.retried
  queue : s1.taskStats.retried = s.taskStats.retried → s1.taskQueue = s.taskQueue
  admitted : s1.admitted = s.admitted
  spawned : s1.spawned = s.spawned
  active : ∀ e ∈ s1.activeWorkers, e ∈ s.activeWorkers
  kept : ∀ e ∈ s.activeWorkers, e.2.task.symbol ≠ c → e ∈ s1.activeWorkers
  terminal : ∀ k, isTerminal s k = true → isTerminal s1 k = true
  own : s1.taskStats.retried = s.taskStats.retried →
    heldActive s c = true ∨ isTerminal s c = true →
    heldActive s1 c = true ∨ isTerminal s1 c = true

/-- Tasks `A`, `B`, `C` with two worker slots: `A` and `B` are admitted 500 ms apart and
the next attempt finds the pool full; `A` reports its data and exits, then `B` reports
its data. -/
def lifecycleEvents : List Event :=
  [.addSymbols (.array [.obj (taskFor "A"), .obj (taskFor "B"), .obj (taskFor "C")]),
   .start, .startResume .ok, .advance 500, .timer 2 .ok true, .advance 500,
   .timer 4 .ok true, .advance 2000,
   .workerMessage 0 (.result (.collected sampleData)), .advance 5,
   .workerExit 0 (some 0) none,
   .workerMessage 1 (.result (.collected sampleData))]

/-- The state at the end of `lifecycleEvents`. -/
def midLifecycle : State :=
  (run (init defaultOptions) lifecycleEvents).getD (init defaultOptions)

/-- The effect of `_spawnWorker` for `task`, as far as the places of tasks go: any new
process and any new `activeWorkers` entry is that of `task` under the id computed from
the clock, no other entry is lost, nothing recorded is forgotten, and unless the task is
re-queued it ends up held or terminal. -/
structure Spawns (task : Task) (s s1 : State) : Prop where
  retried : s.taskStats.retried ≤ s1.taskStats.retried
  queue : s1.taskStats.retried = s.taskStats.retried → s1.taskQueue = s.taskQueue
  admitted : s1.admitted = s.admitted
  procs : ∀ p ∈ s1.spawned, p ∈ s.spawned ∨ (p.id = workerId task s.clock ∧ p.task = task)
  workers : ∀ e ∈ s1.activeWorkers,
    e ∈ s.activeWorkers ∨ (e.1 = workerId task s.clock ∧ e.2.task = task)
  kept : ∀ e ∈ s.activeWorkers, e.1 ≠ workerId task s.clock → e ∈ s1.activeWorkers
  grown : ∀ p ∈ s.spawned, p ∈ s1.spawned
  born : ∀ e ∈ s1.activeWorkers,
    e ∈ s.activeWorkers ∨ ∃ p ∈ s1.spawned, p.id = e.1 ∧ p.exited = false
  terminal : ∀ k, isTerminal s k = true → isTerminal s1 k = true
  own : s1.taskStats.retried = s.taskStats.retried →
    heldActive s1 task.symbol = true ∨ isTerminal s1 task.symbol = true

/-- One task `X` is added and the crawler is started: the worker for `X` is forked. -/
def spawnEvents : List Event :=
  [.addSymbols (.array [.obj (taskFor "X")]), .start, .startResume .ok]

/-- While the worker for `X` is running `stop` is called; the worker exits with code 0
and the suspended `stop` resumes. -/
def stoppedEarlyEvents : List Event :=
  [.stop, .workerExit 0 (some 0) none, .stopResume 0]

/-- The state after `stop` has returned. -/
def stoppedEarly : State :=
  (run (init defaultOptions) (spawnEvents ++ stoppedEarlyEvents)).getD (init defaultOptions)

/-- The state after the worker for `X` has exited with code 0 without reporting. -/
def exitedEarly : State :=
  (run (init defaultOptions) (spawnEvents ++ [.workerExit 0 (some 0) none])).getD
    (init defaultOptions)

/-- Two tasks whose symbols are distinct values with the same string form: the number
`1` and the string `'1'`. -/
def mixedTasks : List Task :=
  [⟨.num 1, .str "D", .num 100, none⟩, ⟨.str "1", .str "D", .num 100, none⟩]

/-- With `throttleDelay: 0` both tasks are admitted within the same millisecond. -/
def sameIdEvents : List Event :=
  [.addSymbols (.array (mixedTasks.map JSEntry.obj)), .start, .startResume .ok,
   .timer 2 .ok true]

/-- The state after both tasks of `mixedTasks` have been admitted. -/
def afterSameId : State := (run (init poolOptions) sameIdEvents).getD (init poolOptions)

/-! ## Properties -/

theorem JSMap.size_set_le {κ ν : Type} [DecidableEq κ] (m : JSMap κ ν) (k : κ) (v : ν) :
    (JSMap.set m k v).size ≤ m.size + 1 := by
  unfold JSMap.set JSMap.size
  split <;> simp

theorem JSMap.size_delete_le {κ ν : Type} [DecidableEq κ] (m : JSMap κ ν) (k : κ) :
    (JSMap.delete m k).size ≤ m.size := by
  unfold JSMap.delete JSMap.size
  exact List.length_filter_le _ _

theorem size_storeTimeoutId (m : JSMap String WorkerInfo) (id : String) (t : Nat) :
    JSMap.size (storeTimeoutId m id t) = JSMap.size m := by
  simp [storeTimeoutId, JSMap.size]

theorem noGrow_refl (s : State) : NoGrow s s := ⟨rfl, le_refl _⟩

theorem noGrow_trans {a b c : State} (h1 : NoGrow a b) (h2 : NoGrow b c) : NoGrow a c :=
  ⟨h2.1.trans h1.1, le_trans h2.2 h1.2⟩

theorem noGrow_checkCompletion (s : State) : NoGrow s (_checkCompletion s) := by
  unfold _checkCompletion resolveCompletion stopMonitoring clearInterval NoGrow
  split
  · split <;> split <;> simp_all
  · simp

theorem noGrow_saveResult (s : State) (symbol : JSVal) (data : JSData) :
    NoGrow s (_saveResult s symbol data) := by
  unfold _saveResult NoGrow
  split
  · simp
  · simp
  · split <;> simp

theorem noGrow_onMessage (s : State) (task : Task) (m : WorkerMessage) :
    NoGrow s (onMessage s task m) := by
  cases m with
  | result data => exact noGrow_trans ⟨rfl, le_refl _⟩ (noGrow_saveResult _ _ _)
  | error e =>
    unfold onMessage NoGrow requeue markFailed
    dsimp only
    split <;> simp
  | log d => exact noGrow_refl s
  | progress => exact noGrow_refl s
  | memory => exact noGrow_refl s
  | other => exact noGrow_refl s

theorem noGrow_onError (s : State) (id : String) (task : Task) (m : String) :
    NoGrow s (onError s id task m) := by
  unfold onError NoGrow setTimeout
  exact ⟨rfl, JSMap.size_delete_le _ _⟩

theorem noGrow_onExit (s : State) (id : String) (task : Task) (code : Option Int)
    (signal : Option String) : NoGrow s (onExit s id task code signal) := by
  unfold onExit NoGrow setTimeout requeue markFailed
  dsimp only
  refine ⟨?_, ?_⟩
  · split
    · split
      · split
        · rfl
        · split <;> rfl
      · rfl
    · rfl
  · refine le_trans (JSMap.size_delete_le _ _) ?_
    split
    · split
      · split
        · exact le_refl _
        · split <;> exact le_refl _
      · exact le_refl _
    · exact le_refl _

theorem noGrow_onSendCallback (s : State) (w : Nat) (id : String) (err : Bool) :
    NoGrow s (onSendCallback s w id err) := by
  unfold onSendCallback NoGrow setTimeout send
  split
  · exact ⟨rfl, JSMap.size_delete_le _ _⟩
  · exact ⟨rfl, le_refl _⟩

theorem noGrow_onHardTimeout (s : State) (w : Nat) (id : String) (task : Task) :
    NoGrow s (onHardTimeout s w id task) := by
  unfold onHardTimeout NoGrow setTimeout send requeue markFailed
  dsimp only
  split
  · split <;> exact ⟨rfl, le_refl _⟩
  · exact ⟨rfl, le_refl _⟩

theorem noGrow_onGraceKill (s : State) (w : Nat) (id : String) :
    NoGrow s (onGraceKill s w id) := by
  unfold onGraceKill NoGrow send
  split <;> exact ⟨rfl, le_refl _⟩

theorem noGrow_onForceKill (s : State) (w : Nat) (c : Bool) :
    NoGrow s (onForceKill s w c) := by
  unfold onForceKill NoGrow send
  split <;> exact ⟨rfl, le_refl _⟩

theorem noGrow_addSymbols (s : State) (a : JSArg) : NoGrow s (addSymbols s a) := by
  unfold addSymbols NoGrow
  split
  · exact ⟨rfl, le_refl _⟩
  · split <;> exact ⟨rfl, le_refl _⟩

theorem noGrow_start (s : State) : NoGrow s (start s) := by
  unfold start NoGrow
  split <;> exact ⟨rfl, le_refl _⟩

theorem noGrow_waitForCompletion (s : State) : NoGrow s (waitForCompletion s) := by
  unfold waitForCompletion NoGrow
  split
  · exact ⟨rfl, le_refl _⟩
  · split <;> exact ⟨rfl, le_refl _⟩

theorem noGrow_stopWorker (s : State) (e : String × WorkerInfo) :
    (stopWorker s e).options = s.options ∧ (stopWorker s e).activeWorkers = s.activeWorkers := by
  unfold stopWorker setTimeout send clearTimeout
  dsimp only
  split <;> exact ⟨rfl, rfl⟩

theorem noGrow_foldl_stopWorker (l : List (String × WorkerInfo)) (s : State) :
    (l.foldl stopWorker s).options = s.options ∧
      (l.foldl stopWorker s).activeWorkers = s.activeWorkers := by
  induction l generalizing s with
  | nil => exact ⟨rfl, rfl⟩
  | cons e l ih =>
    rw [List.foldl_cons]
    exact ⟨(ih _).1.trans (noGrow_stopWorker s e).1, (ih _).2.trans (noGrow_stopWorker s e).2⟩

theorem noGrow_resolveCompletion (s : State) : NoGrow s (resolveCompletion s) := by
  unfold resolveCompletion NoGrow
  split <;> exact ⟨rfl, le_refl _⟩

theorem noGrow_stopMonitoring (s : State) : NoGrow s (stopMonitoring s) := by
  unfold stopMonitoring NoGrow clearInterval
  split <;> exact ⟨rfl, le_refl _⟩

theorem noGrow_stopFinish (s : State) : NoGrow s (stopFinish s) := by
  unfold stopFinish
  refine noGrow_trans ?_ (noGrow_resolveCompletion _)
  exact ⟨rfl, Nat.zero_le _⟩

theorem noGrow_stop (s : State) : NoGrow s (stop s) := by
  unfold stop
  dsimp only
  split
  · exact noGrow_refl s
  · have h1 : NoGrow s (stopMonitoring { s with running := false }) :=
      noGrow_trans ⟨rfl, le_refl _⟩ (noGrow_stopMonitoring _)
    have h2 := noGrow_foldl_stopWorker (stopMonitoring { s with running := false }).activeWorkers
      (stopMonitoring { s with running := false })
    have h3 : NoGrow s ((stopMonitoring { s with running := false }).activeWorkers.foldl stopWorker
        (stopMonitoring { s with running := false })) :=
      noGrow_trans h1 ⟨h2.1, le_of_eq (congrArg JSMap.size h2.2)⟩
    split
    · exact noGrow_trans h3 ⟨rfl, le_refl _⟩
    · exact noGrow_trans h3 (noGrow_stopFinish _)

theorem noGrow_stopResume (s : State) (k : Nat) : NoGrow s (stopResume s k) := by
  unfold stopResume
  exact noGrow_trans ⟨rfl, le_refl _⟩ (noGrow_stopFinish _)

theorem WithinLimit.of_noGrow {o : Options} {s s1 : State} (h : WithinLimit o s)
    (g : NoGrow s s1) : WithinLimit o s1 :=
  ⟨g.1.trans h.1, le_trans g.2 h.2⟩

theorem spawnWorker_options (s : State) (task : Task) (fork : SpawnOutcome) :
    (_spawnWorker s task fork).options = s.options := by
  unfold _spawnWorker setTimeout send requeue markFailed
  dsimp only
  split
  · rfl
  · split <;> rfl
  · split <;> rfl

theorem spawnWorker_size (s : State) (task : Task) (fork : SpawnOutcome) :
    (_spawnWorker s task fork).activeWorkers.size ≤ s.activeWorkers.size + 1 := by
  unfold _spawnWorker setTimeout send requeue markFailed
  dsimp only
  split
  · rw [size_storeTimeoutId]
    exact JSMap.size_set_le _ _ _
  · split <;> exact Nat.le_succ _
  · split <;> exact JSMap.size_set_le _ _ _

theorem withinLimit_spawnNextWorker (o : Options) (s : State) (fork : SpawnOutcome)
    (h : WithinLimit o s) :
    WithinLimit o (spawnNextWorker s fork) := by
  unfold spawnNextWorker
  split
  · exact h
  · split
    · rename_i hg
      split
      · exact h
      · rename_i task rest hq
        unfold WithinLimit setTimeout
        dsimp only
        refine ⟨(spawnWorker_options _ _ _).trans h.1, ?_⟩
        have hmax : s.options.maxWorkers = o.maxWorkers := by rw [h.1]
        exact le_trans (spawnWorker_size _ _ _) (hmax ▸ hg.1)
    · exact h.of_noGrow (noGrow_checkCompletion s)

theorem withinLimit_processQueue (o : Options) (s : State) (fork : SpawnOutcome)
    (h : WithinLimit o s) :
    WithinLimit o (_processQueue s fork) := by
  unfold _processQueue
  split
  · exact h
  · exact withinLimit_spawnNextWorker o s fork h

theorem withinLimit_startResume (o : Options) (s : State) (fork : SpawnOutcome)
    (h : WithinLimit o s) :
    WithinLimit o (startResume s fork) := by
  unfold startResume
  exact withinLimit_processQueue o _ fork h

theorem withinLimit_resourceMonitorTick (o : Options) (s : State) (p : Option Nat)
    (fork : SpawnOutcome)
    (h : WithinLimit o s) : WithinLimit o (resourceMonitorTick s p fork) := by
  unfold resourceMonitorTick
  split
  · exact h
  · split
    · split <;> exact h
    · split
      · exact withinLimit_processQueue o _ fork h
      · exact h

theorem withinLimit_fireTimer (o : Options) (s : State) (t : Timer) (fork : SpawnOutcome) (c : Bool)
    (h : WithinLimit o s) : WithinLimit o (fireTimer s t fork c) := by
  unfold fireTimer
  split
  · exact withinLimit_spawnNextWorker o s fork h
  · exact withinLimit_processQueue o s fork h
  · split
    · exact h.of_noGrow (noGrow_onHardTimeout _ _ _ _)
    · exact h
  · split
    · exact h.of_noGrow (noGrow_onGraceKill _ _ _)
    · exact h
  · exact h.of_noGrow (noGrow_onForceKill _ _ _)

theorem withinLimit_step (o : Options) (s s1 : State) (e : Event) (h : WithinLimit o s)
    (hs : step s e = some s1) : WithinLimit o s1 := by
  cases e with
  | addSymbols a =>
    simp only [step, Option.some.injEq] at hs
    subst hs
    exact h.of_noGrow (noGrow_addSymbols s a)
  | start =>
    simp only [step, Option.some.injEq] at hs
    subst hs
    exact h.of_noGrow (noGrow_start s)
  | startResume fork =>
    simp only [step] at hs
    split at hs
    · simp only [Option.some.injEq] at hs
      subst hs
      exact withinLimit_startResume o s fork h
    · simp at hs
  | stop =>
    simp only [step, Option.some.injEq] at hs
    subst hs
    exact h.of_noGrow (noGrow_stop s)
  | stopResume k =>
    simp only [step] at hs
    split at hs
    · simp only [Option.some.injEq] at hs
      subst hs
      exact h.of_noGrow (noGrow_stopResume s k)
    · simp at hs
  | waitForCompletion =>
    simp only [step, Option.some.injEq] at hs
    subst hs
    exact h.of_noGrow (noGrow_waitForCompletion s)
  | advance ms =>
    simp only [step, Option.some.injEq] at hs
    subst hs
    exact h
  | timer id fork c =>
    simp only [step] at hs
    split at hs
    · split at hs
      · simp only [Option.some.injEq] at hs
        subst hs
        exact withinLimit_fireTimer o _ _ fork c h
      · simp at hs
    · simp at hs
  | monitorTick hd p fork =>
    simp only [step] at hs
    split at hs
    · simp only [Option.some.injEq] at hs
      subst hs
      exact withinLimit_resourceMonitorTick o s p fork h
    · simp at hs
  | workerMessage w m =>
    simp only [step] at hs
    split at hs
    · simp only [Option.some.injEq] at hs
      subst hs
      exact h.of_noGrow (noGrow_onMessage _ _ _)
    · simp at hs
  | workerError w m =>
    simp only [step] at hs
    split at hs
    · simp only [Option.some.injEq] at hs
      subst hs
      exact h.of_noGrow (noGrow_onError _ _ _ _)
    · simp at hs
  | workerExit w code signal =>
    simp only [step] at hs
    split at hs
    · split at hs
      · simp at hs
      · simp only [Option.some.injEq] at hs
        subst hs
        refine WithinLimit.of_noGrow ?_
          (noGrow_trans (noGrow_onExit _ _ _ _ _) ⟨rfl, le_refl _⟩)
        exact h
    · simp at hs
  | sendCallback w err =>
    simp only [step] at hs
    split at hs
    · split at hs
      · simp at hs
      · simp only [Option.some.injEq] at hs
        subst hs
        refine WithinLimit.of_noGrow ?_ (noGrow_onSendCallback _ _ _ _)
        exact h
    · simp at hs

theorem withinLimit_init (o : Options) : WithinLimit o (init o) :=
  ⟨rfl, Nat.zero_le _⟩

theorem withinLimit_run (o : Options) (evs : List Event) (s s1 : State)
    (h : WithinLimit o s) (hr : run s evs = some s1) : WithinLimit o s1 := by
  induction evs generalizing s with
  | nil =>
    simp only [run, Option.some.injEq] at hr
    subst hr
    exact h
  | cons e es ih =>
    simp only [run] at hr
    split at hr
    · rename_i s2 hs
      exact ih s2 (withinLimit_step o s s2 e h hs) hr
    · simp at hr

theorem checkCompletion_keeps_pool (s : State) :
    (_checkCompletion s).taskQueue = s.taskQueue ∧
      (_checkCompletion s).activeWorkers = s.activeWorkers ∧
      (_checkCompletion s).spawned = s.spawned := by
  unfold _checkCompletion resolveCompletion stopMonitoring clearInterval
  split
  · split <;> split <;> simp_all
  · simp

theorem spawnNextWorker_full (s : State) (fork : SpawnOutcome)
    (h : s.options.maxWorkers ≤ s.activeWorkers.size) :
    (spawnNextWorker s fork).taskQueue = s.taskQueue ∧
      (spawnNextWorker s fork).activeWorkers = s.activeWorkers ∧
      (spawnNextWorker s fork).spawned = s.spawned := by
  unfold spawnNextWorker
  split
  · exact ⟨rfl, rfl, rfl⟩
  · split
    · rename_i hg
      exact absurd hg.1 (Nat.not_lt.mpr h)
    · exact checkCompletion_keeps_pool s

/-- C1: from a freshly constructed crawler, after any sequence of events, the
`activeWorkers` map holds at most `options.maxWorkers` entries; and whenever it holds that
many, an admission attempt by `spawnNextWorker` admits nothing (the queue, the active
workers and the forked processes are unchanged), so a queued task waits until an entry
has been removed. -/
theorem activeWorkers_never_exceed_maxWorkers (o : Options) (evs : List Event) (s : State)
    (h : run (init o) evs = some s) :
    s.activeWorkers.size ≤ o.maxWorkers ∧
      (s.activeWorkers.size = o.maxWorkers → ∀ fork : SpawnOutcome,
        (spawnNextWorker s fork).taskQueue = s.taskQueue ∧
        (spawnNextWorker s fork).activeWorkers = s.activeWorkers ∧
        (spawnNextWorker s fork).spawned = s.spawned) := by
  have hw := withinLimit_run o evs (init o) s (withinLimit_init o) h
  refine ⟨hw.2, fun hfull fork => spawnNextWorker_full s fork ?_⟩
  rw [hw.1, hfull]

/-- Witness for C1: three tasks with two slots.  Two workers are active, the third task
is still queued, and a further admission attempt leaves it queued. -/
theorem activeWorkers_never_exceed_maxWorkers_witness :
    run (init poolOptions) poolEvents = some poolState ∧
      poolState.activeWorkers.size = 2 ∧
      poolState.taskQueue = [taskFor "C"] ∧
      poolState.activeWorkers.size ≤ poolOptions.maxWorkers ∧
      (spawnNextWorker poolState .ok).taskQueue = poolState.taskQueue :=
  have hrun : run (init poolOptions) poolEvents = some poolState := by decide
  have h := activeWorkers_never_exceed_maxWorkers poolOptions poolEvents poolState hrun
  ⟨hrun, by decide, by decide, h.1, (h.2 (by decide) .ok).1⟩

theorem JSMap.mem_set {κ ν : Type} [DecidableEq κ] {m : JSMap κ ν} {k : κ} {v : ν}
    {e : κ × ν} (h : e ∈ JSMap.set m k v) : e ∈ m ∨ e = (k, v) := by
  unfold JSMap.set at h
  split at h
  · rw [List.mem_map] at h
    obtain ⟨a, ha, rfl⟩ := h
    split
    · exact Or.inr rfl
    · exact Or.inl ha
  · rw [List.mem_append, List.mem_singleton] at h
    exact h

theorem JSMap.mem_delete {κ ν : Type} [DecidableEq κ] {m : JSMap κ ν} {k : κ}
    {e : κ × ν} (h : e ∈ JSMap.delete m k) : e ∈ m :=
  (List.mem_filter.mp h).1

theorem mem_storeTimeoutId {m : JSMap String WorkerInfo} {id : String} {t : Nat}
    {e : String × WorkerInfo} (h : e ∈ storeTimeoutId m id t) :
    ∃ e0 ∈ m, e.2.task = e0.2.task := by
  unfold storeTimeoutId at h
  rw [List.mem_map] at h
  obtain ⟨a, ha, rfl⟩ := h
  refine ⟨a, ha, ?_⟩
  split <;> rfl

theorem retriesOrZero_retried (t : Task) : t.retried.retriesOrZero = t.retriesOrZero + 1 := rfl

theorem retriesBounded_requeue {o : Options} {s : State} (h : RetriesBounded o s) (t : Task)
    (ht : t.retriesOrZero < o.retries) : RetriesBounded o (requeue s t) := by
  refine ⟨h.1, ?_, h.2.2.1, h.2.2.2⟩
  intro q hq
  unfold requeue at hq
  dsimp only at hq
  rw [List.mem_append, List.mem_singleton] at hq
  rcases hq with hq | rfl
  · exact h.2.1 q hq
  · rw [retriesOrZero_retried]
    exact ht

theorem retriesBounded_onMessage {o : Options} {s : State} (h : RetriesBounded o s)
    (task : Task) (m : WorkerMessage) : RetriesBounded o (onMessage s task m) := by
  cases m with
  | result data =>
    unfold onMessage _saveResult
    dsimp only
    split
    · exact h
    · exact h
    · split <;> exact h
  | error e =>
    unfold onMessage
    dsimp only
    split
    · rename_i hlt
      refine retriesBounded_requeue ?_ task ?_
      · exact h
      · rw [← h.1]
        exact hlt
    · exact h
  | log d => exact h
  | progress => exact h
  | memory => exact h
  | other => exact h

theorem retriesBounded_onError {o : Options} {s : State} (h : RetriesBounded o s)
    (id : String) (task : Task) (m : String) : RetriesBounded o (onError s id task m) :=
  ⟨h.1, h.2.1, fun e he => h.2.2.1 e (JSMap.mem_delete he), h.2.2.2⟩

theorem retriesBounded_delete {o : Options} {s : State} (h : RetriesBounded o s)
    (id : String) :
    RetriesBounded o { s with activeWorkers := JSMap.delete s.activeWorkers id } :=
  ⟨h.1, h.2.1, fun e he => h.2.2.1 e (JSMap.mem_delete he), h.2.2.2⟩

theorem retriesBounded_setTimeout {o : Options} {s : State} (h : RetriesBounded o s)
    (k : TimerKind) (d : Nat) : RetriesBounded o (setTimeout s k d) := h

theorem retriesBounded_send {o : Options} {s : State} (h : RetriesBounded o s)
    (w : Nat) (m : Outgoing) : RetriesBounded o (send s w m) := h

theorem retriesBounded_onExit {o : Options} {s : State} (h : RetriesBounded o s)
    (id : String) (task : Task) (code : Option Int) (signal : Option String) :
    RetriesBounded o (onExit s id task code signal) := by
  unfold onExit
  dsimp only
  apply retriesBounded_setTimeout
  apply retriesBounded_delete
  split
  · split
    · split
      · rename_i hlt
        refine retriesBounded_requeue h task ?_
        rw [← h.1]
        exact hlt.2
      · split
        · exact h
        · exact h
    · exact h
  · exact h

theorem retriesBounded_onSendCallback {o : Options} {s : State} (h : RetriesBounded o s)
    (w : Nat) (id : String) (err : Bool) : RetriesBounded o (onSendCallback s w id err) := by
  unfold onSendCallback
  split
  · exact retriesBounded_setTimeout (retriesBounded_delete (retriesBounded_send h _ _) id) _ _
  · exact h

theorem retriesBounded_onHardTimeout {o : Options} {s : State} (h : RetriesBounded o s)
    (w : Nat) (id : String) (task : Task) : RetriesBounded o (onHardTimeout s w id task) := by
  unfold onHardTimeout
  dsimp only
  split
  · split
    · rename_i hlt
      refine retriesBounded_requeue ?_ task ?_
      · exact h
      · have : s.options = o := h.1
        rw [← this]
        exact hlt
    · exact h
  · exact h

theorem retriesBounded_onGraceKill {o : Options} {s : State} (h : RetriesBounded o s)
    (w : Nat) (id : String) : RetriesBounded o (onGraceKill s w id) := by
  unfold onGraceKill
  split <;> exact h

theorem retriesBounded_onForceKill {o : Options} {s : State} (h : RetriesBounded o s)
    (w : Nat) (c : Bool) : RetriesBounded o (onForceKill s w c) := by
  unfold onForceKill
  split <;> exact h

theorem retriesBounded_resolveCompletion {o : Options} {s : State}
    (h : RetriesBounded o s) : RetriesBounded o (resolveCompletion s) := by
  unfold resolveCompletion
  split <;> exact h

theorem retriesBounded_stopMonitoring {o : Options} {s : State}
    (h : RetriesBounded o s) : RetriesBounded o (stopMonitoring s) := by
  unfold stopMonitoring
  split <;> exact h

theorem retriesBounded_checkCompletion {o : Options} {s : State}
    (h : RetriesBounded o s) : RetriesBounded o (_checkCompletion s) := by
  unfold _checkCompletion
  split
  · apply retriesBounded_resolveCompletion
    have h1 := retriesBounded_stopMonitoring h
    exact h1
  · exact h

theorem retriesBounded_spawnWorker {o : Options} {s : State} (h : RetriesBounded o s)
    (task : Task) (fork : SpawnOutcome) (ht : task.retriesOrZero ≤ o.retries) :
    RetriesBounded o (_spawnWorker s task fork) := by
  unfold _spawnWorker
  dsimp only
  split
  · refine ⟨h.1, h.2.1, ?_, ?_⟩
    · intro e he
      obtain ⟨e0, he0, heq⟩ := mem_storeTimeoutId he
      rw [heq]
      rcases JSMap.mem_set he0 with h0 | rfl
      · exact h.2.2.1 e0 h0
      · exact ht
    · intro p hp
      rw [setTimeout, send] at hp
      dsimp only at hp
      rw [List.mem_append, List.mem_singleton] at hp
      rcases hp with hp | rfl
      · exact h.2.2.2 p hp
      · exact ht
  · apply retriesBounded_setTimeout
    split
    · rename_i hlt
      refine retriesBounded_requeue ?_ task ?_
      · exact h
      · have : s.options = o := h.1
        rw [← this]
        exact hlt
    · exact h
  · have hact : ∀ e ∈ JSMap.set s.activeWorkers (workerId task s.clock)
        ⟨s.spawned.length, task, s.clock, task.retriesOrZero, none⟩,
        e.2.task.retriesOrZero ≤ o.retries := by
      intro e he
      rcases JSMap.mem_set he with h0 | rfl
      · exact h.2.2.1 e h0
      · exact ht
    have hproc : ∀ p ∈ s.spawned ++ [(⟨workerId task s.clock, task, false, true⟩ : Proc)],
        p.task.retriesOrZero ≤ o.retries := by
      intro p hp
      rw [List.mem_append, List.mem_singleton] at hp
      rcases hp with hp | rfl
      · exact h.2.2.2 p hp
      · exact ht
    apply retriesBounded_setTimeout
    split
    · rename_i hlt
      refine retriesBounded_requeue ?_ task ?_
      · exact ⟨h.1, h.2.1, hact, hproc⟩
      · have : s.options = o := h.1
        rw [← this]
        exact hlt
    · exact ⟨h.1, h.2.1, hact, hproc⟩

theorem retriesBounded_spawnNextWorker {o : Options} {s : State} (h : RetriesBounded o s)
    (fork : SpawnOutcome) : RetriesBounded o (spawnNextWorker s fork) := by
  unfold spawnNextWorker
  split
  · exact h
  · split
    · split
      · exact h
      · rename_i task rest hq
        dsimp only
        apply retriesBounded_setTimeout
        apply retriesBounded_spawnWorker
        · refine ⟨h.1, ?_, h.2.2.1, h.2.2.2⟩
          intro t ht
          exact h.2.1 t (by rw [hq]; exact List.mem_cons_of_mem _ ht)
        · exact h.2.1 task (by rw [hq]; exact List.mem_cons_self _ _)
    · exact retriesBounded_checkCompletion h

theorem retriesBounded_processQueue {o : Options} {s : State} (h : RetriesBounded o s)
    (fork : SpawnOutcome) : RetriesBounded o (_processQueue s fork) := by
  unfold _processQueue
  split
  · exact h
  · exact retriesBounded_spawnNextWorker h fork

theorem retriesBounded_resourceMonitorTick {o : Options} {s : State}
    (h : RetriesBounded o s) (p : Option Nat) (fork : SpawnOutcome) :
    RetriesBounded o (resourceMonitorTick s p fork) := by
  unfold resourceMonitorTick
  split
  · exact h
  · split
    · split <;> exact h
    · split
      · exact retriesBounded_processQueue (by exact h) fork
      · exact h

theorem core_stopWorker (s : State) (e : String × WorkerInfo) :
    (stopWorker s e).options = s.options ∧ (stopWorker s e).taskQueue = s.taskQueue ∧
      (stopWorker s e).activeWorkers = s.activeWorkers ∧
      (stopWorker s e).spawned = s.spawned := by
  unfold stopWorker setTimeout send clearTimeout
  dsimp only
  split <;> exact ⟨rfl, rfl, rfl, rfl⟩

theorem core_foldl_stopWorker (l : List (String × WorkerInfo)) (s : State) :
    (l.foldl stopWorker s).options = s.options ∧
      (l.foldl stopWorker s).taskQueue = s.taskQueue ∧
      (l.foldl stopWorker s).activeWorkers = s.activeWorkers ∧
      (l.foldl stopWorker s).spawned = s.spawned := by
  induction l generalizing s with
  | nil => exact ⟨rfl, rfl, rfl, rfl⟩
  | cons e l ih =>
    rw [List.foldl_cons]
    obtain ⟨a1, a2, a3, a4⟩ := ih (stopWorker s e)
    obtain ⟨b1, b2, b3, b4⟩ := core_stopWorker s e
    exact ⟨a1.trans b1, a2.trans b2, a3.trans b3, a4.trans b4⟩

theorem retriesBounded_of_core {o : Options} {s s1 : State} (h : RetriesBounded o s)
    (hc : s1.options = s.options ∧ s1.taskQueue = s.taskQueue ∧
      s1.activeWorkers = s.activeWorkers ∧ s1.spawned = s.spawned) :
    RetriesBounded o s1 := by
  obtain ⟨c1, c2, c3, c4⟩ := hc
  unfold RetriesBounded
  rw [c1, c2, c3, c4]
  exact h

theorem retriesBounded_stopFinish {o : Options} {s : State} (h : RetriesBounded o s) :
    RetriesBounded o (stopFinish s) := by
  unfold stopFinish
  apply retriesBounded_resolveCompletion
  exact ⟨h.1, h.2.1, fun e he => absurd he (List.not_mem_nil e), h.2.2.2⟩

theorem retriesBounded_stop {o : Options} {s : State} (h : RetriesBounded o s) :
    RetriesBounded o (stop s) := by
  unfold stop
  dsimp only
  split
  · exact h
  · have h1 : RetriesBounded o (stopMonitoring { s with running := false }) :=
      retriesBounded_stopMonitoring (by exact h)
    have h2 := retriesBounded_of_core h1 (core_foldl_stopWorker
      (stopMonitoring { s with running := false }).activeWorkers
      (stopMonitoring { s with running := false }))
    split
    · exact h2
    · exact retriesBounded_stopFinish h2

theorem retriesBounded_addSymbols {o : Options} {s : State} (h : RetriesBounded o s)
    (a : JSArg) (ha : ∀ t ∈ passedTasks (.addSymbols a), t.retriesOrZero = 0) :
    RetriesBounded o (addSymbols s a) := by
  unfold addSymbols
  split
  · exact h
  · split
    · exact h
    · rename_i entries hne
      refine ⟨h.1, ?_, h.2.2.1, h.2.2.2⟩
      intro t ht
      dsimp only at ht
      rw [List.mem_append] at ht
      rcases ht with ht | ht
      · exact h.2.1 t ht
      · rw [List.mem_filterMap] at ht
        obtain ⟨e, he, het⟩ := ht
        have : t ∈ passedTasks (.addSymbols (.array entries)) := by
          unfold passedTasks
          rw [List.mem_filterMap]
          exact ⟨e, (List.mem_filter.mp he).1, het⟩
        rw [ha t this]
        exact Nat.zero_le _

theorem retriesBounded_fireTimer {o : Options} {s : State} (h : RetriesBounded o s)
    (t : Timer) (fork : SpawnOutcome) (c : Bool) : RetriesBounded o (fireTimer s t fork c) := by
  unfold fireTimer
  split
  · exact retriesBounded_spawnNextWorker h fork
  · exact retriesBounded_processQueue h fork
  · split
    · exact retriesBounded_onHardTimeout h _ _ _
    · exact h
  · split
    · exact retriesBounded_onGraceKill h _ _
    · exact h
  · exact retriesBounded_onForceKill h _ _

theorem retriesBounded_markProc {o : Options} {s : State} (h : RetriesBounded o s)
    (w : Nat) (p q : Proc) (hp : s.spawned.get? w = some p) (hq : q.task = p.task) :
    RetriesBounded o { s with spawned := s.spawned.set w q } := by
  refine ⟨h.1, h.2.1, h.2.2.1, ?_⟩
  intro r hr
  rcases List.mem_or_eq_of_mem_set hr with hr | rfl
  · exact h.2.2.2 r hr
  · rw [hq]
    exact h.2.2.2 p (List.get?_mem hp)

theorem retriesBounded_settleExit {o : Options} {s : State} (h : RetriesBounded o s)
    (w : Nat) : RetriesBounded o (settleExit s w) := h

theorem retriesBounded_step {o : Options} {s s1 : State} (e : Event)
    (h : RetriesBounded o s) (hs : step s e = some s1)
    (ha : ∀ t ∈ passedTasks e, t.retriesOrZero = 0) : RetriesBounded o s1 := by
  cases e with
  | addSymbols a =>
    simp only [step, Option.some.injEq] at hs
    subst hs
    exact retriesBounded_addSymbols h a ha
  | start =>
    simp only [step, Option.some.injEq] at hs
    subst hs
    unfold start
    split <;> exact h
  | startResume fork =>
    simp only [step] at hs
    split at hs
    · simp only [Option.some.injEq] at hs
      subst hs
      unfold startResume
      exact retriesBounded_processQueue (by exact h) fork
    · simp at hs
  | stop =>
    simp only [step, Option.some.injEq] at hs
    subst hs
    exact retriesBounded_stop h
  | stopResume k =>
    simp only [step] at hs
    split at hs
    · simp only [Option.some.injEq] at hs
      subst hs
      unfold stopResume
      exact retriesBounded_stopFinish (by exact h)
    · simp at hs
  | waitForCompletion =>
    simp only [step, Option.some.injEq] at hs
    subst hs
    unfold waitForCompletion
    split
    · exact h
    · split <;> exact h
  | advance ms =>
    simp only [step, Option.some.injEq] at hs
    subst hs
    exact h
  | timer id fork c =>
    simp only [step] at hs
    split at hs
    · split at hs
      · simp only [Option.some.injEq] at hs
        subst hs
        exact retriesBounded_fireTimer (by exact h) _ fork c
      · simp at hs
    · simp at hs
  | monitorTick hd p fork =>
    simp only [step] at hs
    split at hs
    · simp only [Option.some.injEq] at hs
      subst hs
      exact retriesBounded_resourceMonitorTick h p fork
    · simp at hs
  | workerMessage w m =>
    simp only [step] at hs
    split at hs
    · simp only [Option.some.injEq] at hs
      subst hs
      exact retriesBounded_onMessage h _ m
    · simp at hs
  | workerError w m =>
    simp only [step] at hs
    split at hs
    · simp only [Option.some.injEq] at hs
      subst hs
      exact retriesBounded_onError h _ _ m
    · simp at hs
  | workerExit w code signal =>
    simp only [step] at hs
    split at hs
    · rename_i p hp
      split at hs
      · simp at hs
      · simp only [Option.some.injEq] at hs
        subst hs
        apply retriesBounded_settleExit
        apply retriesBounded_onExit
        exact retriesBounded_markProc h w p _ hp rfl
    · simp at hs
  | sendCallback w err =>
    simp only [step] at hs
    split at hs
    · rename_i p hp
      split at hs
      · simp at hs
      · simp only [Option.some.injEq] at hs
        subst hs
        apply retriesBounded_onSendCallback
        exact retriesBounded_markProc h w p _ hp rfl
    · simp at hs

theorem retriesBounded_run {o : Options} (evs : List Event) (s s1 : State)
    (h : RetriesBounded o s) (hr : run s evs = some s1)
    (ha : ∀ e ∈ evs, ∀ t ∈ passedTasks e, t.retriesOrZero = 0) : RetriesBounded o s1 := by
  induction evs generalizing s with
  | nil =>
    simp only [run, Option.some.injEq] at hr
    subst hr
    exact h
  | cons e es ih =>
    simp only [run] at hr
    split at hr
    · rename_i s2 hs
      exact ih s2 (retriesBounded_step e h hs (ha e (List.mem_cons_self _ _))) hr
        (fun e1 he1 => ha e1 (List.mem_cons_of_mem _ he1))
    · simp at hr

theorem retriesBounded_init (o : Options) : RetriesBounded o (init o) :=
  ⟨rfl, fun t ht => absurd ht (List.not_mem_nil t), fun e he => absurd he (List.not_mem_nil e),
    fun p hp => absurd hp (List.not_mem_nil p)⟩

/-- C4: if every task passed to `addSymbols` has no `retries` field or `retries = 0`, then
after any sequence of events every task in the queue and every task held in
`activeWorkers` has `(task.retries || 0)` at most `options.retries`. -/
theorem retries_within_limit (o : Options) (evs : List Event) (s : State)
    (h : run (init o) evs = some s)
    (hadd : ∀ e ∈ evs, ∀ t ∈ passedTasks e, t.retries = none ∨ t.retries = some 0) :
    (∀ t ∈ s.taskQueue, t.retriesOrZero ≤ o.retries) ∧
      (∀ e ∈ s.activeWorkers, e.2.task.retriesOrZero ≤ o.retries) := by
  have hb := retriesBounded_run evs (init o) s (retriesBounded_init o) h (by
    intro e he t ht
    rcases hadd e he t ht with h0 | h0 <;> simp [Task.retriesOrZero, h0])
  exact ⟨hb.2.1, hb.2.2.1⟩

/-- Witness for C4: after the first failure of `X` with one retry allowed, the queued
retry copy carries `retries = 1`, which is within the limit. -/
theorem retries_within_limit_witness :
    run (init retryOptions) failingEvents = some afterFirstFailure ∧
      (taskFor "X").retried ∈ afterFirstFailure.taskQueue ∧
      (taskFor "X").retried.retriesOrZero ≤ retryOptions.retries :=
  have hrun : run (init retryOptions) failingEvents = some afterFirstFailure := by decide
  have hmem : (taskFor "X").retried ∈ afterFirstFailure.taskQueue := by decide
  ⟨hrun, hmem,
    (retries_within_limit retryOptions failingEvents afterFirstFailure hrun (by decide)).1
      _ hmem⟩

/-- C3 (the code at the failing input): with `options.retries = 1`, a single failure of
`X` that the worker reports as an `error` message followed by exit code 1 re-enqueues `X`
twice: `taskStats.retried` is 2, above the limit of 1, and the queue holds two copies. -/
theorem reported_failure_requeued_twice :
    run (init retryOptions) failingEvents = some afterFirstFailure ∧
      retryOptions.retries = 1 ∧
      afterFirstFailure.taskStats.retried = 2 ∧
      afterFirstFailure.taskQueue = [(taskFor "X").retried, (taskFor "X").retried] := by
  decide

/-- C5 (the code at the failing input): with one added task and one retry allowed, the run
ends with an empty queue and no active worker, yet `completed + failed` is 4 while `total`
is 1. -/
theorem failed_exceeds_total_after_completion :
    run (init retryOptions) exhaustingEvents = some afterExhaustion ∧
      afterExhaustion.taskQueue = [] ∧
      afterExhaustion.activeWorkers = [] ∧
      afterExhaustion.taskStats.total = 1 ∧
      afterExhaustion.taskStats.completed + afterExhaustion.taskStats.failed = 4 := by
  decide

/-- C6 (the code at the failing input): with `retries: 0`, the `error` message of the
worker for `X` followed by its exit with code 1 raises `taskStats.failed` from 0 to 2; the
queue stays empty, `retried` stays 0 and `getErrors()` has an entry for `X`. -/
theorem reported_failure_counted_twice :
    run spawnedNoRetry reportedFailure = some afterFailureNoRetry ∧
      spawnedNoRetry.taskStats.failed = 0 ∧
      afterFailureNoRetry.taskStats.failed = 2 ∧
      afterFailureNoRetry.taskQueue = [] ∧
      afterFailureNoRetry.taskStats.retried = 0 ∧
      JSMap.get (getErrors afterFailureNoRetry) "X" = some "Worker exited with code 1" := by
  decide

/-- C8 (the code at the failing input): when the send of the `start` message fails, or
when the child process emits an `error` event, the task `X` (retries 0 of 3) is removed
from `activeWorkers` without being re-queued and without being counted: the queue is
empty, `retried` and `failed` are both still 0.  After the send failure the run then
completes with `total = 1` and `completed = failed = retried = 0`: `X` is lost. -/
theorem process_failure_drops_task :
    run spawnedDefault [.sendCallback 0 true] = some afterSendFailure ∧
      run spawnedDefault [.workerError 0 "channel closed"] = some afterErrorEvent ∧
      defaultOptions.retries = 3 ∧
      spawnedDefault.activeWorkers.map (fun e => e.2.task) = [taskFor "X"] ∧
      afterSendFailure.activeWorkers = [] ∧
      afterSendFailure.taskQueue = [] ∧
      afterSendFailure.taskStats.retried = 0 ∧
      afterSendFailure.taskStats.failed = 0 ∧
      afterSendFailure.errors = [] ∧
      afterErrorEvent.activeWorkers = [] ∧
      afterErrorEvent.taskQueue = [] ∧
      afterErrorEvent.taskStats.retried = 0 ∧
      afterErrorEvent.taskStats.failed = 0 ∧
      run afterSendFailure afterSendFailureEvents = some afterLostTask ∧
      afterLostTask.running = false ∧
      afterLostTask.taskQueue = [] ∧
      afterLostTask.activeWorkers = [] ∧
      afterLostTask.errors = [] ∧
      afterLostTask.taskStats = ⟨1, 0, 0, 0⟩ := by
  decide

/-- C7 (the code at the failing input): the worker for `X` sends an `error` message while
`X` has used 0 of 3 retries.  The task is re-queued, `failed` stays 0, and yet the errors
map, empty before, now records the error under `X`, so `getErrors()` returns it.  The
sibling paths do not: in the same state an abnormal exit and the hard timeout re-queue
`X` and leave the errors map empty.  The entry is never removed: when the retry of `X`
succeeds, `X` is in `getResults()` and still in `getErrors()`, with `failed = 0`. -/
theorem error_recorded_on_requeue :
    spawnedDefault.errors = [] ∧
      (taskFor "X").retriesOrZero < spawnedDefault.options.retries ∧
      (onMessage spawnedDefault (taskFor "X") (.error "boom")).taskQueue =
        [(taskFor "X").retried] ∧
      (onMessage spawnedDefault (taskFor "X") (.error "boom")).taskStats.failed = 0 ∧
      (onMessage spawnedDefault (taskFor "X") (.error "boom")).errors =
        [(.str "X", "boom")] ∧
      getErrors (onMessage spawnedDefault (taskFor "X") (.error "boom")) = [("X", "boom")] ∧
      (onExit spawnedDefault "X_0" (taskFor "X") (some 1) none).taskQueue =
        [(taskFor "X").retried] ∧
      (onExit spawnedDefault "X_0" (taskFor "X") (some 1) none).errors = [] ∧
      (onHardTimeout spawnedDefault 0 "X_0" (taskFor "X")).taskQueue =
        [(taskFor "X").retried] ∧
      (onHardTimeout spawnedDefault 0 "X_0" (taskFor "X")).errors = [] ∧
      run (init defaultOptions) retrySucceedsEvents = some afterRetrySucceeded ∧
      getResults afterRetrySucceeded = [("X", .collected sampleData)] ∧
      getErrors afterRetrySucceeded = [("X", "Chart error: boom")] ∧
      afterRetrySucceeded.taskStats.completed = 1 ∧
      afterRetrySucceeded.taskStats.failed = 0 := by
  decide

theorem filterMap_asTask_filter_validSymbol (entries : List JSEntry) :
    (entries.filter validSymbol).filterMap JSEntry.asTask = entries.filterMap keptEntry := by
  induction entries with
  | nil => rfl
  | cons e es ih =>
    cases e with
    | prim v =>
      have hv : validSymbol (.prim v) = false := by
        cases v <;> simp [validSymbol, JSEntry.truthy, JSEntry.typeof, JSVal.truthy,
          JSVal.typeof, JSEntry.symbol]
      rw [List.filter_cons_of_neg (by simp [hv])]
      simpa [keptEntry] using ih
    | func =>
      have hv : validSymbol .func = false := by decide
      rw [List.filter_cons_of_neg (by simp [hv])]
      simpa [keptEntry] using ih
    | obj t =>
      by_cases ht : t.symbol.truthy = true
      · have hv : validSymbol (.obj t) = true := by
          simp [validSymbol, JSEntry.truthy, JSEntry.typeof, JSEntry.symbol, ht]
        rw [List.filter_cons_of_pos hv]
        simp [keptEntry, JSEntry.asTask, ht, ih]
      · have hv : validSymbol (.obj t) = false := by
          simp [validSymbol, JSEntry.truthy, JSEntry.typeof, JSEntry.symbol, ht]
        rw [List.filter_cons_of_neg (by simp [hv])]
        simp [keptEntry, ht, ih]

theorem length_filter_validSymbol (entries : List JSEntry) :
    (entries.filter validSymbol).length = (entries.filterMap keptEntry).length := by
  induction entries with
  | nil => rfl
  | cons e es ih =>
    cases e with
    | prim v =>
      have hv : validSymbol (.prim v) = false := by
        cases v <;> simp [validSymbol, JSEntry.truthy, JSEntry.typeof, JSVal.truthy,
          JSVal.typeof, JSEntry.symbol]
      rw [List.filter_cons_of_neg (by simp [hv])]
      simpa [keptEntry] using ih
    | func =>
      have hv : validSymbol .func = false := by decide
      rw [List.filter_cons_of_neg (by simp [hv])]
      simpa [keptEntry] using ih
    | obj t =>
      by_cases ht : t.symbol.truthy = true
      · have hv : validSymbol (.obj t) = true := by
          simp [validSymbol, JSEntry.truthy, JSEntry.typeof, JSEntry.symbol, ht]
        rw [List.filter_cons_of_pos hv]
        simp [keptEntry, ht, ih]
      · have hv : validSymbol (.obj t) = false := by
          simp [validSymbol, JSEntry.truthy, JSEntry.typeof, JSEntry.symbol, ht]
        rw [List.filter_cons_of_neg (by simp [hv])]
        simp [keptEntry, ht, ih]

theorem keptEntry_sublist (entries : List JSEntry) :
    List.Sublist ((entries.filterMap keptEntry).map JSEntry.obj) entries := by
  induction entries with
  | nil => exact List.Sublist.slnil
  | cons e es ih =>
    cases e with
    | prim v => simpa [keptEntry] using List.Sublist.cons _ ih
    | func => simpa [keptEntry] using List.Sublist.cons _ ih
    | obj t =>
      by_cases ht : t.symbol.truthy = true
      · simpa [keptEntry, ht] using ih
      · simpa [keptEntry, ht] using List.Sublist.cons _ ih

/-- C9: for every argument, `addSymbols` leaves the existing queue as a prefix and
appends exactly the entries that are non-null objects with a truthy `symbol`, in their
original order (they form a sublist of the argument); `taskStats.total` grows by the
number of entries appended; every other field of the orchestrator is unchanged; and for
an empty array or a non-array the state is unchanged.  The method is total: it does not
throw. -/
theorem addSymbols_appends_valid_entries (s : State) (symbols : JSArg) :
    (addSymbols s symbols).taskQueue = s.taskQueue ++ symbols.entries.filterMap keptEntry ∧
      (∀ t, t ∈ symbols.entries.filterMap keptEntry ↔
        (JSEntry.obj t ∈ symbols.entries ∧ t.symbol.truthy = true)) ∧
      List.Sublist ((symbols.entries.filterMap keptEntry).map JSEntry.obj) symbols.entries ∧
      (addSymbols s symbols).taskStats.total =
        s.taskStats.total + (symbols.entries.filterMap keptEntry).length ∧
      addSymbols s symbols =
        { s with taskQueue := (addSymbols s symbols).taskQueue,
                 taskStats := { s.taskStats with
                   total := (addSymbols s symbols).taskStats.total } } ∧
      addSymbols s (.array []) = s ∧
      addSymbols s .notArray = s := by
  refine ⟨?_, ?_, keptEntry_sublist _, ?_, ?_, rfl, rfl⟩
  · cases symbols with
    | notArray => simp [addSymbols, JSArg.entries]
    | array entries =>
      unfold addSymbols JSArg.entries
      dsimp only
      split
      · rename_i h0
        have : entries = [] := List.eq_nil_of_length_eq_zero h0
        subst this
        simp
      · rw [filterMap_asTask_filter_validSymbol]
  · intro t
    rw [List.mem_filterMap]
    constructor
    · rintro ⟨e, he, hk⟩
      cases e with
      | prim v => simp [keptEntry] at hk
      | func => simp [keptEntry] at hk
      | obj u =>
        simp [keptEntry] at hk
        obtain ⟨hu, rfl⟩ := hk
        exact ⟨he, hu⟩
    · rintro ⟨he, ht⟩
      exact ⟨.obj t, he, by simp [keptEntry, ht]⟩
  · cases symbols with
    | notArray => simp [addSymbols, JSArg.entries]
    | array entries =>
      unfold addSymbols JSArg.entries
      dsimp only
      split
      · rename_i h0
        have : entries = [] := List.eq_nil_of_length_eq_zero h0
        subst this
        simp
      · rw [length_filter_validSymbol]
  · cases symbols with
    | notArray => rfl
    | array entries =>
      unfold addSymbols
      dsimp only
      split <;> rfl

theorem sameCompletion_refl (s : State) : SameCompletion s s := ⟨rfl, rfl, rfl, rfl⟩

theorem sameCompletion_trans {a b c : State} (h1 : SameCompletion a b)
    (h2 : SameCompletion b c) : SameCompletion a c :=
  ⟨h2.1.trans h1.1, h2.2.1.trans h1.2.1, h2.2.2.1.trans h1.2.2.1, h2.2.2.2.trans h1.2.2.2⟩

theorem sameCompletion_stopWorker (s : State) (e : String × WorkerInfo) :
    SameCompletion s (stopWorker s e) := by
  unfold stopWorker setTimeout send clearTimeout
  dsimp only
  split <;> exact ⟨rfl, rfl, rfl, rfl⟩

theorem sameCompletion_foldl_stopWorker (l : List (String × WorkerInfo)) (s : State) :
    SameCompletion s (l.foldl stopWorker s) := by
  induction l generalizing s with
  | nil => exact sameCompletion_refl s
  | cons e l ih =>
    rw [List.foldl_cons]
    exact sameCompletion_trans (sameCompletion_stopWorker s e) (ih _)

theorem sameCompletion_onMessage (s : State) (task : Task) (m : WorkerMessage) :
    SameCompletion s (onMessage s task m) := by
  cases m with
  | result data =>
    unfold onMessage _saveResult
    dsimp only
    split
    · exact ⟨rfl, rfl, rfl, rfl⟩
    · exact ⟨rfl, rfl, rfl, rfl⟩
    · split <;> exact ⟨rfl, rfl, rfl, rfl⟩
  | error e =>
    unfold onMessage requeue markFailed
    dsimp only
    split <;> exact ⟨rfl, rfl, rfl, rfl⟩
  | log d => exact sameCompletion_refl s
  | progress => exact sameCompletion_refl s
  | memory => exact sameCompletion_refl s
  | other => exact sameCompletion_refl s

theorem sameCompletion_onExit (s : State) (id : String) (task : Task) (code : Option Int)
    (signal : Option String) : SameCompletion s (onExit s id task code signal) := by
  unfold onExit setTimeout requeue markFailed
  dsimp only
  split
  · split
    · split
      · exact ⟨rfl, rfl, rfl, rfl⟩
      · split <;> exact ⟨rfl, rfl, rfl, rfl⟩
    · exact ⟨rfl, rfl, rfl, rfl⟩
  · exact ⟨rfl, rfl, rfl, rfl⟩

theorem sameCompletion_onSendCallback (s : State) (w : Nat) (id : String) (err : Bool) :
    SameCompletion s (onSendCallback s w id err) := by
  unfold onSendCallback setTimeout send
  split <;> exact ⟨rfl, rfl, rfl, rfl⟩

theorem sameCompletion_onHardTimeout (s : State) (w : Nat) (id : String) (task : Task) :
    SameCompletion s (onHardTimeout s w id task) := by
  unfold onHardTimeout setTimeout send requeue markFailed
  dsimp only
  split
  · split <;> exact ⟨rfl, rfl, rfl, rfl⟩
  · exact ⟨rfl, rfl, rfl, rfl⟩

theorem sameCompletion_onGraceKill (s : State) (w : Nat) (id : String) :
    SameCompletion s (onGraceKill s w id) := by
  unfold onGraceKill send
  split <;> exact ⟨rfl, rfl, rfl, rfl⟩

theorem sameCompletion_onForceKill (s : State) (w : Nat) (c : Bool) :
    SameCompletion s (onForceKill s w c) := by
  unfold onForceKill send
  split <;> exact ⟨rfl, rfl, rfl, rfl⟩

theorem sameCompletion_addSymbols (s : State) (a : JSArg) :
    SameCompletion s (addSymbols s a) := by
  unfold addSymbols
  split
  · exact ⟨rfl, rfl, rfl, rfl⟩
  · split <;> exact ⟨rfl, rfl, rfl, rfl⟩

theorem processQueue_not_running (s : State) (fork : SpawnOutcome) (h : s.running = false) :
    _processQueue s fork = s := by
  unfold _processQueue
  simp [h]

theorem spawnNextWorker_not_running (s : State) (fork : SpawnOutcome)
    (h : s.running = false) : spawnNextWorker s fork = s := by
  unfold spawnNextWorker
  simp [h]

theorem sameCompletion_resourceMonitorTick (s : State) (p : Option Nat) (fork : SpawnOutcome)
    (h : s.running = false) : SameCompletion s (resourceMonitorTick s p fork) := by
  unfold resourceMonitorTick
  split
  · exact sameCompletion_refl s
  · split
    · split <;> exact ⟨rfl, rfl, rfl, rfl⟩
    · split
      · rw [processQueue_not_running _ fork (by exact h)]
        exact ⟨rfl, rfl, rfl, rfl⟩
      · exact sameCompletion_refl s

theorem sameCompletion_fireTimer (s : State) (t : Timer) (fork : SpawnOutcome) (c : Bool)
    (h : s.running = false) : SameCompletion s (fireTimer s t fork c) := by
  unfold fireTimer
  split
  · rw [spawnNextWorker_not_running s fork h]
    exact sameCompletion_refl s
  · rw [processQueue_not_running s fork h]
    exact sameCompletion_refl s
  · split
    · exact sameCompletion_onHardTimeout _ _ _ _
    · exact sameCompletion_refl s
  · split
    · exact sameCompletion_onGraceKill _ _ _
    · exact sameCompletion_refl s
  · exact sameCompletion_onForceKill _ _ _

theorem sameCompletion_step {s s1 : State} (e : Event) (h : s.running = false)
    (hp : s.completionPromise.isSome = true)
    (he : e.duringStop = true) (hs : step s e = some s1) : SameCompletion s s1 := by
  cases e with
  | addSymbols a =>
    simp only [step, Option.some.injEq] at hs
    subst hs
    exact sameCompletion_addSymbols s a
  | start => simp [Event.duringStop] at he
  | startResume fork =>
    simp only [step] at hs
    split at hs
    · simp only [Option.some.injEq] at hs
      subst hs
      unfold startResume
      rw [processQueue_not_running _ fork (by exact h)]
      exact ⟨rfl, rfl, rfl, rfl⟩
    · simp at hs
  | stop =>
    simp only [step, Option.some.injEq] at hs
    subst hs
    have hstop : stop s = s := by
      unfold stop
      simp [h]
    rw [hstop]
    exact sameCompletion_refl s
  | stopResume k => simp [Event.duringStop] at he
  | waitForCompletion =>
    simp only [step, Option.some.injEq] at hs
    subst hs
    have hwait : waitForCompletion s = s := by
      unfold waitForCompletion
      cases hpr : s.completionPromise with
      | none => simp [hpr] at hp
      | some q => simp
    rw [hwait]
    exact sameCompletion_refl s
  | advance ms =>
    simp only [step, Option.some.injEq] at hs
    subst hs
    exact ⟨rfl, rfl, rfl, rfl⟩
  | timer id fork c =>
    simp only [step] at hs
    split at hs
    · split at hs
      · simp only [Option.some.injEq] at hs
        subst hs
        have h0 : SameCompletion s (clearTimeout s id) := ⟨rfl, rfl, rfl, rfl⟩
        exact sameCompletion_trans h0 (sameCompletion_fireTimer _ _ fork c h)
      · simp at hs
    · simp at hs
  | monitorTick hd p fork =>
    simp only [step] at hs
    split at hs
    · simp only [Option.some.injEq] at hs
      subst hs
      exact sameCompletion_resourceMonitorTick s p fork h
    · simp at hs
  | workerMessage w m =>
    simp only [step] at hs
    split at hs
    · simp only [Option.some.injEq] at hs
      subst hs
      exact sameCompletion_onMessage _ _ m
    · simp at hs
  | workerError w m =>
    simp only [step] at hs
    split at hs
    · simp only [Option.some.injEq] at hs
      subst hs
      exact ⟨rfl, rfl, rfl, rfl⟩
    · simp at hs
  | workerExit w code signal =>
    simp only [step] at hs
    split at hs
    · rename_i p hp
      split at hs
      · simp at hs
      · simp only [Option.some.injEq] at hs
        subst hs
        have h1 := sameCompletion_onExit
          { s with spawned := s.spawned.set w { p with exited := true } } p.id p.task code signal
        exact ⟨h1.1, h1.2.1, h1.2.2.1, h1.2.2.2⟩
    · simp at hs
  | sendCallback w err =>
    simp only [step] at hs
    split at hs
    · rename_i p hp
      split at hs
      · simp at hs
      · simp only [Option.some.injEq] at hs
        subst hs
        have h1 := sameCompletion_onSendCallback
          { s with spawned := s.spawned.set w { p with startAcked := true } } w p.id err
        exact ⟨h1.1, h1.2.1, h1.2.2.1, h1.2.2.2⟩
    · simp at hs

theorem sameCompletion_run (evs : List Event) (s s1 : State) (h : s.running = false)
    (hp : s.completionPromise.isSome = true)
    (he : ∀ e ∈ evs, e.duringStop = true) (hr : run s evs = some s1) :
    SameCompletion s s1 := by
  induction evs generalizing s with
  | nil =>
    simp only [run, Option.some.injEq] at hr
    subst hr
    exact sameCompletion_refl s
  | cons e es ih =>
    simp only [run] at hr
    split at hr
    · rename_i s2 hs
      have h1 := sameCompletion_step e h hp (he e (List.mem_cons_self _ _)) hs
      exact sameCompletion_trans h1
        (ih s2 (h1.1.trans h) (by rw [h1.2.2.1]; exact hp)
          (fun e1 he1 => he e1 (List.mem_cons_of_mem _ he1)) hr)
    · simp at hr

theorem sameCompletion_stopMonitoring (s : State) : SameCompletion s (stopMonitoring s) := by
  unfold stopMonitoring clearInterval
  split <;> exact ⟨rfl, rfl, rfl, rfl⟩

theorem stopFinish_resolves (s : State) (r : Nat) (h : s.completionResolver = some r) :
    (stopFinish s).completionResolver = none ∧ (stopFinish s).completionPromise = none ∧
      (stopFinish s).resolverCalls = s.resolverCalls ++ [(r, snapshot s)] ∧
      (stopFinish s).running = s.running := by
  unfold stopFinish resolveCompletion
  dsimp only
  rw [h]
  exact ⟨rfl, rfl, rfl, rfl⟩

theorem stop_suspended (s : State) (hrun : s.running = true) (hact : s.activeWorkers ≠ []) :
    (stop s).running = false ∧ (stop s).completionResolver = s.completionResolver ∧
      (stop s).resolverCalls = s.resolverCalls ∧
      (stop s).completionPromise = s.completionPromise := by
  have hm := sameCompletion_stopMonitoring { s with running := false }
  have hf := sameCompletion_foldl_stopWorker
    (stopMonitoring { s with running := false }).activeWorkers
    (stopMonitoring { s with running := false })
  have hc := sameCompletion_trans hm hf
  have hact1 : (stopMonitoring { s with running := false }).activeWorkers ≠ [] := by
    unfold stopMonitoring clearInterval
    split <;> exact hact
  unfold stop
  dsimp only
  rw [if_neg (by simp [hrun]), if_pos (by
    rw [List.length_map]
    exact List.length_pos.mpr hact1)]
  exact ⟨hc.1, hc.2.1, hc.2.2.2, hc.2.2.1⟩

/-- C10 (counterexample): (1) a task is added and `waitForCompletion` is called on a
crawler that was never started, so a resolver is pending while `running` is false.
`stop()` returns at its first line: the state is unchanged, the resolver is still pending
and has not been invoked.  (2) On a running crawler with one worker `stop()` is suspended
until the worker has exited.  Meanwhile `start()` is called again; the worker's process
emits an `error` event, and the `_processQueue` call armed by that handler finds nothing
queued or active: `_checkCompletion` invokes the resolver, with the results still empty.
The worker then reports its data and exits, and `stop()` returns without invoking
anything: the resolver has received an earlier snapshot, not that of the moment `stop()`
returns. -/
theorem stop_not_running_leaves_resolver_pending :
    waitingNotStarted.running = false ∧
      waitingNotStarted.completionResolver = some 0 ∧
      stop waitingNotStarted = waitingNotStarted ∧
      (stop waitingNotStarted).completionResolver = some 0 ∧
      (stop waitingNotStarted).resolverCalls = [] ∧
      waitingRunning.running = true ∧
      waitingRunning.completionResolver = some 3 ∧
      run (stop waitingRunning) restartDuringStop = some beforeLateResume ∧
      step beforeLateResume (.stopResume 0) = some afterLateResume ∧
      afterLateResume.resolverCalls =
        [(3, ⟨[], [("X", "channel closed")], ⟨1, 0, 0, 0⟩⟩)] ∧
      getResults afterLateResume = [("X", .collected sampleData)] ∧
      afterLateResume.taskStats = ⟨1, 1, 0, 0⟩ := by
  decide

/-- C10 (amended): let a completion signal be pending, promise and resolver `r` set.  If
the orchestrator is marked running, then once `stop()` has returned the resolver has
been invoked exactly once more, with `{results, errors, stats}` as they are at the moment
`stop()` finishes (`Object.fromEntries` of the two maps and the counters), and no
completion signal remains pending: at once when no worker is active, and otherwise when
the suspended call resumes, whatever worker events, timers, monitor ticks and calls of
`addSymbols`, `stop` and `waitForCompletion` occurred in between, provided `start` is not
called and no other suspended `stop` resumes while the call is suspended.  If the
orchestrator is not marked running, `stop()` returns at its guard and leaves the state,
pending resolver included, unchanged. -/
theorem stop_resolves_pending_when_running (s : State) (r : Nat)
    (hres : s.completionResolver = some r) (hprom : s.completionPromise = some r) :
    (s.running = false → stop s = s) ∧
      (s.running = true → s.activeWorkers = [] →
        (stop s).completionResolver = none ∧ (stop s).completionPromise = none ∧
        (stop s).resolverCalls = s.resolverCalls ++
          [(r, ⟨objectFromEntries s.results, objectFromEntries s.errors, s.taskStats⟩)]) ∧
      (s.running = true → s.activeWorkers ≠ [] →
        ∀ (evs : List Event) (s1 s2 : State) (k : Nat),
          (∀ e ∈ evs, e.duringStop = true) →
          run (stop s) evs = some s1 → step s1 (.stopResume k) = some s2 →
          s2.completionResolver = none ∧ s2.completionPromise = none ∧
          s2.results = s1.results ∧ s2.errors = s1.errors ∧ s2.taskStats = s1.taskStats ∧
          s2.resolverCalls = s.resolverCalls ++
            [(r, ⟨objectFromEntries s1.results, objectFromEntries s1.errors,
              s1.taskStats⟩)]) := by
  refine ⟨?_, ?_, ?_⟩
  · intro hrun
    unfold stop
    simp [hrun]
  · intro hrun hact
    have hm := sameCompletion_stopMonitoring { s with running := false }
    have hact1 : (stopMonitoring { s with running := false }).activeWorkers = [] := by
      unfold stopMonitoring clearInterval
      split <;> exact hact
    have hsnap : snapshot (stopMonitoring { s with running := false }) = snapshot s := by
      unfold stopMonitoring clearInterval
      split <;> rfl
    unfold stop
    dsimp only
    rw [if_neg (by simp [hrun]), hact1]
    simp only [List.map_nil, List.length_nil, gt_iff_lt, lt_self_iff_false, if_false,
      List.foldl_nil]
    have hf := stopFinish_resolves (stopMonitoring { s with running := false }) r
      (hm.2.1.trans hres)
    refine ⟨hf.1, hf.2.1, ?_⟩
    rw [hf.2.2.1, hm.2.2.2, hsnap]
    rfl
  · intro hrun hact evs s1 s2 k hev h1 h2
    obtain ⟨a1, a2, a3, a4⟩ := stop_suspended s hrun hact
    have hc := sameCompletion_run evs (stop s) s1 a1 (by rw [a4, hprom]; rfl) hev h1
    simp only [step] at h2
    split at h2
    · simp only [Option.some.injEq] at h2
      subst h2
      unfold stopResume
      have hf := stopFinish_resolves { s1 with pendingStops := s1.pendingStops.eraseIdx k } r
        (hc.2.1.trans (a2.trans hres))
      have hframe : ∀ s0 : State, (stopFinish s0).results = s0.results ∧
          (stopFinish s0).errors = s0.errors ∧ (stopFinish s0).taskStats = s0.taskStats := by
        intro s0
        unfold stopFinish resolveCompletion
        dsimp only
        split <;> exact ⟨rfl, rfl, rfl⟩
      refine ⟨hf.1, hf.2.1, (hframe _).1, (hframe _).2.1, (hframe _).2.2, ?_⟩
      rw [hf.2.2.1]
      show s1.resolverCalls ++ [(r, snapshot s1)] = _
      rw [hc.2.2.2, a3]
      rfl
    · simp at h2

/-- Witness for C10: the crawler runs one worker for `X` and a caller waits.  `stop()` is
suspended until the worker, which reports its data meanwhile, has exited; `stop` and
`waitForCompletion` are called again in between and change nothing.  When the call
resumes, the pending resolver is invoked with the result of `X` in the snapshot. -/
theorem stop_resolves_pending_when_running_witness :
    waitingRunning.completionResolver = some 3 ∧
      waitingRunning.completionPromise = some 3 ∧
      waitingRunning.running = true ∧
      run (stop waitingRunning) eventsDuringStop = some beforeStopResume ∧
      step beforeStopResume (.stopResume 0) = some afterStop ∧
      afterStop.completionResolver = none ∧
      afterStop.completionPromise = none ∧
      afterStop.resolverCalls =
        [(3, ⟨[("X", .collected sampleData)], [], ⟨1, 1, 0, 0⟩⟩)] ∧
      getResults afterStop = [("X", .collected sampleData)] ∧
      afterStop.taskStats = ⟨1, 1, 0, 0⟩ :=
  have hres : waitingRunning.completionResolver = some 3 := by decide
  have hprom : waitingRunning.completionPromise = some 3 := by decide
  have hrun : waitingRunning.running = true := by decide
  have h1 : run (stop waitingRunning) eventsDuringStop = some beforeStopResume := by decide
  have h2 : step beforeStopResume (.stopResume 0) = some afterStop := by decide
  have h := (stop_resolves_pending_when_running waitingRunning 3 hres hprom).2.2 hrun
    (by decide) eventsDuringStop beforeStopResume afterStop 0 (by decide) h1 h2
  have hsnap : ([(3, ⟨objectFromEntries beforeStopResume.results,
      objectFromEntries beforeStopResume.errors, beforeStopResume.taskStats⟩)] :
      List (Nat × Snapshot)) = [(3, ⟨[("X", .collected sampleData)], [], ⟨1, 1, 0, 0⟩⟩)] := by
    decide
  have hempty : waitingRunning.resolverCalls = [] := by decide
  ⟨hres, hprom, hrun, h1, h2, h.1, h.2.1,
    (h.2.2.2.2.2.trans (by rw [hempty, List.nil_append, hsnap])), by decide, by decide⟩

theorem JSMap.has_set {κ ν : Type} [DecidableEq κ] {m : JSMap κ ν} {k k1 : κ} {v : ν}
    (h : JSMap.has (JSMap.set m k v) k1 = true) : k1 = k ∨ JSMap.has m k1 = true := by
  unfold JSMap.has at h
  rw [List.any_eq_true] at h
  obtain ⟨e, he, hk⟩ := h
  have hk1 : e.1 = k1 := of_decide_eq_true hk
  rcases JSMap.mem_set he with h0 | rfl
  · right
    unfold JSMap.has
    rw [List.any_eq_true]
    exact ⟨e, h0, hk⟩
  · left
    exact hk1.symm

theorem Quiet.touches {s s1 : State} (h : Quiet s s1) (c : JSVal) : Touches c s s1 where
  admitted := h.admitted
  queue := Or.inl h.queue
  active := fun e he => Or.inr ⟨e, h.active e he, rfl⟩
  forked := fun p hp => Or.inr ⟨p, h.forked ▸ hp, rfl⟩
  results := fun _ hk => Or.inr (h.results ▸ hk)
  errors := fun _ hk => Or.inr (h.errors ▸ hk)

theorem queueCopies_append_other (s s1 : State) (t : Task) (sym : JSVal)
    (hq : s1.taskQueue = s.taskQueue ++ [t]) (hne : t.symbol ≠ sym) :
    queueCopies s1 sym = queueCopies s sym := by
  unfold queueCopies
  rw [hq, List.filter_append, List.filter_cons_of_neg (by simpa using hne)]
  simp

theorem Placement.of_touches {added : List Task} {s s1 : State} {c : JSVal}
    (h : Placement added s) (ht : Touches c s s1) (hc : c ∈ symbolsOf s.admitted) :
    Placement added s1 where
  active := by
    intro e he
    rw [ht.admitted]
    rcases ht.active e he with h1 | ⟨e0, he0, h1⟩
    · rw [h1]
      exact hc
    · rw [h1]
      exact h.active e0 he0
  forked := by
    intro p hp
    rw [ht.admitted]
    rcases ht.forked p hp with h1 | ⟨p0, hp0, h1⟩
    · rw [h1]
      exact hc
    · rw [h1]
      exact h.forked p0 hp0
  results := by
    intro k hk
    rw [ht.admitted]
    rcases ht.results k hk with h1 | h1
    · rw [h1]
      exact hc
    · exact h.results k h1
  errors := by
    intro k hk
    rw [ht.admitted]
    rcases ht.errors k hk with h1 | h1
    · rw [h1]
      exact hc
    · exact h.errors k h1
  admitted := by
    rw [ht.admitted]
    exact h.admitted
  queued := by
    intro q hq
    rcases ht.queue with h1 | ⟨t, htc, h1⟩
    · rw [h1] at hq
      exact h.queued q hq
    · rw [h1, List.mem_append, List.mem_singleton] at hq
      rcases hq with hq | rfl
      · exact h.queued q hq
      · rw [htc]
        exact h.admitted c hc
  waiting := by
    intro t hta hna
    rw [ht.admitted] at hna
    obtain ⟨hmem, hcount⟩ := h.waiting t hta hna
    rcases ht.queue with h1 | ⟨u, huc, h1⟩
    · unfold queueCopies at *
      rw [h1]
      exact ⟨hmem, hcount⟩
    · refine ⟨?_, ?_⟩
      · rw [h1]
        exact List.mem_append_left _ hmem
      · rw [queueCopies_append_other s s1 u t.symbol h1 ?_]
        · exact hcount
        · intro heq
          apply hna
          rw [← heq, huc]
          exact hc

theorem Placement.of_quiet {added : List Task} {s s1 : State}
    (h : Placement added s) (hq : Quiet s s1) : Placement added s1 where
  active := by
    intro e he
    rw [hq.admitted]
    exact h.active e (hq.active e he)
  forked := by
    intro p hp
    rw [hq.admitted]
    exact h.forked p (hq.forked ▸ hp)
  results := by
    intro k hk
    rw [hq.admitted]
    exact h.results k (hq.results ▸ hk)
  errors := by
    intro k hk
    rw [hq.admitted]
    exact h.errors k (hq.errors ▸ hk)
  admitted := by
    rw [hq.admitted]
    exact h.admitted
  queued := by
    intro q hq1
    rw [hq.queue] at hq1
    exact h.queued q hq1
  waiting := by
    intro t hta hna
    rw [hq.admitted] at hna
    obtain ⟨hmem, hcount⟩ := h.waiting t hta hna
    unfold queueCopies at *
    rw [hq.queue]
    exact ⟨hmem, hcount⟩

theorem quiet_refl (s : State) : Quiet s s :=
  ⟨rfl, rfl, fun _ he => he, rfl, rfl, rfl⟩

theorem quiet_trans {a b c : State} (h1 : Quiet a b) (h2 : Quiet b c) : Quiet a c :=
  ⟨h2.admitted.trans h1.admitted, h2.queue.trans h1.queue,
    fun e he => h1.active e (h2.active e he), h2.forked.trans h1.forked,
    h2.results.trans h1.results, h2.errors.trans h1.errors⟩

theorem touches_quiet {c : JSVal} {s s1 s2 : State} (h1 : Touches c s s1) (h2 : Quiet s1 s2) :
    Touches c s s2 where
  admitted := h2.admitted.trans h1.admitted
  queue := by
    rw [h2.queue]
    exact h1.queue
  active := fun e he => h1.active e (h2.active e he)
  forked := by
    rw [h2.forked]
    exact h1.forked
  results := by
    rw [h2.results]
    exact h1.results
  errors := by
    rw [h2.errors]
    exact h1.errors

theorem quiet_delete (s : State) (id : String) :
    Quiet s { s with activeWorkers := JSMap.delete s.activeWorkers id } :=
  ⟨rfl, rfl, fun _ he => JSMap.mem_delete he, rfl, rfl, rfl⟩

theorem touches_requeue (s : State) (task : Task) : Touches task.symbol s (requeue s task) :=
  ⟨rfl, Or.inr ⟨task.retried, rfl, rfl⟩, fun e he => Or.inr ⟨e, he, rfl⟩,
    fun p hp => Or.inr ⟨p, hp, rfl⟩, fun _ hk => Or.inr hk, fun _ hk => Or.inr hk⟩

theorem touches_setError (s : State) (task : Task) (m : String) :
    Touches task.symbol s { s with errors := JSMap.set s.errors task.symbol m } :=
  ⟨rfl, Or.inl rfl, fun e he => Or.inr ⟨e, he, rfl⟩, fun p hp => Or.inr ⟨p, hp, rfl⟩,
    fun _ hk => Or.inr hk, fun _ hk => JSMap.has_set hk⟩

theorem touches_onMessage (s : State) (task : Task) (m : WorkerMessage) :
    Touches task.symbol s (onMessage s task m) := by
  cases m with
  | result data =>
    have h1 : Touches task.symbol s
        { s with taskStats := { s.taskStats with completed := s.taskStats.completed + 1 },
                 results := JSMap.set s.results task.symbol data } :=
      ⟨rfl, Or.inl rfl, fun e he => Or.inr ⟨e, he, rfl⟩, fun p hp => Or.inr ⟨p, hp, rfl⟩,
        fun _ hk => JSMap.has_set hk, fun _ hk => Or.inr hk⟩
    unfold onMessage _saveResult
    dsimp only
    split
    · exact h1
    · exact h1
    · split
      · exact touches_quiet h1 ⟨rfl, rfl, fun _ he => he, rfl, rfl, rfl⟩
      · exact h1
  | error e =>
    unfold onMessage
    dsimp only
    split
    · exact ⟨rfl, Or.inr ⟨task.retried, rfl, rfl⟩, fun e he => Or.inr ⟨e, he, rfl⟩,
        fun p hp => Or.inr ⟨p, hp, rfl⟩, fun _ hk => Or.inr hk, fun _ hk => JSMap.has_set hk⟩
    · exact ⟨rfl, Or.inl rfl, fun e he => Or.inr ⟨e, he, rfl⟩,
        fun p hp => Or.inr ⟨p, hp, rfl⟩, fun _ hk => Or.inr hk, fun _ hk => JSMap.has_set hk⟩
  | log d => exact (quiet_refl s).touches _
  | progress => exact (quiet_refl s).touches _
  | memory => exact (quiet_refl s).touches _
  | other => exact (quiet_refl s).touches _

theorem touches_onError (s : State) (id : String) (task : Task) (m : String) :
    Touches task.symbol s (onError s id task m) :=
  ⟨rfl, Or.inl rfl, fun e he => Or.inr ⟨e, JSMap.mem_delete he, rfl⟩,
    fun p hp => Or.inr ⟨p, hp, rfl⟩, fun _ hk => Or.inr hk, fun _ hk => JSMap.has_set hk⟩

theorem touches_onExit (s : State) (id : String) (task : Task) (code : Option Int)
    (signal : Option String) : Touches task.symbol s (onExit s id task code signal) := by
  have key : ∀ s1 : State, Touches task.symbol s s1 → Touches task.symbol s
      (setTimeout { s1 with activeWorkers := JSMap.delete s1.activeWorkers id }
        .processQueue 100) :=
    fun s1 h => touches_quiet h ⟨rfl, rfl, fun _ he => JSMap.mem_delete he, rfl, rfl, rfl⟩
  unfold onExit
  dsimp only
  apply key
  split
  · split
    · split
      · exact touches_requeue s task
      · split
        · exact ⟨rfl, Or.inl rfl, fun e he => Or.inr ⟨e, he, rfl⟩,
            fun p hp => Or.inr ⟨p, hp, rfl⟩, fun _ hk => Or.inr hk,
            fun _ hk => JSMap.has_set hk⟩
        · exact (quiet_refl s).touches _
    · exact (quiet_refl s).touches _
  · exact (quiet_refl s).touches _

theorem quiet_onSendCallback (s : State) (w : Nat) (id : String) (err : Bool) :
    Quiet s (onSendCallback s w id err) := by
  unfold onSendCallback
  split
  · exact ⟨rfl, rfl, fun _ he => JSMap.mem_delete he, rfl, rfl, rfl⟩
  · exact quiet_refl s

theorem touches_onHardTimeout (s : State) (w : Nat) (id : String) (task : Task) :
    Touches task.symbol s (onHardTimeout s w id task) := by
  unfold onHardTimeout
  dsimp only
  split
  · split
    · exact ⟨rfl, Or.inr ⟨task.retried, rfl, rfl⟩, fun e he => Or.inr ⟨e, he, rfl⟩,
        fun p hp => Or.inr ⟨p, hp, rfl⟩, fun _ hk => Or.inr hk, fun _ hk => Or.inr hk⟩
    · exact ⟨rfl, Or.inl rfl, fun e he => Or.inr ⟨e, he, rfl⟩,
        fun p hp => Or.inr ⟨p, hp, rfl⟩, fun _ hk => Or.inr hk, fun _ hk => JSMap.has_set hk⟩
  · exact (quiet_refl s).touches _

theorem quiet_onGraceKill (s : State) (w : Nat) (id : String) :
    Quiet s (onGraceKill s w id) := by
  unfold onGraceKill
  split
  · exact ⟨rfl, rfl, fun _ he => he, rfl, rfl, rfl⟩
  · exact quiet_refl s

theorem quiet_onForceKill (s : State) (w : Nat) (c : Bool) :
    Quiet s (onForceKill s w c) := by
  unfold onForceKill
  split
  · exact ⟨rfl, rfl, fun _ he => he, rfl, rfl, rfl⟩
  · exact quiet_refl s

theorem quiet_resolveCompletion (s : State) : Quiet s (resolveCompletion s) := by
  unfold resolveCompletion
  split
  · exact ⟨rfl, rfl, fun _ he => he, rfl, rfl, rfl⟩
  · exact quiet_refl s

theorem quiet_stopMonitoring (s : State) : Quiet s (stopMonitoring s) := by
  unfold stopMonitoring
  split
  · exact ⟨rfl, rfl, fun _ he => he, rfl, rfl, rfl⟩
  · exact quiet_refl s

theorem quiet_checkCompletion (s : State) : Quiet s (_checkCompletion s) := by
  unfold _checkCompletion
  split
  · have h1 : Quiet s { stopMonitoring s with running := false } :=
      quiet_trans (quiet_stopMonitoring s) ⟨rfl, rfl, fun _ he => he, rfl, rfl, rfl⟩
    exact quiet_trans h1 (quiet_resolveCompletion _)
  · exact quiet_refl s

theorem quiet_stopWorker (s : State) (e : String × WorkerInfo) : Quiet s (stopWorker s e) := by
  unfold stopWorker
  dsimp only
  split <;> exact ⟨rfl, rfl, fun _ he => he, rfl, rfl, rfl⟩

theorem quiet_foldl_stopWorker (l : List (String × WorkerInfo)) (s : State) :
    Quiet s (l.foldl stopWorker s) := by
  induction l generalizing s with
  | nil => exact quiet_refl s
  | cons e l ih =>
    rw [List.foldl_cons]
    exact quiet_trans (quiet_stopWorker s e) (ih _)

theorem quiet_stopFinish (s : State) : Quiet s (stopFinish s) := by
  unfold stopFinish
  refine quiet_trans ?_ (quiet_resolveCompletion _)
  exact ⟨rfl, rfl, fun e he => absurd he (List.not_mem_nil e), rfl, rfl, rfl⟩

theorem quiet_stop (s : State) : Quiet s (stop s) := by
  unfold stop
  dsimp only
  split
  · exact quiet_refl s
  · have h0 : Quiet s { s with running := false } := ⟨rfl, rfl, fun _ he => he, rfl, rfl, rfl⟩
    have h1 : Quiet s (stopMonitoring { s with running := false }) :=
      quiet_trans h0 (quiet_stopMonitoring _)
    have h2 := quiet_trans h1 (quiet_foldl_stopWorker
      (stopMonitoring { s with running := false }).activeWorkers _)
    split
    · exact quiet_trans h2 ⟨rfl, rfl, fun _ he => he, rfl, rfl, rfl⟩
    · exact quiet_trans h2 (quiet_stopFinish _)

theorem touches_spawnWorker (s : State) (task : Task) (fork : SpawnOutcome) :
    Touches task.symbol s (_spawnWorker s task fork) := by
  unfold _spawnWorker
  dsimp only
  split
  · refine ⟨rfl, Or.inl rfl, ?_, ?_, fun _ hk => Or.inr hk, fun _ hk => Or.inr hk⟩
    · intro e he
      obtain ⟨e0, he0, heq⟩ := mem_storeTimeoutId he
      rw [heq]
      rcases JSMap.mem_set he0 with h0 | rfl
      · exact Or.inr ⟨e0, h0, rfl⟩
      · exact Or.inl rfl
    · intro p hp
      rw [setTimeout, send] at hp
      dsimp only at hp
      rw [List.mem_append, List.mem_singleton] at hp
      rcases hp with hp | rfl
      · exact Or.inr ⟨p, hp, rfl⟩
      · exact Or.inl rfl
  · split
    · exact ⟨rfl, Or.inr ⟨task.retried, rfl, rfl⟩, fun e he => Or.inr ⟨e, he, rfl⟩,
        fun p hp => Or.inr ⟨p, hp, rfl⟩, fun _ hk => Or.inr hk, fun _ hk => JSMap.has_set hk⟩
    · exact ⟨rfl, Or.inl rfl, fun e he => Or.inr ⟨e, he, rfl⟩,
        fun p hp => Or.inr ⟨p, hp, rfl⟩, fun _ hk => Or.inr hk, fun _ hk => JSMap.has_set hk⟩
  · have hact : ∀ e ∈ JSMap.set s.activeWorkers (workerId task s.clock)
        ⟨s.spawned.length, task, s.clock, task.retriesOrZero, none⟩,
        e.2.task.symbol = task.symbol ∨
          ∃ e0 ∈ s.activeWorkers, e.2.task.symbol = e0.2.task.symbol := by
      intro e he
      rcases JSMap.mem_set he with h0 | rfl
      · exact Or.inr ⟨e, h0, rfl⟩
      · exact Or.inl rfl
    have hproc : ∀ p ∈ s.spawned ++ [(⟨workerId task s.clock, task, false, true⟩ : Proc)],
        p.task.symbol = task.symbol ∨ ∃ p0 ∈ s.spawned, p.task.symbol = p0.task.symbol := by
      intro p hp
      rw [List.mem_append, List.mem_singleton] at hp
      rcases hp with hp | rfl
      · exact Or.inr ⟨p, hp, rfl⟩
      · exact Or.inl rfl
    split
    · exact ⟨rfl, Or.inr ⟨task.retried, rfl, rfl⟩, hact, hproc, fun _ hk => Or.inr hk,
        fun _ hk => JSMap.has_set hk⟩
    · exact ⟨rfl, Or.inl rfl, hact, hproc, fun _ hk => Or.inr hk,
        fun _ hk => JSMap.has_set hk⟩

theorem mem_symbolsOf_append_left {l : List Task} {k : JSVal} (t : Task)
    (h : k ∈ symbolsOf l) : k ∈ symbolsOf (l ++ [t]) := by
  unfold symbolsOf at *
  rw [List.map_append]
  exact List.mem_append_left _ h

theorem mem_symbolsOf_append_self (l : List Task) (t : Task) :
    t.symbol ∈ symbolsOf (l ++ [t]) := by
  unfold symbolsOf
  rw [List.map_append]
  exact List.mem_append_right _ (List.mem_singleton.mpr rfl)

theorem mem_symbolsOf {l : List Task} {t : Task} (h : t ∈ l) : t.symbol ∈ symbolsOf l :=
  List.mem_map.mpr ⟨t, h, rfl⟩

theorem Placement.shift {added : List Task} {s : State} {task : Task} {rest : List Task}
    (h : Placement added s) (hq : s.taskQueue = task :: rest) :
    Placement added { s with taskQueue := rest, admitted := s.admitted ++ [task] } where
  active := fun e he => mem_symbolsOf_append_left task (h.active e he)
  forked := fun p hp => mem_symbolsOf_append_left task (h.forked p hp)
  results := fun k hk => mem_symbolsOf_append_left task (h.results k hk)
  errors := fun k hk => mem_symbolsOf_append_left task (h.errors k hk)
  admitted := by
    intro k hk
    unfold symbolsOf at hk
    dsimp only at hk
    rw [List.map_append, List.mem_append] at hk
    rcases hk with hk | hk
    · exact h.admitted k hk
    · rw [List.map_singleton, List.mem_singleton] at hk
      rw [hk]
      exact h.queued task (by rw [hq]; exact List.mem_cons_self _ _)
  queued := fun q hq1 => h.queued q (by rw [hq]; exact List.mem_cons_of_mem _ hq1)
  waiting := by
    intro t hta hna
    have hna1 : t.symbol ∉ symbolsOf s.admitted :=
      fun hin => hna (mem_symbolsOf_append_left task hin)
    have hne : task.symbol ≠ t.symbol := by
      intro heq
      apply hna
      rw [← heq]
      exact mem_symbolsOf_append_self _ _
    obtain ⟨hmem, hcount⟩ := h.waiting t hta hna1
    rw [hq] at hmem
    unfold queueCopies at hcount
    rw [hq, List.filter_cons_of_neg (by simpa using hne)] at hcount
    refine ⟨?_, hcount⟩
    rcases List.mem_cons.mp hmem with h1 | h1
    · exact absurd (congrArg Task.symbol h1).symm hne
    · exact h1

theorem placement_spawnNextWorker {added : List Task} {s : State} (h : Placement added s)
    (fork : SpawnOutcome) : Placement added (spawnNextWorker s fork) := by
  unfold spawnNextWorker
  split
  · exact h
  · split
    · split
      · exact h
      · rename_i task rest hq
        dsimp only
        have h1 := h.shift hq
        have h2 := h1.of_touches (touches_spawnWorker _ task fork)
          (mem_symbolsOf_append_self _ _)
        exact h2.of_quiet ⟨rfl, rfl, fun _ he => he, rfl, rfl, rfl⟩
    · exact h.of_quiet (quiet_checkCompletion s)

theorem placement_processQueue {added : List Task} {s : State} (h : Placement added s)
    (fork : SpawnOutcome) : Placement added (_processQueue s fork) := by
  unfold _processQueue
  split
  · exact h
  · exact placement_spawnNextWorker h fork

theorem placement_resourceMonitorTick {added : List Task} {s : State}
    (h : Placement added s) (p : Option Nat) (fork : SpawnOutcome) :
    Placement added (resourceMonitorTick s p fork) := by
  unfold resourceMonitorTick
  split
  · exact h
  · split
    · split
      · exact h.of_quiet ⟨rfl, rfl, fun _ he => he, rfl, rfl, rfl⟩
      · exact h
    · split
      · refine placement_processQueue ?_ fork
        exact h.of_quiet ⟨rfl, rfl, fun _ he => he, rfl, rfl, rfl⟩
      · exact h

theorem placement_fireTimer {added : List Task} {s : State} (h : Placement added s)
    (t : Timer) (fork : SpawnOutcome) (c : Bool) : Placement added (fireTimer s t fork c) := by
  unfold fireTimer
  split
  · exact placement_spawnNextWorker h fork
  · exact placement_processQueue h fork
  · split
    · rename_i p hp
      exact h.of_touches (touches_onHardTimeout s _ p.id p.task)
        (h.forked p (List.get?_mem hp))
    · exact h
  · split
    · exact h.of_quiet (quiet_onGraceKill s _ _)
    · exact h
  · exact h.of_quiet (quiet_onForceKill s _ _)

theorem filter_symbol_eq_nil (l : List Task) (k : JSVal) (h : k ∉ symbolsOf l) :
    l.filter (fun u => decide (u.symbol = k)) = [] := by
  rw [List.filter_eq_nil_iff]
  intro u hu hk
  exact h ((of_decide_eq_true hk) ▸ mem_symbolsOf hu)

theorem filter_symbol_length_one (l : List Task) (t : Task) (hd : (symbolsOf l).Nodup)
    (ht : t ∈ l) : (l.filter (fun u => decide (u.symbol = t.symbol))).length = 1 := by
  induction l with
  | nil => exact absurd ht (List.not_mem_nil t)
  | cons u l ih =>
    unfold symbolsOf at hd
    rw [List.map_cons, List.nodup_cons] at hd
    rcases List.mem_cons.mp ht with h1 | h1
    · subst h1
      rw [List.filter_cons_of_pos (by simp), filter_symbol_eq_nil l t.symbol hd.1]
      rfl
    · have hne : u.symbol ≠ t.symbol := fun heq => hd.1 (heq ▸ mem_symbolsOf h1)
      rw [List.filter_cons_of_neg (by simpa using hne)]
      exact ih hd.2 h1

theorem addSymbols_queue (s : State) (a : JSArg) :
    (addSymbols s a).taskQueue = s.taskQueue ++ validTasks a := by
  unfold addSymbols validTasks
  split
  · simp
  · split
    · rename_i entries h0
      have : entries = [] := List.eq_nil_of_length_eq_zero h0
      subst this
      simp
    · rfl

theorem addSymbols_frame (s : State) (a : JSArg) :
    (addSymbols s a).admitted = s.admitted ∧ (addSymbols s a).activeWorkers = s.activeWorkers ∧
      (addSymbols s a).spawned = s.spawned ∧ (addSymbols s a).results = s.results ∧
      (addSymbols s a).errors = s.errors := by
  unfold addSymbols
  split
  · exact ⟨rfl, rfl, rfl, rfl, rfl⟩
  · split <;> exact ⟨rfl, rfl, rfl, rfl, rfl⟩

theorem symbolsOf_append (l1 l2 : List Task) :
    symbolsOf (l1 ++ l2) = symbolsOf l1 ++ symbolsOf l2 := by
  unfold symbolsOf
  exact List.map_append _ _ _

theorem placement_addSymbols {added : List Task} {s : State} (h : Placement added s)
    (a : JSArg) (hd : (symbolsOf (added ++ validTasks a)).Nodup) :
    Placement (added ++ validTasks a) (addSymbols s a) := by
  obtain ⟨f1, f2, f3, f4, f5⟩ := addSymbols_frame s a
  have fq := addSymbols_queue s a
  rw [symbolsOf_append] at hd
  obtain ⟨_, hd2, hdis⟩ := List.nodup_append.mp hd
  have grow : ∀ k, k ∈ symbolsOf added → k ∈ symbolsOf (added ++ validTasks a) := by
    intro k hk
    rw [symbolsOf_append]
    exact List.mem_append_left _ hk
  refine ⟨?_, ?_, ?_, ?_, ?_, ?_, ?_⟩
  · rw [f1, f2]
    exact h.active
  · rw [f1, f3]
    exact h.forked
  · rw [f1, f4]
    exact h.results
  · rw [f1, f5]
    exact h.errors
  · rw [f1]
    exact fun k hk => grow k (h.admitted k hk)
  · intro q hq
    rw [fq, List.mem_append] at hq
    rcases hq with hq | hq
    · exact grow _ (h.queued q hq)
    · rw [symbolsOf_append]
      exact List.mem_append_right _ (mem_symbolsOf hq)
  · intro t ht hna
    rw [f1] at hna
    unfold queueCopies
    rw [fq, List.filter_append, List.length_append]
    rcases List.mem_append.mp ht with ht | ht
    · obtain ⟨hmem, hcount⟩ := h.waiting t ht hna
      refine ⟨List.mem_append_left _ hmem, ?_⟩
      have hnew : t.symbol ∉ symbolsOf (validTasks a) :=
        fun hin => List.disjoint_left.mp hdis (mem_symbolsOf ht) hin
      rw [filter_symbol_eq_nil _ _ hnew]
      exact hcount
    · refine ⟨List.mem_append_right _ ht, ?_⟩
      have hold : t.symbol ∉ symbolsOf s.taskQueue := by
        intro hin
        obtain ⟨q, hq, hqs⟩ := List.mem_map.mp hin
        exact List.disjoint_left.mp hdis (hqs ▸ h.queued q hq) (mem_symbolsOf ht)
      rw [filter_symbol_eq_nil _ _ hold, filter_symbol_length_one _ t hd2 ht]
      rfl

theorem placement_markProc {added : List Task} {s : State} (h : Placement added s)
    (w : Nat) (p q : Proc) (hp : s.spawned.get? w = some p) (hq : q.task = p.task) :
    Placement added { s with spawned := s.spawned.set w q } where
  active := h.active
  forked := by
    intro r hr
    rcases List.mem_or_eq_of_mem_set hr with hr | rfl
    · exact h.forked r hr
    · rw [hq]
      exact h.forked p (List.get?_mem hp)
  results := h.results
  errors := h.errors
  admitted := h.admitted
  queued := h.queued
  waiting := h.waiting

theorem placement_step {added : List Task} {s s1 : State} (e : Event)
    (h : Placement added s) (hs : step s e = some s1)
    (hd : (symbolsOf (added ++ addedBy e)).Nodup) : Placement (added ++ addedBy e) s1 := by
  cases e with
  | addSymbols a =>
    simp only [step, Option.some.injEq] at hs
    subst hs
    exact placement_addSymbols h a hd
  | start =>
    simp only [step, Option.some.injEq] at hs
    subst hs
    simp only [addedBy, List.append_nil]
    unfold start
    split
    · exact h
    · exact h.of_quiet ⟨rfl, rfl, fun _ he => he, rfl, rfl, rfl⟩
  | startResume fork =>
    simp only [addedBy, List.append_nil]
    simp only [step] at hs
    split at hs
    · simp only [Option.some.injEq] at hs
      subst hs
      unfold startResume
      refine placement_processQueue ?_ fork
      exact h.of_quiet ⟨rfl, rfl, fun _ he => he, rfl, rfl, rfl⟩
    · simp at hs
  | stop =>
    simp only [addedBy, List.append_nil]
    simp only [step, Option.some.injEq] at hs
    subst hs
    exact h.of_quiet (quiet_stop s)
  | stopResume k =>
    simp only [addedBy, List.append_nil]
    simp only [step] at hs
    split at hs
    · simp only [Option.some.injEq] at hs
      subst hs
      unfold stopResume
      have h0 : Quiet s { s with pendingStops := s.pendingStops.eraseIdx k } :=
        ⟨rfl, rfl, fun _ he => he, rfl, rfl, rfl⟩
      exact h.of_quiet (quiet_trans h0 (quiet_stopFinish _))
    · simp at hs
  | waitForCompletion =>
    simp only [addedBy, List.append_nil]
    simp only [step, Option.some.injEq] at hs
    subst hs
    unfold waitForCompletion
    split
    · exact h
    · split
      · exact h.of_quiet ⟨rfl, rfl, fun _ he => he, rfl, rfl, rfl⟩
      · exact h
  | advance ms =>
    simp only [addedBy, List.append_nil]
    simp only [step, Option.some.injEq] at hs
    subst hs
    exact h.of_quiet ⟨rfl, rfl, fun _ he => he, rfl, rfl, rfl⟩
  | timer id fork c =>
    simp only [addedBy, List.append_nil]
    simp only [step] at hs
    split at hs
    · split at hs
      · simp only [Option.some.injEq] at hs
        subst hs
        refine placement_fireTimer ?_ _ fork c
        exact h.of_quiet ⟨rfl, rfl, fun _ he => he, rfl, rfl, rfl⟩
      · simp at hs
    · simp at hs
  | monitorTick hd p fork =>
    simp only [addedBy, List.append_nil]
    simp only [step] at hs
    split at hs
    · simp only [Option.some.injEq] at hs
      subst hs
      exact placement_resourceMonitorTick h p fork
    · simp at hs
  | workerMessage w m =>
    simp only [addedBy, List.append_nil]
    simp only [step] at hs
    split at hs
    · rename_i p hp
      simp only [Option.some.injEq] at hs
      subst hs
      exact h.of_touches (touches_onMessage s p.task m) (h.forked p (List.get?_mem hp))
    · simp at hs
  | workerError w m =>
    simp only [addedBy, List.append_nil]
    simp only [step] at hs
    split at hs
    · rename_i p hp
      simp only [Option.some.injEq] at hs
      subst hs
      exact h.of_touches (touches_onError s p.id p.task m) (h.forked p (List.get?_mem hp))
    · simp at hs
  | workerExit w code signal =>
    simp only [addedBy, List.append_nil]
    simp only [step] at hs
    split at hs
    · rename_i p hp
      split at hs
      · simp at hs
      · simp only [Option.some.injEq] at hs
        subst hs
        have h1 := placement_markProc h w p { p with exited := true } hp rfl
        have h2 := h1.of_touches (touches_onExit _ p.id p.task code signal)
          (h.forked p (List.get?_mem hp))
        exact h2.of_quiet ⟨rfl, rfl, fun _ he => he, rfl, rfl, rfl⟩
    · simp at hs
  | sendCallback w err =>
    simp only [addedBy, List.append_nil]
    simp only [step] at hs
    split at hs
    · rename_i p hp
      split at hs
      · simp at hs
      · simp only [Option.some.injEq] at hs
        subst hs
        have h1 := placement_markProc h w p { p with startAcked := true } hp rfl
        exact h1.of_quiet (quiet_onSendCallback _ w p.id err)
    · simp at hs

theorem placement_run (evs : List Event) (added : List Task) (s s1 : State)
    (h : Placement added s) (hr : run s evs = some s1)
    (hd : (symbolsOf (added ++ addedTasks evs)).Nodup) :
    Placement (added ++ addedTasks evs) s1 := by
  induction evs generalizing s added with
  | nil =>
    simp only [run, Option.some.injEq] at hr
    subst hr
    simpa [addedTasks] using h
  | cons e es ih =>
    simp only [run] at hr
    split at hr
    · rename_i s2 hs
      have hassoc : added ++ addedTasks (e :: es) = (added ++ addedBy e) ++ addedTasks es := by
        simp [addedTasks, List.append_assoc]
      rw [hassoc] at hd ⊢
      have hd1 : (symbolsOf (added ++ addedBy e)).Nodup := by
        rw [symbolsOf_append] at hd
        exact (List.nodup_append.mp hd).1
      exact ih (added ++ addedBy e) s2 (placement_step e h hs hd1) hr hd
    · simp at hr

theorem placement_init (o : Options) : Placement [] (init o) where
  active := fun e he => absurd he (List.not_mem_nil e)
  forked := fun p hp => absurd hp (List.not_mem_nil p)
  results := fun k hk => by simp [init, JSMap.has] at hk
  errors := fun k hk => by simp [init, JSMap.has] at hk
  admitted := fun k hk => by simp [init, symbolsOf] at hk
  queued := fun q hq => absurd hq (List.not_mem_nil q)
  waiting := fun t ht => absurd ht (List.not_mem_nil t)

/-- C2 (counterexample): a single task `X` is added and its worker is forked.
(1) The worker reports a result: until its exit is processed, `X` is held in
`activeWorkers` and is terminal (recorded in the results map) at once; it is in two
places.  (2) The send of the `start` message fails: the send callback removes `X` from
`activeWorkers` and records nothing; it is in no place.  (3) `stop` is called, the
worker exits with code 0 and `stop` returns: `X` is in no place.  (4) The worker exits
with code 0 before it has reported anything: `X` is in no place.  (5) Two tasks with the
distinct symbols `1` (a number) and `'1'` (a string) are admitted within the same
millisecond: both workers get the id `1_0`, the second `activeWorkers.set` replaces the
entry of the first, and the first task is in no place. -/
theorem reported_task_in_two_places :
    (run (init defaultOptions) resultEvents = some afterResult ∧
      (symbolsOf (addedTasks resultEvents)).Nodup ∧
      taskFor "X" ∈ addedTasks resultEvents ∧
      heldActive afterResult (taskFor "X").symbol = true ∧
      isTerminal afterResult (taskFor "X").symbol = true ∧
      placeCount afterResult (taskFor "X").symbol = 2) ∧
    (run (init defaultOptions) (spawnEvents ++ [.sendCallback 0 true]) =
        some afterSendFailure ∧
      placeCount afterSendFailure (taskFor "X").symbol = 0) ∧
    (run (init defaultOptions) (spawnEvents ++ stoppedEarlyEvents) = some stoppedEarly ∧
      placeCount stoppedEarly (taskFor "X").symbol = 0) ∧
    (run (init defaultOptions) (spawnEvents ++ [.workerExit 0 (some 0) none]) =
        some exitedEarly ∧
      placeCount exitedEarly (taskFor "X").symbol = 0) ∧
    (run (init poolOptions) sameIdEvents = some afterSameId ∧
      (symbolsOf (addedTasks sameIdEvents)).Nodup ∧
      afterSameId.spawned.map (fun p => p.id) = ["1_0", "1_0"] ∧
      afterSameId.activeWorkers.map (fun e => (e.1, e.2.task.symbol)) =
        [("1_0", .str "1")] ∧
      placeCount afterSameId (.num 1) = 0) := by
  decide

/-- In every run in which the tasks added through `addSymbols` have pairwise distinct
symbols, an added task that has not yet been taken from the queue by `spawnNextWorker`
is in the queue, as the only queue entry for its symbol, and nowhere else. -/
theorem unadmitted_task_only_in_queue (o : Options) (evs : List Event) (s : State)
    (h : run (init o) evs = some s) (hd : (symbolsOf (addedTasks evs)).Nodup)
    (t : Task) (ht : t ∈ addedTasks evs) (hna : t.symbol ∉ symbolsOf s.admitted) :
    t ∈ s.taskQueue ∧ queueCopies s t.symbol = 1 ∧ heldActive s t.symbol = false ∧
      isTerminal s t.symbol = false ∧ placeCount s t.symbol = 1 := by
  have hp : Placement ([] ++ addedTasks evs) s :=
    placement_run evs [] (init o) s (placement_init o) h (by simpa using hd)
  rw [List.nil_append] at hp
  obtain ⟨hmem, hcount⟩ := hp.waiting t ht hna
  have hact : heldActive s t.symbol = false := by
    rw [Bool.eq_false_iff]
    intro hh
    unfold heldActive at hh
    rw [List.any_eq_true] at hh
    obtain ⟨e, he, hk⟩ := hh
    exact hna ((of_decide_eq_true hk) ▸ hp.active e he)
  have hterm : isTerminal s t.symbol = false := by
    rw [Bool.eq_false_iff]
    intro hh
    unfold isTerminal at hh
    rw [Bool.or_eq_true] at hh
    rcases hh with hh | hh
    · exact hna (hp.results _ hh)
    · exact hna (hp.errors _ hh)
  refine ⟨hmem, hcount, hact, hterm, ?_⟩
  unfold placeCount
  rw [hcount, hact, hterm]
  rfl

theorem sanitize_toList (symbol : String) :
    (sanitize symbol).toList =
      symbol.toList.map (fun c => if c = ':' ∨ c = '/' then '_' else c) := rfl

/-- C12: for every symbol string, the file name computed by `symbol.replace(/[:/]/g, '_')`
contains neither `:` nor `/`, has the length of the symbol, holds `_` at every position
where the symbol has `:` or `/` and the symbol's own character everywhere else, and
sanitising it again changes nothing. -/
theorem sanitize_replaces_separators (symbol : String) :
    (∀ c ∈ (sanitize symbol).toList, c ≠ ':' ∧ c ≠ '/') ∧
      (sanitize symbol).length = symbol.length ∧
      (∀ (i : Nat) (c : Char), symbol.toList[i]? = some c →
        ((c = ':' ∨ c = '/') → (sanitize symbol).toList[i]? = some '_') ∧
        ((c ≠ ':' ∧ c ≠ '/') → (sanitize symbol).toList[i]? = some c)) ∧
      sanitize (sanitize symbol) = sanitize symbol := by
  refine ⟨?_, ?_, ?_, ?_⟩
  · intro c hc
    rw [sanitize_toList, List.mem_map] at hc
    obtain ⟨a, _, rfl⟩ := hc
    split
    · exact ⟨by decide, by decide⟩
    · rename_i h
      exact ⟨fun h1 => h (Or.inl h1), fun h2 => h (Or.inr h2)⟩
  · show (sanitize symbol).toList.length = symbol.toList.length
    rw [sanitize_toList, List.length_map]
  · intro i c hc
    rw [sanitize_toList, List.getElem?_map, hc]
    refine ⟨fun h => ?_, fun h => ?_⟩
    · simp [h]
    · simp [h.1, h.2]
  · have hf : ∀ c : Char, (fun c : Char => if c = ':' ∨ c = '/' then '_' else c)
        ((fun c : Char => if c = ':' ∨ c = '/' then '_' else c) c) =
        (fun c : Char => if c = ':' ∨ c = '/' then '_' else c) c := by
      intro c
      by_cases h : c = ':' ∨ c = '/'
      · simp [h]
      · simp [h]
    show String.mk ((sanitize symbol).toList.map _) = String.mk (symbol.toList.map _)
    rw [sanitize_toList, List.map_map]
    congr 1
    exact List.map_congr_left (fun c _ => hf c)

theorem spreadOver_or (own : Option JSVal) (dflt : JSVal) :
    spreadOver own ((readOption own).or dflt) = own.getD dflt := by
  cases own with
  | none => simp [spreadOver, readOption, JSVal.or, JSVal.truthy]
  | some v => rfl

/-- C16: for every options object and CPU count, each recognised option that is absent
resolves to its default (`maxWorkers` to `max(1, cpuCount - 1)`, `timeout` to 30000,
`retries` to 3, `outputDir` to `'./data'`, `token` and `signature` to `''`,
`throttleDelay` to 500, `maxMemoryUsage` to 80, `workerMemoryLimit` to 300) and each
option that is supplied resolves to the supplied value, whatever it is; in particular
`retries: 0` and `throttleDelay: 0` stay 0, and `maxWorkers` defaults to 1 on a machine
with one CPU and to 7 on a machine with eight. -/
theorem options_resolve_to_supplied_or_default (options : RawOptions) (cpuCount : Nat) :
    (resolveOptions options cpuCount).maxWorkers =
        options.maxWorkers.getD (.num (max 1 ((cpuCount : Int) - 1))) ∧
      (resolveOptions options cpuCount).timeout = options.timeout.getD (.num 30000) ∧
      (resolveOptions options cpuCount).retries = options.retries.getD (.num 3) ∧
      (resolveOptions options cpuCount).outputDir = options.outputDir.getD (.str "./data") ∧
      (resolveOptions options cpuCount).token = options.token.getD (.str "") ∧
      (resolveOptions options cpuCount).signature = options.signature.getD (.str "") ∧
      (resolveOptions options cpuCount).throttleDelay =
        options.throttleDelay.getD (.num 500) ∧
      (resolveOptions options cpuCount).maxMemoryUsage =
        options.maxMemoryUsage.getD (.num 80) ∧
      (resolveOptions options cpuCount).workerMemoryLimit =
        options.workerMemoryLimit.getD (.num 300) ∧
      (resolveOptions { options with retries := some (.num 0) } cpuCount).retries = .num 0 ∧
      (resolveOptions { options with throttleDelay := some (.num 0) } cpuCount).throttleDelay =
        .num 0 ∧
      (resolveOptions noOptions 1).maxWorkers = .num 1 ∧
      (resolveOptions noOptions 8).maxWorkers = .num 7 := by
  refine ⟨spreadOver_or _ _, spreadOver_or _ _, spreadOver_or _ _, spreadOver_or _ _,
    spreadOver_or _ _, spreadOver_or _ _, spreadOver_or _ _, spreadOver_or _ _,
    spreadOver_or _ _, rfl, rfl, ?_, ?_⟩
  · decide
  · decide

theorem JSMap.not_has {κ ν : Type} [DecidableEq κ] {m : JSMap κ ν} {k : κ}
    (h : ¬ JSMap.has m k = true) (e : κ × ν) (he : e ∈ m) : e.1 ≠ k := by
  intro hk
  apply h
  unfold JSMap.has
  rw [List.any_eq_true]
  exact ⟨e, he, decide_eq_true hk⟩

theorem JSMap.get_append_of_not_has {κ ν : Type} [DecidableEq κ] (m : JSMap κ ν) (k : κ)
    (v : ν) (h : ¬ JSMap.has m k = true) : JSMap.get (m ++ [(k, v)]) k = some v := by
  unfold JSMap.get
  rw [List.find?_append]
  have hnone : List.find? (fun e => decide (e.1 = k)) m = none := by
    rw [List.find?_eq_none]
    intro e he
    simpa using JSMap.not_has h e he
  rw [hnone]
  simp

theorem JSMap.get_set_self {κ ν : Type} [DecidableEq κ] (m : JSMap κ ν) (k : κ) (v : ν) :
    JSMap.get (JSMap.set m k v) k = some v := by
  unfold JSMap.set
  split
  · rename_i hhas
    unfold JSMap.get
    induction m with
    | nil => simp [JSMap.has] at hhas
    | cons a m ih =>
      by_cases ha : a.1 = k
      · simp [List.find?, ha]
      · have hrest : JSMap.has m k = true := by
          unfold JSMap.has at hhas ⊢
          simpa [ha] using hhas
        simp only [List.map_cons, if_neg ha]
        rw [List.find?_cons_of_neg _ (by simpa using ha)]
        exact ih hrest
  · rename_i hhas
    exact JSMap.get_append_of_not_has m k v hhas

theorem JSMap.get_set_other {κ ν : Type} [DecidableEq κ] (m : JSMap κ ν) (k k1 : κ) (v : ν)
    (h : k ≠ k1) : JSMap.get (JSMap.set m k v) k1 = JSMap.get m k1 := by
  unfold JSMap.set
  split
  · rename_i hhas
    clear hhas
    unfold JSMap.get
    congr 1
    induction m with
    | nil => rfl
    | cons a m ih =>
      by_cases ha : a.1 = k
      · have hne : ¬ a.1 = k1 := fun h1 => h (ha.symm.trans h1)
        simp only [List.map_cons, if_pos ha]
        rw [List.find?_cons_of_neg _ (by simpa using h),
          List.find?_cons_of_neg _ (by simpa using hne)]
        exact ih
      · simp only [List.map_cons, if_neg ha]
        by_cases h1 : a.1 = k1
        · rw [List.find?_cons_of_pos _ (by simpa using h1),
            List.find?_cons_of_pos _ (by simpa using h1)]
        · rw [List.find?_cons_of_neg _ (by simpa using h1),
            List.find?_cons_of_neg _ (by simpa using h1)]
          exact ih
  · unfold JSMap.get
    rw [List.find?_append]
    have : List.find? (fun e : κ × ν => decide (e.1 = k1)) [(k, v)] = none := by
      simp [h]
    rw [this]
    simp

theorem JSMap.value_of_mem_set {κ ν : Type} [DecidableEq κ] {m : JSMap κ ν} {k : κ} {v : ν}
    {e : κ × ν} (he : e ∈ JSMap.set m k v) (hk : e.1 = k) : e.2 = v := by
  unfold JSMap.set at he
  split at he
  · rw [List.mem_map] at he
    obtain ⟨a, _, rfl⟩ := he
    split at hk
    · simp [*]
    · rename_i hne
      split
      · rfl
      · exact absurd hk hne
  · rename_i hhas
    rw [List.mem_append, List.mem_singleton] at he
    rcases he with he | rfl
    · exact absurd hk (JSMap.not_has hhas e he)
    · rfl

theorem JSMap.exists_mem_set {κ ν : Type} [DecidableEq κ] (m : JSMap κ ν) (k : κ) (v : ν) :
    ∃ e ∈ JSMap.set m k v, e.1 = k := by
  unfold JSMap.set
  split
  · rename_i hhas
    unfold JSMap.has at hhas
    rw [List.any_eq_true] at hhas
    obtain ⟨a, ha, hk⟩ := hhas
    refine ⟨(k, v), ?_, rfl⟩
    rw [List.mem_map]
    exact ⟨a, ha, by simp [of_decide_eq_true hk]⟩
  · exact ⟨(k, v), List.mem_append_right _ (List.mem_singleton.mpr rfl), rfl⟩

theorem get_foldl_fromEntries {ν : Type} (l : JSMap JSVal ν) (o : JSMap String ν)
    (ks : String) (v : ν) (hall : ∀ e ∈ l, e.1.toStr = ks → e.2 = v)
    (hex : (∃ e ∈ l, e.1.toStr = ks) ∨ JSMap.get o ks = some v) :
    JSMap.get (l.foldl (fun o e => JSMap.set o e.1.toStr e.2) o) ks = some v := by
  induction l generalizing o with
  | nil =>
    rcases hex with ⟨e, he, _⟩ | h
    · exact absurd he (List.not_mem_nil e)
    · exact h
  | cons a l ih =>
    rw [List.foldl_cons]
    apply ih
    · exact fun e he => hall e (List.mem_cons_of_mem _ he)
    · by_cases ha : a.1.toStr = ks
      · right
        rw [ha, hall a (List.mem_cons_self _ _) ha]
        exact JSMap.get_set_self _ _ _
      · rcases hex with ⟨e, he, hk⟩ | h
        · rcases List.mem_cons.mp he with h1 | h1
          · exact absurd (h1 ▸ hk) ha
          · exact Or.inl ⟨e, h1, hk⟩
        · right
          rw [JSMap.get_set_other _ _ _ _ ha]
          exact h

theorem getResults_of_set (m : JSMap JSVal JSData) (x : String) (data : JSData)
    (hkeys : ∀ e ∈ m, ∃ y, e.1 = JSVal.str y) :
    JSMap.get (objectFromEntries (JSMap.set m (.str x) data)) x = some data := by
  unfold objectFromEntries
  apply get_foldl_fromEntries
  · intro e he hs
    apply JSMap.value_of_mem_set he
    rcases JSMap.mem_set he with h0 | h0
    · obtain ⟨y, hy⟩ := hkeys e h0
      rw [hy] at hs ⊢
      exact congrArg JSVal.str hs
    · rw [h0]
  · left
    obtain ⟨e, he, hk⟩ := JSMap.exists_mem_set m (JSVal.str x) data
    exact ⟨e, he, by rw [hk]; rfl⟩

theorem saveResult_frame (s : State) (symbol : JSVal) (data : JSData) :
    (_saveResult s symbol data).taskStats = s.taskStats ∧
      (_saveResult s symbol data).results = s.results ∧
      (_saveResult s symbol data).taskQueue = s.taskQueue ∧
      (_saveResult s symbol data).errors = s.errors := by
  unfold _saveResult
  split
  · exact ⟨rfl, rfl, rfl, rfl⟩
  · exact ⟨rfl, rfl, rfl, rfl⟩
  · split <;> exact ⟨rfl, rfl, rfl, rfl⟩

/-- C17: when the orchestrator processes a `result` message for a task with symbol `x` (a
string, as are the symbols already in the results map), `taskStats.completed` grows by
exactly 1, the results map maps the symbol to the message's data, `getResults()[x]` is
that data, and the task queue, `retried`, `failed`, `total` and the errors map are
unchanged. -/
theorem result_message_records_success (s : State) (task : Task) (data : JSData)
    (x : String) (hsym : task.symbol = .str x)
    (hkeys : ∀ e ∈ s.results, ∃ y, e.1 = JSVal.str y) :
    (onMessage s task (.result data)).taskStats.completed = s.taskStats.completed + 1 ∧
      JSMap.get (onMessage s task (.result data)).results task.symbol = some data ∧
      JSMap.get (getResults (onMessage s task (.result data))) x = some data ∧
      (onMessage s task (.result data)).taskQueue = s.taskQueue ∧
      (onMessage s task (.result data)).taskStats.retried = s.taskStats.retried ∧
      (onMessage s task (.result data)).taskStats.failed = s.taskStats.failed ∧
      (onMessage s task (.result data)).taskStats.total = s.taskStats.total ∧
      (onMessage s task (.result data)).errors = s.errors := by
  unfold onMessage getResults
  dsimp only
  obtain ⟨f1, f2, f3, f4⟩ := saveResult_frame
    { s with taskStats := { s.taskStats with completed := s.taskStats.completed + 1 },
             results := JSMap.set s.results task.symbol data } task.symbol data
  rw [f1, f2, f3, f4]
  refine ⟨rfl, JSMap.get_set_self _ _ _, ?_, rfl, rfl, rfl, rfl, rfl⟩
  rw [hsym]
  exact getResults_of_set s.results x data hkeys

/-- Witness for C17: the worker for `X` reports `sampleData`; `completed` goes from 0 to 1
and `getResults()['X']` is the reported data. -/
theorem result_message_records_success_witness :
    afterResultMessage.taskStats.completed = spawnedDefault.taskStats.completed + 1 ∧
      JSMap.get (getResults afterResultMessage) "X" = some (.collected sampleData) ∧
      afterResultMessage.taskQueue = spawnedDefault.taskQueue ∧
      afterResultMessage.errors = spawnedDefault.errors :=
  have hempty : spawnedDefault.results = [] := by decide
  have h := result_message_records_success spawnedDefault (taskFor "X")
    (.collected sampleData) "X" rfl
    (fun e he => absurd (hempty ▸ he) (List.not_mem_nil e))
  ⟨h.1, h.2.2.1, h.2.2.2.1, h.2.2.2.2.2.2.2⟩

/-- C18: when the orchestrator processes an `error` message for task `t`: if
`(t.retries || 0) < options.retries`, the new queue is the old queue followed by one copy
of `t` whose `retries` is `(t.retries || 0) + 1` and whose other fields are those of `t`,
`retried` grows by 1 and `failed` is unchanged; otherwise the queue and `retried` are
unchanged and `failed` grows by 1. -/
theorem error_message_retry_or_fail (s : State) (task : Task) (error : String) :
    if task.retriesOrZero < s.options.retries then
      (onMessage s task (.error error)).taskQueue =
          s.taskQueue ++ [⟨task.symbol, task.timeframe, task.range,
            some (task.retries.getD 0 + 1)⟩] ∧
        (onMessage s task (.error error)).taskStats.retried = s.taskStats.retried + 1 ∧
        (onMessage s task (.error error)).taskStats.failed = s.taskStats.failed
    else
      (onMessage s task (.error error)).taskQueue = s.taskQueue ∧
        (onMessage s task (.error error)).taskStats.retried = s.taskStats.retried ∧
        (onMessage s task (.error error)).taskStats.failed = s.taskStats.failed + 1 := by
  unfold onMessage requeue markFailed
  dsimp only
  split <;> exact ⟨rfl, rfl, rfl⟩

/-- C19: when a task's hard timeout fires and its worker id is still in `activeWorkers`,
a `timeout` notice is sent to the worker and the retry-or-fail decision is applied: with
retries below the limit the task is appended to the queue tail with `retries + 1` and
`retried` grows by 1 (`failed` and the errors map unchanged); otherwise `failed` grows by
1 and `errors[symbol]` becomes `'Task timed out'` (queue and `retried` unchanged).  When
the worker id is no longer in `activeWorkers`, the state is unchanged. -/
theorem hard_timeout_retry_or_fail (s : State) (w : Nat) (id : String) (task : Task) :
    if JSMap.has s.activeWorkers id = true then
      (onHardTimeout s w id task).outbox = s.outbox ++ [(w, Outgoing.timeout)] ∧
        (onHardTimeout s w id task).activeWorkers = s.activeWorkers ∧
        (if task.retriesOrZero < s.options.retries then
          (onHardTimeout s w id task).taskQueue =
              s.taskQueue ++ [⟨task.symbol, task.timeframe, task.range,
                some (task.retries.getD 0 + 1)⟩] ∧
            (onHardTimeout s w id task).taskStats.retried = s.taskStats.retried + 1 ∧
            (onHardTimeout s w id task).taskStats.failed = s.taskStats.failed ∧
            (onHardTimeout s w id task).errors = s.errors
        else
          (onHardTimeout s w id task).taskStats.failed = s.taskStats.failed + 1 ∧
            (onHardTimeout s w id task).errors =
              JSMap.set s.errors task.symbol "Task timed out" ∧
            JSMap.get (onHardTimeout s w id task).errors task.symbol =
              some "Task timed out" ∧
            (onHardTimeout s w id task).taskQueue = s.taskQueue ∧
            (onHardTimeout s w id task).taskStats.retried = s.taskStats.retried)
    else onHardTimeout s w id task = s := by
  unfold onHardTimeout requeue markFailed setTimeout send
  dsimp only
  split
  · refine ⟨?_, ?_, ?_⟩
    · split <;> rfl
    · split <;> rfl
    · split
      · exact ⟨rfl, rfl, rfl, rfl⟩
      · exact ⟨rfl, rfl, JSMap.get_set_self _ _ _, rfl, rfl⟩
  · rfl

/-- C20: `_checkCompletion` acts exactly as follows.  If the queue is empty, no worker is
active and `running` is true, then afterwards `running` is false, the resource-monitor
handle is null and its interval no longer live, and a pending completion resolver has
been invoked once with `{results, errors, stats}`, that is with `Object.fromEntries` of
the current results map, `Object.fromEntries` of the current errors map and the current
counters, and cleared together with the promise (with no resolver pending, none is
invoked); queue, workers, maps and counters are untouched.  In every other state
`_checkCompletion` returns the state unchanged, so no resolver is invoked. -/
theorem checkCompletion_exact (s : State) :
    if s.taskQueue = [] ∧ s.activeWorkers = [] ∧ s.running = true then
      (_checkCompletion s).running = false ∧
        (_checkCompletion s).resourceMonitorInterval = none ∧
        (_checkCompletion s).intervals =
          (match s.resourceMonitorInterval with
            | some h => s.intervals.filter (fun i => decide (i ≠ h))
            | none => s.intervals) ∧
        (_checkCompletion s).completionResolver = none ∧
        (_checkCompletion s).resolverCalls =
          (match s.completionResolver with
            | some r => s.resolverCalls ++
                [(r, ⟨objectFromEntries s.results, objectFromEntries s.errors,
                  s.taskStats⟩)]
            | none => s.resolverCalls) ∧
        (_checkCompletion s).completionPromise =
          (match s.completionResolver with
            | some _ => none
            | none => s.completionPromise) ∧
        (_checkCompletion s).taskQueue = s.taskQueue ∧
        (_checkCompletion s).activeWorkers = s.activeWorkers ∧
        (_checkCompletion s).results = s.results ∧
        (_checkCompletion s).errors = s.errors ∧
        (_checkCompletion s).taskStats = s.taskStats ∧
        (_checkCompletion s).timers = s.timers ∧
        (_checkCompletion s).outbox = s.outbox
    else _checkCompletion s = s := by
  unfold _checkCompletion
  split
  · rename_i h
    have hc : s.taskQueue.length = 0 ∧ JSMap.size s.activeWorkers = 0 ∧ s.running = true := by
      obtain ⟨h1, h2, h3⟩ := h
      rw [h1, h2]
      exact ⟨rfl, rfl, h3⟩
    rw [if_pos hc]
    unfold resolveCompletion stopMonitoring clearInterval snapshot getResults
    cases hm : s.resourceMonitorInterval <;> cases hr : s.completionResolver <;>
      simp [hm, hr]
  · rename_i h
    have hc : ¬ (s.taskQueue.length = 0 ∧ JSMap.size s.activeWorkers = 0 ∧
        s.running = true) := by
      rintro ⟨h1, h2, h3⟩
      exact h ⟨List.eq_nil_of_length_eq_zero h1, List.eq_nil_of_length_eq_zero h2, h3⟩
    rw [if_neg hc]

/-- Witness for C20: one task `X` has been crawled while a caller waits; the queue is
empty, no worker is active and the crawler is running.  The completion check invokes the
pending resolver with the data of `X` under `results`, no errors and the counters
`total = 1, completed = 1`; on a crawler that is not running it changes nothing. -/
theorem checkCompletion_exact_witness :
    idleUnthrottled.taskQueue = [] ∧
      idleUnthrottled.activeWorkers = [] ∧
      idleUnthrottled.running = true ∧
      idleUnthrottled.completionResolver = some 0 ∧
      idleUnthrottled.results = [(.str "X", .collected sampleData)] ∧
      idleUnthrottled.taskStats = ⟨1, 1, 0, 0⟩ ∧
      (_checkCompletion idleUnthrottled).running = false ∧
      (_checkCompletion idleUnthrottled).completionResolver = none ∧
      (_checkCompletion idleUnthrottled).resolverCalls =
        [(0, ⟨[("X", .collected sampleData)], [], ⟨1, 1, 0, 0⟩⟩)] ∧
      _checkCompletion (init defaultOptions) = init defaultOptions :=
  have hq : idleUnthrottled.taskQueue = [] := by decide
  have hact : idleUnthrottled.activeWorkers = [] := by decide
  have hrun : idleUnthrottled.running = true := by decide
  have h := (if_pos (⟨hq, hact, hrun⟩ : idleUnthrottled.taskQueue = [] ∧
    idleUnthrottled.activeWorkers = [] ∧ idleUnthrottled.running = true)).mp
    (checkCompletion_exact idleUnthrottled)
  have h0 := (if_neg (by decide : ¬ ((init defaultOptions).taskQueue = [] ∧
    (init defaultOptions).activeWorkers = [] ∧ (init defaultOptions).running = true))).mp
    (checkCompletion_exact (init defaultOptions))
  ⟨hq, hact, hrun, by decide, by decide, by decide, h.1, h.2.2.2.1,
    h.2.2.2.2.1.trans (by decide), h0⟩

theorem completionStep_refl (s : State) : CompletionStep s s :=
  ⟨le_refl _, Or.inl ⟨rfl, rfl, rfl⟩⟩

theorem completionStep_trans {a b c : State} (h1 : CompletionStep a b)
    (h2 : CompletionStep b c) : CompletionStep a c := by
  refine ⟨le_trans h1.1 h2.1, ?_⟩
  rcases h1.2 with ⟨p1, r1, c1⟩ | ⟨r, snap, hr, r1, p1, c1⟩
  · rcases h2.2 with ⟨p2, r2, c2⟩ | ⟨r, snap, hr, r2, p2, c2⟩
    · exact Or.inl ⟨p2.trans p1, r2.trans r1, c2.trans c1⟩
    · exact Or.inr ⟨r, snap, r1 ▸ hr, r2, p2, c1 ▸ c2⟩
  · rcases h2.2 with ⟨p2, r2, c2⟩ | ⟨r0, snap0, hr0, _, _, _⟩
    · exact Or.inr ⟨r, snap, hr, r2.trans r1, p2.trans p1, c2.trans c1⟩
    · rw [r1] at hr0
      exact absurd hr0 (by simp)

theorem completionStep_of_same {s s1 : State} (hn : s.nextHandle ≤ s1.nextHandle)
    (h : SameCompletion s s1) : CompletionStep s s1 :=
  ⟨hn, Or.inl ⟨h.2.2.1, h.2.1, h.2.2.2⟩⟩

theorem completionStep_resolveCompletion (s : State) :
    CompletionStep s (resolveCompletion s) := by
  unfold resolveCompletion
  split
  · rename_i r hr
    exact ⟨le_refl _, Or.inr ⟨r, snapshot s, hr, rfl, rfl, rfl⟩⟩
  · exact completionStep_refl s

theorem completionStep_stopMonitoring (s : State) : CompletionStep s (stopMonitoring s) := by
  unfold stopMonitoring clearInterval
  split <;> exact ⟨le_refl _, Or.inl ⟨rfl, rfl, rfl⟩⟩

theorem completionStep_checkCompletion (s : State) :
    CompletionStep s (_checkCompletion s) := by
  unfold _checkCompletion
  split
  · have h0 : CompletionStep s { stopMonitoring s with running := false } := by
      have := completionStep_stopMonitoring s
      exact ⟨this.1, this.2⟩
    exact completionStep_trans h0 (completionStep_resolveCompletion _)
  · exact completionStep_refl s

theorem completionStep_spawnWorker (s : State) (task : Task) (fork : SpawnOutcome) :
    CompletionStep s (_spawnWorker s task fork) := by
  unfold _spawnWorker setTimeout send requeue markFailed
  dsimp only
  split
  · exact ⟨Nat.le_succ _, Or.inl ⟨rfl, rfl, rfl⟩⟩
  · split <;> exact ⟨Nat.le_succ _, Or.inl ⟨rfl, rfl, rfl⟩⟩
  · split <;> exact ⟨Nat.le_succ _, Or.inl ⟨rfl, rfl, rfl⟩⟩

theorem completionStep_spawnNextWorker (s : State) (fork : SpawnOutcome) :
    CompletionStep s (spawnNextWorker s fork) := by
  unfold spawnNextWorker
  split
  · exact completionStep_refl s
  · split
    · split
      · exact completionStep_refl s
      · rename_i task rest hq
        dsimp only
        have h1 := completionStep_spawnWorker
          { s with taskQueue := rest, admitted := s.admitted ++ [task] } task fork
        have h0 : CompletionStep s
            { s with taskQueue := rest, admitted := s.admitted ++ [task] } :=
          ⟨le_refl _, Or.inl ⟨rfl, rfl, rfl⟩⟩
        refine completionStep_trans (completionStep_trans h0 h1) ?_
        exact ⟨Nat.le_succ _, Or.inl ⟨rfl, rfl, rfl⟩⟩
    · exact completionStep_checkCompletion s

theorem completionStep_processQueue (s : State) (fork : SpawnOutcome) :
    CompletionStep s (_processQueue s fork) := by
  unfold _processQueue
  split
  · exact completionStep_refl s
  · exact completionStep_spawnNextWorker s fork

theorem completionStep_onMessage (s : State) (task : Task) (m : WorkerMessage) :
    CompletionStep s (onMessage s task m) := by
  refine completionStep_of_same ?_ (sameCompletion_onMessage s task m)
  cases m with
  | result data =>
    unfold onMessage _saveResult
    dsimp only
    split
    · exact le_refl _
    · exact le_refl _
    · split <;> exact le_refl _
  | error e =>
    unfold onMessage requeue markFailed
    dsimp only
    split <;> exact le_refl _
  | log d => exact le_refl _
  | progress => exact le_refl _
  | memory => exact le_refl _
  | other => exact le_refl _

theorem completionStep_onExit (s : State) (id : String) (task : Task) (code : Option Int)
    (signal : Option String) : CompletionStep s (onExit s id task code signal) := by
  refine completionStep_of_same ?_ (sameCompletion_onExit s id task code signal)
  unfold onExit setTimeout requeue markFailed
  dsimp only
  split
  · split
    · split
      · exact Nat.le_succ _
      · split <;> exact Nat.le_succ _
    · exact Nat.le_succ _
  · exact Nat.le_succ _

theorem completionStep_onSendCallback (s : State) (w : Nat) (id : String) (err : Bool) :
    CompletionStep s (onSendCallback s w id err) := by
  refine completionStep_of_same ?_ (sameCompletion_onSendCallback s w id err)
  unfold onSendCallback setTimeout send
  split
  · exact Nat.le_succ _
  · exact le_refl _

theorem completionStep_onHardTimeout (s : State) (w : Nat) (id : String) (task : Task) :
    CompletionStep s (onHardTimeout s w id task) := by
  refine completionStep_of_same ?_ (sameCompletion_onHardTimeout s w id task)
  unfold onHardTimeout setTimeout send requeue markFailed
  dsimp only
  split
  · split <;> exact Nat.le_succ _
  · exact le_refl _

theorem completionStep_onGraceKill (s : State) (w : Nat) (id : String) :
    CompletionStep s (onGraceKill s w id) := by
  refine completionStep_of_same ?_ (sameCompletion_onGraceKill s w id)
  unfold onGraceKill send
  split <;> exact le_refl _

theorem completionStep_onForceKill (s : State) (w : Nat) (c : Bool) :
    CompletionStep s (onForceKill s w c) := by
  refine completionStep_of_same ?_ (sameCompletion_onForceKill s w c)
  unfold onForceKill send
  split <;> exact le_refl _

theorem completionStep_addSymbols (s : State) (a : JSArg) :
    CompletionStep s (addSymbols s a) := by
  refine completionStep_of_same ?_ (sameCompletion_addSymbols s a)
  unfold addSymbols
  split
  · exact le_refl _
  · split <;> exact le_refl _

theorem completionStep_stopWorker (s : State) (e : String × WorkerInfo) :
    CompletionStep s (stopWorker s e) := by
  refine completionStep_of_same ?_ (sameCompletion_stopWorker s e)
  unfold stopWorker setTimeout send clearTimeout
  dsimp only
  split <;> exact Nat.le_succ _

theorem completionStep_foldl_stopWorker (l : List (String × WorkerInfo)) (s : State) :
    CompletionStep s (l.foldl stopWorker s) := by
  induction l generalizing s with
  | nil => exact completionStep_refl s
  | cons e l ih =>
    rw [List.foldl_cons]
    exact completionStep_trans (completionStep_stopWorker s e) (ih _)

theorem completionStep_stopFinish (s : State) : CompletionStep s (stopFinish s) := by
  unfold stopFinish
  have h0 : CompletionStep s { s with activeWorkers := [] } :=
    ⟨le_refl _, Or.inl ⟨rfl, rfl, rfl⟩⟩
  exact completionStep_trans h0 (completionStep_resolveCompletion _)

theorem completionStep_stop (s : State) : CompletionStep s (stop s) := by
  unfold stop
  dsimp only
  split
  · exact completionStep_refl s
  · have h0 : CompletionStep s { s with running := false } :=
      ⟨le_refl _, Or.inl ⟨rfl, rfl, rfl⟩⟩
    have h1 := completionStep_trans h0 (completionStep_stopMonitoring _)
    have h2 := completionStep_trans h1 (completionStep_foldl_stopWorker
      (stopMonitoring { s with running := false }).activeWorkers _)
    split
    · exact completionStep_trans h2 ⟨le_refl _, Or.inl ⟨rfl, rfl, rfl⟩⟩
    · exact completionStep_trans h2 (completionStep_stopFinish _)

theorem completionStep_resourceMonitorTick (s : State) (p : Option Nat)
    (fork : SpawnOutcome) : CompletionStep s (resourceMonitorTick s p fork) := by
  unfold resourceMonitorTick
  split
  · exact completionStep_refl s
  · split
    · split
      · exact ⟨le_refl _, Or.inl ⟨rfl, rfl, rfl⟩⟩
      · exact completionStep_refl s
    · split
      · have h0 : CompletionStep s { s with throttled := false } :=
          ⟨le_refl _, Or.inl ⟨rfl, rfl, rfl⟩⟩
        exact completionStep_trans h0 (completionStep_processQueue _ fork)
      · exact completionStep_refl s

theorem completionStep_fireTimer (s : State) (t : Timer) (fork : SpawnOutcome) (c : Bool) :
    CompletionStep s (fireTimer s t fork c) := by
  unfold fireTimer
  split
  · exact completionStep_spawnNextWorker s fork
  · exact completionStep_processQueue s fork
  · split
    · exact completionStep_onHardTimeout _ _ _ _
    · exact completionStep_refl s
  · split
    · exact completionStep_onGraceKill _ _ _
    · exact completionStep_refl s
  · exact completionStep_onForceKill _ _ _

theorem singleFire_of_step {s s1 : State} (h : SingleFire s) (hs : CompletionStep s s1) :
    SingleFire s1 := by
  obtain ⟨hp, hpend, hlt, hnd⟩ := h
  obtain ⟨hn, hcase⟩ := hs
  rcases hcase with ⟨p1, r1, c1⟩ | ⟨r, snap, hr, r1, p1, c1⟩
  · refine ⟨?_, ?_, ?_, ?_⟩
    · rw [p1, r1]
      exact hp
    · intro r hr
      rw [r1] at hr
      rw [c1]
      exact ⟨lt_of_lt_of_le (hpend r hr).1 hn, (hpend r hr).2⟩
    · intro r hr
      rw [c1] at hr
      exact lt_of_lt_of_le (hlt r hr) hn
    · rw [c1]
      exact hnd
  · refine ⟨?_, ?_, ?_, ?_⟩
    · rw [p1, r1]
    · intro r0 hr0
      rw [r1] at hr0
      exact absurd hr0 (by simp)
    · intro r0 hr0
      rw [c1, List.map_append, List.mem_append] at hr0
      rcases hr0 with h0 | h0
      · exact lt_of_lt_of_le (hlt r0 h0) hn
      · rw [List.map_singleton, List.mem_singleton] at h0
        rw [h0]
        exact lt_of_lt_of_le (hpend r hr).1 hn
    · rw [c1, List.map_append, List.map_singleton]
      refine List.nodup_append.mpr ⟨hnd, List.nodup_singleton _, ?_⟩
      intro a ha hb
      rw [List.mem_singleton] at hb
      have hb1 : a = r := hb
      rw [hb1] at ha
      exact (hpend r hr).2 ha

theorem singleFire_waitForCompletion {s : State} (h : SingleFire s) :
    SingleFire (waitForCompletion s) := by
  unfold waitForCompletion
  split
  · exact h
  · split
    · rename_i hnone
      obtain ⟨hp, _, hlt, hnd⟩ := h
      refine ⟨rfl, ?_, ?_, hnd⟩
      · intro r hr
        dsimp only at hr
        have hr1 : s.nextHandle = r := Option.some.inj hr
        subst hr1
        exact ⟨Nat.lt_succ_self _, fun hin => Nat.lt_irrefl _ (hlt _ hin)⟩
      · intro r hr
        exact Nat.lt_succ_of_lt (hlt r hr)
    · exact h

theorem completion_of_step {s s1 : State} (e : Event) (hs : step s e = some s1) :
    CompletionStep s s1 ∨ s1 = waitForCompletion s := by
  cases e with
  | addSymbols a =>
    simp only [step, Option.some.injEq] at hs
    subst hs
    exact Or.inl (completionStep_addSymbols s a)
  | start =>
    simp only [step, Option.some.injEq] at hs
    subst hs
    unfold start
    split
    · exact Or.inl (completionStep_refl s)
    · exact Or.inl ⟨le_refl _, Or.inl ⟨rfl, rfl, rfl⟩⟩
  | startResume fork =>
    simp only [step] at hs
    split at hs
    · simp only [Option.some.injEq] at hs
      subst hs
      unfold startResume
      have h0 : CompletionStep s
          (_startResourceMonitoring { s with pendingStarts := s.pendingStarts - 1 }) :=
        ⟨Nat.le_succ _, Or.inl ⟨rfl, rfl, rfl⟩⟩
      exact Or.inl
        (completionStep_trans h0 (completionStep_processQueue _ fork))
    · simp at hs
  | stop =>
    simp only [step, Option.some.injEq] at hs
    subst hs
    exact Or.inl (completionStep_stop s)
  | stopResume k =>
    simp only [step] at hs
    split at hs
    · simp only [Option.some.injEq] at hs
      subst hs
      unfold stopResume
      have h0 : CompletionStep s { s with pendingStops := s.pendingStops.eraseIdx k } :=
        ⟨le_refl _, Or.inl ⟨rfl, rfl, rfl⟩⟩
      exact Or.inl (completionStep_trans h0 (completionStep_stopFinish _))
    · simp at hs
  | waitForCompletion =>
    simp only [step, Option.some.injEq] at hs
    subst hs
    exact Or.inr rfl
  | advance ms =>
    simp only [step, Option.some.injEq] at hs
    subst hs
    exact Or.inl ⟨le_refl _, Or.inl ⟨rfl, rfl, rfl⟩⟩
  | timer id fork c =>
    simp only [step] at hs
    split at hs
    · split at hs
      · simp only [Option.some.injEq] at hs
        subst hs
        have h0 : CompletionStep s (clearTimeout s id) :=
          ⟨le_refl _, Or.inl ⟨rfl, rfl, rfl⟩⟩
        exact Or.inl
          (completionStep_trans h0 (completionStep_fireTimer _ _ fork c))
      · simp at hs
    · simp at hs
  | monitorTick hd p fork =>
    simp only [step] at hs
    split at hs
    · simp only [Option.some.injEq] at hs
      subst hs
      exact Or.inl (completionStep_resourceMonitorTick s p fork)
    · simp at hs
  | workerMessage w m =>
    simp only [step] at hs
    split at hs
    · simp only [Option.some.injEq] at hs
      subst hs
      exact Or.inl (completionStep_onMessage _ _ m)
    · simp at hs
  | workerError w m =>
    simp only [step] at hs
    split at hs
    · simp only [Option.some.injEq] at hs
      subst hs
      exact Or.inl ⟨Nat.le_succ _, Or.inl ⟨rfl, rfl, rfl⟩⟩
    · simp at hs
  | workerExit w code signal =>
    simp only [step] at hs
    split at hs
    · rename_i p hp
      split at hs
      · simp at hs
      · simp only [Option.some.injEq] at hs
        subst hs
        have h0 : CompletionStep s
            { s with spawned := s.spawned.set w { p with exited := true } } :=
          ⟨le_refl _, Or.inl ⟨rfl, rfl, rfl⟩⟩
        have h1 := completionStep_trans h0 (completionStep_onExit _ p.id p.task code signal)
        exact Or.inl ⟨h1.1, h1.2⟩
    · simp at hs
  | sendCallback w err =>
    simp only [step] at hs
    split at hs
    · rename_i p hp
      split at hs
      · simp at hs
      · simp only [Option.some.injEq] at hs
        subst hs
        have h0 : CompletionStep s
            { s with spawned := s.spawned.set w { p with startAcked := true } } :=
          ⟨le_refl _, Or.inl ⟨rfl, rfl, rfl⟩⟩
        exact Or.inl
          (completionStep_trans h0 (completionStep_onSendCallback _ w p.id err))
    · simp at hs

theorem singleFire_step {s s1 : State} (e : Event) (h : SingleFire s)
    (hs : step s e = some s1) : SingleFire s1 := by
  rcases completion_of_step e hs with h1 | h1
  · exact singleFire_of_step h h1
  · rw [h1]
    exact singleFire_waitForCompletion h

theorem singleFire_run (evs : List Event) (s s1 : State) (h : SingleFire s)
    (hr : run s evs = some s1) : SingleFire s1 := by
  induction evs generalizing s with
  | nil =>
    simp only [run, Option.some.injEq] at hr
    subst hr
    exact h
  | cons e es ih =>
    simp only [run] at hr
    split at hr
    · rename_i s2 hs
      exact ih s2 (singleFire_step e h hs) hr
    · simp at hr

theorem singleFire_init (o : Options) : SingleFire (init o) :=
  ⟨rfl, fun r hr => absurd hr (by simp [init]), fun r hr => absurd hr (by simp [init]),
    List.nodup_nil⟩

theorem waitForCompletion_resolverCalls (s : State) :
    (waitForCompletion s).resolverCalls = s.resolverCalls := by
  unfold waitForCompletion
  split
  · rfl
  · split <;> rfl

theorem resolveCompletion_running (s : State) :
    (resolveCompletion s).running = s.running := by
  unfold resolveCompletion
  split <;> rfl

theorem stop_not_running (s : State) : (stop s).running = false := by
  by_cases hrun : s.running = true
  · have hm := sameCompletion_stopMonitoring { s with running := false }
    have hf := sameCompletion_foldl_stopWorker
      (stopMonitoring { s with running := false }).activeWorkers
      (stopMonitoring { s with running := false })
    have hc := sameCompletion_trans hm hf
    unfold stop
    dsimp only
    rw [if_neg (by simp [hrun])]
    split
    · exact hc.1
    · unfold stopFinish
      rw [resolveCompletion_running]
      exact hc.1
  · have hfalse : s.running = false := by simpa using hrun
    unfold stop
    simp [hfalse]

theorem stop_stop (s : State) : stop (stop s) = stop s := by
  have h := stop_not_running s
  generalize stop s = t at h
  unfold stop
  simp [h]

/-- C11: from a freshly constructed crawler, after any sequence of events: the
completion promise and resolver are both null or both set (they stem from the same
`waitForCompletion` call); no resolver has been invoked twice, and a pending resolver has
not been invoked yet; whatever event comes next either invokes no resolver or invokes
the pending one once and nulls both fields; and calling `stop()` a second time right
after `stop()` changes nothing, so it sends no `terminate` message and invokes no
resolver. -/
theorem completion_signal_fires_once (o : Options) (evs : List Event) (s : State)
    (h : run (init o) evs = some s) :
    s.completionPromise = s.completionResolver ∧
      (s.resolverCalls.map Prod.fst).Nodup ∧
      (∀ r, s.completionResolver = some r → r ∉ s.resolverCalls.map Prod.fst) ∧
      (∀ (e : Event) (s1 : State), step s e = some s1 →
        s1.resolverCalls = s.resolverCalls ∨
        ∃ r snap, s.completionResolver = some r ∧
          s1.resolverCalls = s.resolverCalls ++ [(r, snap)] ∧
          s1.completionResolver = none ∧ s1.completionPromise = none) ∧
      stop (stop s) = stop s ∧
      (stop (stop s)).outbox = (stop s).outbox ∧
      (stop (stop s)).resolverCalls = (stop s).resolverCalls := by
  have hs := singleFire_run evs (init o) s (singleFire_init o) h
  refine ⟨hs.1, hs.2.2.2, fun r hr => (hs.2.1 r hr).2, ?_, stop_stop s, ?_, ?_⟩
  · intro e s1 he
    rcases completion_of_step e he with h1 | h1
    · rcases h1.2 with ⟨_, _, c1⟩ | ⟨r, snap, hr, r1, p1, c1⟩
      · exact Or.inl c1
      · exact Or.inr ⟨r, snap, hr, c1, r1, p1⟩
    · left
      rw [h1]
      exact waitForCompletion_resolverCalls s
  · rw [stop_stop]
  · rw [stop_stop]

/-- Witness for C11: a worker for `X` is active and a caller waits.  The promise and the
resolver are the same handle, nothing has been resolved, the first `stop()` sends one
`terminate` message and the second `stop()` adds none. -/
theorem completion_signal_fires_once_witness :
    run (init defaultOptions) waitingEvents = some waitingRunning ∧
      waitingRunning.completionPromise = some 3 ∧
      waitingRunning.completionResolver = some 3 ∧
      waitingRunning.resolverCalls = [] ∧
      (stop waitingRunning).outbox.filter (fun m => decide (m.2 = Outgoing.terminate)) =
        [(0, Outgoing.terminate)] ∧
      (stop (stop waitingRunning)).outbox = (stop waitingRunning).outbox ∧
      (stop (stop waitingRunning)).resolverCalls = (stop waitingRunning).resolverCalls :=
  have hrun : run (init defaultOptions) waitingEvents = some waitingRunning := by decide
  have h := completion_signal_fires_once defaultOptions waitingEvents waitingRunning hrun
  ⟨hrun, by decide, by decide, by decide, by decide, h.2.2.2.2.2.1, h.2.2.2.2.2.2⟩

theorem workerInv_idle : WorkerInv idleWorker where
  exiting := by decide
  sync := rfl
  fresh := fun _ => rfl
  armed := by decide
  silent := fun _ _ => rfl

theorem terminalMessages_log (w : WorkerState) (text : String) :
    terminalMessages (workerSend w (.log text)) = terminalMessages w := by
  simp [terminalMessages, workerSend, List.filter_append]

theorem cleanupAndExit_fields (w : WorkerState) (code : Nat) (h : w.isExiting = false) :
    (cleanupAndExit w code).exitCode = some code ∧
      (cleanupAndExit w code).isExiting = true ∧
      (cleanupAndExit w code).phase = w.phase ∧
      (cleanupAndExit w code).collectedData = w.collectedData ∧
      (cleanupAndExit w code).chartPeriods = w.chartPeriods ∧
      (cleanupAndExit w code).sent = w.sent := by
  unfold cleanupAndExit
  rw [if_neg (by simp [h])]
  dsimp only
  split <;> split <;> exact ⟨rfl, rfl, rfl, rfl, rfl, rfl⟩

theorem workerInv_cleanupAndExit (w : WorkerState) (code : Nat)
    (halive : w.isExiting = false) (hsync : w.collectedData.periods = w.chartPeriods)
    (hfresh : w.phase = .idle → w.chartPeriods = []) : WorkerInv (cleanupAndExit w code) := by
  obtain ⟨f1, _, f3, f4, f5, _⟩ := cleanupAndExit_fields w code halive
  refine ⟨fun _ => by simp [f1], ?_, ?_, ?_, ?_⟩
  · rw [f4, f5]
    exact hsync
  · rw [f3, f5]
    exact hfresh
  · intro _ hx
    rw [f1] at hx
    exact absurd hx (by simp)
  · intro _ hx
    rw [f1] at hx
    exact absurd hx (by simp)

theorem workerInv_crawlFailed (w : WorkerState) (message : String)
    (halive : w.isExiting = false) (hsync : w.collectedData.periods = w.chartPeriods)
    (hfresh : w.phase = .idle → w.chartPeriods = []) :
    WorkerInv (crawlFailed w message) := by
  unfold crawlFailed
  dsimp only
  split
  · refine ⟨?_, hsync, ?_, ?_, ?_⟩
    · intro hx
      exact absurd (halive ▸ hx : false = true) (by simp)
    · intro hx
      exact absurd hx (by simp)
    · intro hx
      exact absurd hx (by simp)
    · intro hx
      rcases hx with hx | hx <;> exact absurd hx (by simp)
  · exact workerInv_cleanupAndExit _ 1 halive hsync hfresh

theorem workerInv_crawlResolved (w : WorkerState)
    (halive : w.isExiting = true → w.exitCode ≠ none)
    (hsync : w.collectedData.periods = w.chartPeriods) : WorkerInv (crawlResolved w) := by
  unfold crawlResolved workerSend
  dsimp only
  split
  · exact ⟨halive, hsync, fun hx => absurd hx (by simp), fun hx => absurd hx (by simp),
      fun hx => by rcases hx with hx | hx <;> exact absurd hx (by simp)⟩
  · exact ⟨halive, hsync, fun hx => absurd hx (by simp), fun hx => absurd hx (by simp),
      fun hx => by rcases hx with hx | hx <;> exact absurd hx (by simp)⟩

theorem isExiting_of_alive {w : WorkerState} (h : WorkerInv w) (halive : w.exitCode = none) :
    w.isExiting = false := by
  cases hx : w.isExiting
  · rfl
  · exact absurd halive (h.exiting hx)

theorem workerInv_crawlSymbol {w : WorkerState} (h : WorkerInv w) (halive : w.exitCode = none)
    (hidle : w.phase = .idle) (task : StartTask) (setup : SetupOutcome) :
    WorkerInv (crawlSymbol w task setup) := by
  have hex := isExiting_of_alive h halive
  have hfresh := h.fresh hidle
  have hsync := h.sync
  have hsilent := h.silent (Or.inl hidle) halive
  unfold crawlSymbol
  dsimp only
  split
  · exact workerInv_crawlFailed _ _ hex hsync (fun _ => hfresh)
  · exact workerInv_crawlFailed _ _ hex hsync (fun _ => hfresh)
  · refine ⟨h.exiting, ?_, fun hx => absurd hx (by simp), fun _ _ => ⟨rfl, rfl, rfl⟩, ?_⟩
    · show [] = w.chartPeriods
      rw [hfresh]
    · intro _ _
      show terminalMessages (workerSend _ (.log _)) = []
      rw [terminalMessages_log]
      exact hsilent

theorem workerInv_chartOnUpdate {w : WorkerState} (h : WorkerInv w) (periods : List Candle)
    (hnotidle : w.phase ≠ .idle) (hgrow : w.chartPeriods.length ≤ periods.length) :
    WorkerInv (chartOnUpdate { w with chartPeriods := periods }) := by
  unfold chartOnUpdate
  dsimp only
  split
  · have hbase : WorkerInv (workerSend
        { w with chartPeriods := periods,
                 collectedData := { w.collectedData with periods := periods } }
        (.log ("Collected " ++ toString periods.length ++ " candles for " ++
          w.symbol.toStr))) := by
      refine ⟨h.exiting, rfl, fun hx => absurd hx hnotidle, h.armed, ?_⟩
      intro hp hx
      rw [terminalMessages_log]
      exact h.silent hp hx
    split
    · split
      · exact workerInv_crawlResolved _ h.exiting rfl
      · exact hbase
    · exact hbase
  · rename_i hlen
    have hnil : periods = [] := by
      cases periods with
      | nil => rfl
      | cons a l => exact absurd (Nat.succ_pos _) hlen
    have hold : w.chartPeriods = [] := by
      rw [hnil] at hgrow
      exact List.eq_nil_of_length_eq_zero (Nat.le_zero.mp hgrow)
    refine ⟨h.exiting, ?_, fun hx => absurd hx hnotidle, h.armed, h.silent⟩
    show w.collectedData.periods = periods
    rw [h.sync, hold, hnil]

theorem workerInv_chartOnSymbolLoaded {w : WorkerState} (h : WorkerInv w)
    (infos : Option String) : WorkerInv (chartOnSymbolLoaded w infos) := by
  unfold chartOnSymbolLoaded
  split
  · refine ⟨h.exiting, h.sync, h.fresh, h.armed, ?_⟩
    intro hp hx
    show terminalMessages (workerSend w (.log _)) = []
    rw [terminalMessages_log]
    exact h.silent hp hx
  · refine ⟨h.exiting, h.sync, h.fresh, h.armed, ?_⟩
    intro hp hx
    rw [terminalMessages_log]
    exact h.silent hp hx

theorem workerInv_chartOnError {w : WorkerState} (h : WorkerInv w) (halive : w.exitCode = none)
    (args : List String) : WorkerInv (chartOnError w args) := by
  unfold chartOnError
  split
  · exact workerInv_crawlFailed _ _ (isExiting_of_alive h halive) h.sync h.fresh
  · exact h

theorem workerInv_onTimeout {w : WorkerState} (h : WorkerInv w) (halive : w.exitCode = none) :
    WorkerInv (onTimeout w) := by
  have hex := isExiting_of_alive h halive
  unfold onTimeout
  dsimp only
  split
  · split
    · exact workerInv_crawlResolved _ h.exiting h.sync
    · rename_i hph
      refine ⟨h.exiting, h.sync, h.fresh, fun hx => absurd hx hph, ?_⟩
      intro hp hx
      rw [terminalMessages_log]
      exact h.silent hp hx
  · split
    · exact workerInv_crawlFailed _ _ hex h.sync h.fresh
    · rename_i hph
      exact ⟨h.exiting, h.sync, h.fresh, fun hx => absurd hx hph, h.silent⟩

theorem workerInv_onEndSettled {w : WorkerState} (h : WorkerInv w)
    (halive : w.exitCode = none) (error : Option String) :
    WorkerInv (onEndSettled w error) := by
  unfold onEndSettled
  split
  · split
    · exact workerInv_cleanupAndExit _ 0 (isExiting_of_alive h halive) h.sync h.fresh
    · exact workerInv_crawlFailed _ _ (isExiting_of_alive h halive) h.sync h.fresh
  · exact workerInv_cleanupAndExit _ 1 (isExiting_of_alive h halive) h.sync h.fresh
  · exact h

theorem workerInv_onSignal {w : WorkerState} (h : WorkerInv w) (halive : w.exitCode = none)
    (sig : WorkerSignal) : WorkerInv (onSignal w sig) := by
  have hex := isExiting_of_alive h halive
  unfold onSignal
  exact workerInv_cleanupAndExit _ 0 hex h.sync h.fresh

theorem workerInv_step {w w1 : WorkerState} (e : WorkerEvent) (h : WorkerInv w)
    (hs : workerStep w e = some w1)
    (hgrow : ∀ periods, e = .chartUpdate periods → w.chartPeriods.length ≤ periods.length) :
    WorkerInv w1 := by
  unfold workerStep at hs
  split at hs
  · simp at hs
  · rename_i hexit
    have halive : w.exitCode = none := by
      cases hx : w.exitCode
      · rfl
      · simp [hx] at hexit
    split at hs
    · split at hs
      · rename_i hidle
        simp only [Option.some.injEq] at hs
        subst hs
        exact workerInv_crawlSymbol h halive hidle _ _
      · simp at hs
    · simp only [Option.some.injEq] at hs
      subst hs
      rename_i m hne
      cases m with
      | start task setup => exact absurd rfl (hne task setup)
      | terminate => exact h
      | timeout => exact h
      | other => exact h
    · simp only [Option.some.injEq] at hs
      subst hs
      exact workerInv_onSignal h halive _
    · simp only [Option.some.injEq] at hs
      subst hs
      exact workerInv_cleanupAndExit _ 1 (isExiting_of_alive h halive) h.sync h.fresh
    · split at hs
      · simp at hs
      · rename_i periods hidle
        simp only [Option.some.injEq] at hs
        subst hs
        exact workerInv_chartOnUpdate h periods hidle (hgrow periods rfl)
    · split at hs
      · simp at hs
      · simp only [Option.some.injEq] at hs
        subst hs
        exact workerInv_chartOnSymbolLoaded h _
    · split at hs
      · simp at hs
      · simp only [Option.some.injEq] at hs
        subst hs
        exact workerInv_chartOnError h halive _
    · split at hs
      · simp only [Option.some.injEq] at hs
        subst hs
        exact workerInv_onTimeout h halive
      · simp at hs
    · split at hs
      · simp only [Option.some.injEq] at hs
        subst hs
        exact workerInv_onEndSettled h halive _
      · simp at hs

theorem cleanupAndExit_chartPeriods (w : WorkerState) (code : Nat) :
    (cleanupAndExit w code).chartPeriods = w.chartPeriods := by
  unfold cleanupAndExit
  dsimp only
  split
  · rfl
  · split <;> split <;> rfl

theorem crawlFailed_chartPeriods (w : WorkerState) (message : String) :
    (crawlFailed w message).chartPeriods = w.chartPeriods := by
  unfold crawlFailed
  dsimp only
  split
  · rfl
  · exact cleanupAndExit_chartPeriods _ _

theorem crawlResolved_chartPeriods (w : WorkerState) :
    (crawlResolved w).chartPeriods = w.chartPeriods := by
  unfold crawlResolved workerSend
  dsimp only
  split <;> rfl

theorem crawlSymbol_chartPeriods (w : WorkerState) (task : StartTask) (setup : SetupOutcome) :
    (crawlSymbol w task setup).chartPeriods = w.chartPeriods := by
  unfold crawlSymbol
  dsimp only
  split
  · exact crawlFailed_chartPeriods _ _
  · exact crawlFailed_chartPeriods _ _
  · rfl

theorem chartOnUpdate_chartPeriods (w : WorkerState) :
    (chartOnUpdate w).chartPeriods = w.chartPeriods := by
  unfold chartOnUpdate
  dsimp only
  split
  · split
    · split
      · exact crawlResolved_chartPeriods _
      · rfl
    · rfl
  · rfl

theorem onTimeout_chartPeriods (w : WorkerState) :
    (onTimeout w).chartPeriods = w.chartPeriods := by
  unfold onTimeout
  dsimp only
  split
  · split
    · exact crawlResolved_chartPeriods _
    · rfl
  · split
    · exact crawlFailed_chartPeriods _ _
    · rfl

theorem workerStep_chartPeriods {w w1 : WorkerState} (e : WorkerEvent)
    (hs : workerStep w e = some w1) :
    w1.chartPeriods = periodsAfter w.chartPeriods [e] := by
  unfold workerStep at hs
  split at hs
  · simp at hs
  · split at hs
    · split at hs
      · simp only [Option.some.injEq] at hs
        subst hs
        exact crawlSymbol_chartPeriods _ _ _
      · simp at hs
    · simp only [Option.some.injEq] at hs
      subst hs
      rename_i m hne
      cases m with
      | start task setup => exact absurd rfl (hne task setup)
      | terminate => rfl
      | timeout => rfl
      | other => rfl
    · simp only [Option.some.injEq] at hs
      subst hs
      exact cleanupAndExit_chartPeriods _ _
    · simp only [Option.some.injEq] at hs
      subst hs
      exact cleanupAndExit_chartPeriods _ _
    · split at hs
      · simp at hs
      · simp only [Option.some.injEq] at hs
        subst hs
        exact chartOnUpdate_chartPeriods _
    · split at hs
      · simp at hs
      · simp only [Option.some.injEq] at hs
        subst hs
        unfold chartOnSymbolLoaded
        split <;> rfl
    · split at hs
      · simp at hs
      · simp only [Option.some.injEq] at hs
        subst hs
        unfold chartOnError
        split
        · exact crawlFailed_chartPeriods _ _
        · rfl
    · split at hs
      · simp only [Option.some.injEq] at hs
        subst hs
        exact onTimeout_chartPeriods _
      · simp at hs
    · split at hs
      · simp only [Option.some.injEq] at hs
        subst hs
        unfold onEndSettled
        split
        · split
          · exact cleanupAndExit_chartPeriods _ _
          · exact crawlFailed_chartPeriods _ _
        · exact cleanupAndExit_chartPeriods _ _
        · rfl
      · simp at hs

theorem periodsAfter_cons (current : List Candle) (e : WorkerEvent) (es : List WorkerEvent) :
    periodsAfter current (e :: es) = periodsAfter (periodsAfter current [e]) es := by
  cases e <;> rfl

theorem neverShrinks_cons (held : Nat) (current : List Candle) (e : WorkerEvent)
    (es : List WorkerEvent) (hc : current.length = held)
    (h : neverShrinks held (e :: es) = true) :
    (∀ periods, e = .chartUpdate periods → held ≤ periods.length) ∧
      neverShrinks (periodsAfter current [e]).length es = true := by
  cases e with
  | chartUpdate periods =>
    simp only [neverShrinks, Bool.and_eq_true, decide_eq_true_eq] at h
    refine ⟨?_, h.2⟩
    intro p hp
    cases hp
    exact h.1
  | message m => exact ⟨fun _ hp => (by cases hp), hc ▸ h⟩
  | signal sig => exact ⟨fun _ hp => (by cases hp), hc ▸ h⟩
  | unhandledRejection => exact ⟨fun _ hp => (by cases hp), hc ▸ h⟩
  | symbolLoaded infos => exact ⟨fun _ hp => (by cases hp), hc ▸ h⟩
  | chartError args => exact ⟨fun _ hp => (by cases hp), hc ▸ h⟩
  | timeoutFires => exact ⟨fun _ hp => (by cases hp), hc ▸ h⟩
  | endSettled error => exact ⟨fun _ hp => (by cases hp), hc ▸ h⟩

theorem workerInv_run (evs : List WorkerEvent) (w w1 : WorkerState) (h : WorkerInv w)
    (hr : workerRun w evs = some w1)
    (hg : neverShrinks w.chartPeriods.length evs = true) :
    WorkerInv w1 ∧ w1.chartPeriods = periodsAfter w.chartPeriods evs := by
  induction evs generalizing w with
  | nil =>
    simp only [workerRun, Option.some.injEq] at hr
    subst hr
    exact ⟨h, rfl⟩
  | cons e es ih =>
    simp only [workerRun] at hr
    split at hr
    · rename_i w2 hs
      obtain ⟨g1, g2⟩ := neverShrinks_cons _ w.chartPeriods e es rfl hg
      have hp := workerStep_chartPeriods e hs
      have h2 := workerInv_step e h hs g1
      rw [← hp] at g2
      obtain ⟨a, b⟩ := ih w2 h2 hr g2
      refine ⟨a, ?_⟩
      rw [b, hp, ← periodsAfter_cons]
    · simp at hr

theorem append_ne_empty (a b : String) (h : a ≠ "") : a ++ b ≠ "" := by
  intro hx
  have hl := congrArg String.length hx
  rw [String.length_append] at hl
  have h0 : a.length = 0 := by
    have : ("" : String).length = 0 := rfl
    omega
  apply h
  exact String.ext (List.eq_nil_of_length_eq_zero h0)

/-- C14: let the worker be collecting (the requested range has not been reached, the
process is alive) after any events in which the chart's periods never shrank.  Then the
timeout timer can fire, no terminal message has been sent so far, the collected periods
are those of the last update, and when the timer fires: with at least one period
collected the race resolves and the worker's terminal message is a `result` carrying
exactly the collected data; with none collected the race rejects and the terminal message
is the `error` `'Timeout after <timeout>ms while crawling <symbol>'`. -/
theorem timeout_reports_partial_data_or_error (evs : List WorkerEvent) (w : WorkerState)
    (hrun : workerRun idleWorker evs = some w) (hgrow : neverShrinks 0 evs = true)
    (hphase : w.phase = .collecting) (halive : w.exitCode = none) :
    workerStep w .timeoutFires = some (onTimeout w) ∧
      terminalMessages w = [] ∧
      w.collectedData.periods = periodsAfter [] evs ∧
      (if w.collectedData.periods ≠ [] then
        terminalMessages (onTimeout w) = [.result (.collected w.collectedData)] ∧
          (onTimeout w).phase = .ending
      else
        terminalMessages (onTimeout w) =
            [.error ("Timeout after " ++ toString w.timeoutDuration ++
              "ms while crawling " ++ w.symbol.toStr)] ∧
          (onTimeout w).phase = .failing) := by
  obtain ⟨hinv, hper⟩ := workerInv_run evs idleWorker w workerInv_idle hrun hgrow
  obtain ⟨harmed, hreached, hclient⟩ := hinv.armed hphase halive
  have hsilent := hinv.silent (Or.inr hphase) halive
  have hsync := hinv.sync
  refine ⟨?_, hsilent, ?_, ?_⟩
  · unfold workerStep
    simp [halive, harmed]
  · rw [hsync, hper]
    rfl
  · unfold onTimeout
    dsimp only
    rw [hsync]
    by_cases hne : w.chartPeriods = []
    · rw [if_neg (by simp [hne]), if_neg (by simp [hne]), if_pos hphase]
      have htext : errorText ("Timeout after " ++ toString w.timeoutDuration ++
          "ms while crawling " ++ w.symbol.toStr) =
          "Timeout after " ++ toString w.timeoutDuration ++ "ms while crawling " ++
            w.symbol.toStr := by
        unfold errorText
        rw [if_neg]
        rw [String.append_assoc, String.append_assoc]
        exact append_ne_empty _ _ (by decide)
      unfold crawlFailed
      dsimp only
      rw [htext]
      simp only [workerSend, hclient, if_true]
      refine ⟨?_, trivial⟩
      unfold terminalMessages at hsilent ⊢
      simp only [List.filter_append, hsilent]
      rfl
    · have hpos : w.chartPeriods.length > 0 := List.length_pos.mpr hne
      rw [if_pos hne, if_pos hpos]
      simp only [workerSend, hphase, if_true]
      unfold crawlResolved
      simp only [workerSend, Bool.not_true, Bool.and_false, Bool.false_eq_true, if_false]
      refine ⟨?_, trivial⟩
      unfold terminalMessages at hsilent ⊢
      simp only [List.filter_append, hsilent, List.append_assoc]
      rfl

/-- Witness for C14: asked for 500 candles within 1000 ms, the worker holds ten when the
timer fires; its terminal message is a `result` with exactly those ten candles. -/
theorem timeout_reports_partial_data_or_error_witness :
    workerRun idleWorker slowEvents = some slowWorker ∧
      slowWorker.collectedData.periods = tenCandles ∧
      workerStep slowWorker .timeoutFires = some (onTimeout slowWorker) ∧
      terminalMessages (onTimeout slowWorker) =
        [.result (.collected ⟨.str "X", .str "D", tenCandles, some "X Corp"⟩)] :=
  have hrun : workerRun idleWorker slowEvents = some slowWorker := by decide
  have hper : slowWorker.collectedData.periods = tenCandles := by decide
  have hdata : slowWorker.collectedData = ⟨.str "X", .str "D", tenCandles, some "X Corp"⟩ := by
    decide
  have h := timeout_reports_partial_data_or_error slowEvents slowWorker hrun (by decide)
    (by decide) (by decide)
  have hne : slowWorker.collectedData.periods ≠ [] := by decide
  ⟨hrun, hper, h.1, hdata ▸ (if_pos hne ▸ h.2.2.2).1⟩

/-- C13 (the code at the failing input): the worker collects the two candles it was asked
for and sends its `result`; the awaited `client.end()` of the success path then rejects,
the exception lands in the `catch` block, and the worker also sends an `error` and exits
with code 1.  Two terminal messages, a `result` and an `error`, reach the parent. -/
theorem teardown_failure_reports_result_and_error :
    workerRun idleWorker teardownFailureEvents = some afterTeardownFailure ∧
      terminalMessages afterTeardownFailure =
        [.result (.collected ⟨.str "X", .str "D", tenCandles.take 2, none⟩),
         .error "WebSocket is not open"] ∧
      afterTeardownFailure.exitCode = some 1 := by
  decide

/-- C15 (the code at the failing input): a collecting worker that receives the parent's
`terminate` or `timeout` message does nothing: the state is unchanged, so the timer stays
armed, the client stays open and the process does not exit (this holds in every worker
state).  The same worker receiving `SIGTERM` clears the timer, tears the client down and
exits with code 0. -/
theorem termination_notice_ignored :
    (∀ w : WorkerState, onParentMessage w .terminate = w ∧ onParentMessage w .timeout = w) ∧
      workerRun idleWorker slowEvents = some slowWorker ∧
      workerStep slowWorker (.message .terminate) = some slowWorker ∧
      workerStep slowWorker (.message .timeout) = some slowWorker ∧
      slowWorker.exitCode = none ∧
      slowWorker.timerArmed = true ∧
      slowWorker.activeClient = true ∧
      workerStep slowWorker (.signal .sigterm) = some afterSigterm ∧
      afterSigterm.exitCode = some 0 ∧
      afterSigterm.timerArmed = false ∧
      afterSigterm.activeClient = false ∧
      afterSigterm.teardowns = 1 := by
  refine ⟨fun w => ⟨rfl, rfl⟩, ?_⟩
  decide

/-! ### C22: the resource monitor -/

theorem checkCompletion_throttled (s : State) :
    (_checkCompletion s).throttled = s.throttled := by
  unfold _checkCompletion resolveCompletion stopMonitoring clearInterval
  split
  · split <;> split <;> simp_all
  · rfl

theorem spawnWorker_throttled (s : State) (task : Task) (fork : SpawnOutcome) :
    (_spawnWorker s task fork).throttled = s.throttled := by
  unfold _spawnWorker
  cases fork with
  | ok => rfl
  | throws message =>
    dsimp only
    unfold setTimeout requeue markFailed
    split <;> rfl
  | sendThrows message =>
    dsimp only
    unfold setTimeout requeue markFailed
    split <;> rfl

theorem spawnNextWorker_throttled (s : State) (fork : SpawnOutcome) :
    (spawnNextWorker s fork).throttled = s.throttled := by
  unfold spawnNextWorker
  split
  · rfl
  · split
    · split
      · rfl
      · dsimp only
        unfold setTimeout
        exact spawnWorker_throttled _ _ _
    · exact checkCompletion_throttled s

theorem processQueue_throttled (s : State) (fork : SpawnOutcome) :
    (_processQueue s fork).throttled = s.throttled := by
  unfold _processQueue
  split
  · rfl
  · exact spawnNextWorker_throttled s fork

/-- C22: a resource-monitor tick that reads the whole-number memory percentage `p`, with
ceiling `m = options.maxMemoryUsage`, leaves `throttled` true if `p > m`, false if it was
true and `p < 0.8 * m` (for whole numbers: `5 * p < 4 * m`), and as it was otherwise; in
particular for `0.8 * m ≤ p ≤ m` the tick changes nothing.  The admission loop runs in
exactly one case, the change from true to false: there the tick is `_processQueue` on
the state with the flag cleared; in every other case the state after the tick is the
state before it with at most the flag changed. -/
theorem monitor_tick_hysteresis (s : State) (p : Nat) (fork : SpawnOutcome) :
    (resourceMonitorTick s (some p) fork).throttled =
        (if p > s.options.maxMemoryUsage then true
         else if s.throttled = true ∧ 5 * p < 4 * s.options.maxMemoryUsage then false
         else s.throttled) ∧
      (if 4 * s.options.maxMemoryUsage ≤ 5 * p ∧ p ≤ s.options.maxMemoryUsage then
        resourceMonitorTick s (some p) fork = s
       else True) ∧
      resourceMonitorTick s (some p) fork =
        (if s.throttled = true ∧ (resourceMonitorTick s (some p) fork).throttled = false then
          _processQueue { s with throttled := false } fork
         else { s with throttled := (resourceMonitorTick s (some p) fork).throttled }) := by
  unfold resourceMonitorTick
  dsimp only
  by_cases h1 : p > s.options.maxMemoryUsage
  · rw [if_pos h1, if_pos h1]
    have hband : ¬ (4 * s.options.maxMemoryUsage ≤ 5 * p ∧
        p ≤ s.options.maxMemoryUsage) := by
      omega
    rw [if_neg hband]
    cases s
    rename_i throttled _ _ _ _ _ _ _ _ _ _ _ _ _
    cases throttled <;> simp
  · rw [if_neg h1, if_neg h1]
    by_cases h2 : s.throttled = true ∧ 5 * p < 4 * s.options.maxMemoryUsage
    · rw [if_pos h2, if_pos h2]
      have hband : ¬ (4 * s.options.maxMemoryUsage ≤ 5 * p ∧
          p ≤ s.options.maxMemoryUsage) := by
        omega
      rw [if_neg hband]
      have hq := processQueue_throttled { s with throttled := false } fork
      refine ⟨hq, trivial, ?_⟩
      rw [if_pos ⟨h2.1, hq⟩]
    · rw [if_neg h2, if_neg h2]
      refine ⟨rfl, ?_, ?_⟩
      · split <;> trivial
      · cases s
        rename_i throttled _ _ _ _ _ _ _ _ _ _ _ _ _
        cases throttled <;> simp

/-! ### C21: admission attempts and the completion check -/

theorem spawnNextWorker_throttled_returns (s : State) (fork : SpawnOutcome)
    (h : s.throttled = true) : spawnNextWorker s fork = s := by
  unfold spawnNextWorker
  rw [if_pos (by simp [h])]

theorem processQueue_throttled_returns (s : State) (fork : SpawnOutcome)
    (h : s.throttled = true) : _processQueue s fork = s := by
  unfold _processQueue
  split
  · rfl
  · exact spawnNextWorker_throttled_returns s fork h

/-- C21 (the code at the failing input): the crawler runs one task while a caller waits;
the monitor reads 90 % (ceiling 80 %) and sets `throttled`; the worker reports its data
and exits.  The state is running and throttled with an empty queue, no active worker and
a pending resolver.  The admission attempt armed by the exit handler returns at
`if (!this.running || this.throttled) return;` for every outcome of the spawn: `running`
stays true and the resolver is still pending and has not been invoked, although the
completion check itself would have completed the run.  A later monitor tick reading 70 %
(not below 64 %) changes nothing, so the promise of `waitForCompletion` stays pending
with every task done; only a reading below 64 % re-triggers the attempt, which then
resolves it. -/
theorem throttled_attempt_skips_completion_check :
    run (init defaultOptions) throttledEvents = some idleThrottled ∧
      idleThrottled.running = true ∧
      idleThrottled.throttled = true ∧
      idleThrottled.taskQueue = [] ∧
      idleThrottled.activeWorkers = [] ∧
      idleThrottled.completionResolver = some 0 ∧
      idleThrottled.taskStats = ⟨1, 1, 0, 0⟩ ∧
      (∀ fork, spawnNextWorker idleThrottled fork = idleThrottled ∧
        _processQueue idleThrottled fork = idleThrottled) ∧
      step idleThrottled (.timer 4 .ok true) = some afterThrottledAttempt ∧
      afterThrottledAttempt.running = true ∧
      afterThrottledAttempt.completionResolver = some 0 ∧
      afterThrottledAttempt.resolverCalls = [] ∧
      (_checkCompletion idleThrottled).running = false ∧
      (_checkCompletion idleThrottled).completionResolver = none ∧
      (_checkCompletion idleThrottled).resolverCalls =
        [(0, ⟨[("X", .collected sampleData)], [], ⟨1, 1, 0, 0⟩⟩)] ∧
      run afterThrottledAttempt [.advance 1000, .monitorTick 1 (some 70) .ok] =
        some { afterThrottledAttempt with clock := afterThrottledAttempt.clock + 1000 } ∧
      (resourceMonitorTick afterThrottledAttempt (some 50) .ok).running = false ∧
      (resourceMonitorTick afterThrottledAttempt (some 50) .ok).resolverCalls =
        [(0, ⟨[("X", .collected sampleData)], [], ⟨1, 1, 0, 0⟩⟩)] := by
  have hthr : idleThrottled.throttled = true := by decide
  refine ⟨by decide, by decide, hthr, by decide, by decide, by decide, by decide, ?_,
    by decide, by decide, by decide, by decide, by decide, by decide, by decide, by decide,
    by decide, by decide⟩
  intro fork
  exact ⟨spawnNextWorker_throttled_returns _ fork hthr,
    processQueue_throttled_returns _ fork hthr⟩

/-! ### C23: queue order -/

theorem pushOnly_refl (s : State) : PushOnly s s := ⟨rfl, List.prefix_refl _⟩

theorem pushOnly_trans {a b c : State} (h1 : PushOnly a b) (h2 : PushOnly b c) :
    PushOnly a c :=
  ⟨h2.1.trans h1.1, h1.2.trans h2.2⟩

theorem queueOrder_refl (s : State) : QueueOrder s s :=
  ⟨List.prefix_refl _, List.prefix_refl _⟩

theorem queueOrder_trans {a b c : State} (h1 : QueueOrder a b) (h2 : QueueOrder b c) :
    QueueOrder a c :=
  ⟨h1.1.trans h2.1, h1.2.trans h2.2⟩

theorem queueOrder_of_pushOnly {s s1 : State} (h : PushOnly s s1) : QueueOrder s s1 := by
  obtain ⟨ha, t, ht⟩ := h
  refine ⟨ha ▸ List.prefix_refl _, t, ?_⟩
  rw [ha, ← ht, List.append_assoc]

theorem pushOnly_requeue (s : State) (task : Task) : PushOnly s (requeue s task) :=
  ⟨rfl, List.prefix_append _ _⟩

theorem pushOnly_resolveCompletion (s : State) : PushOnly s (resolveCompletion s) := by
  unfold resolveCompletion
  split <;> exact ⟨rfl, List.prefix_refl _⟩

theorem pushOnly_stopMonitoring (s : State) : PushOnly s (stopMonitoring s) := by
  unfold stopMonitoring clearInterval
  split <;> exact ⟨rfl, List.prefix_refl _⟩

theorem pushOnly_checkCompletion (s : State) : PushOnly s (_checkCompletion s) := by
  unfold _checkCompletion
  split
  · have h0 : PushOnly s { stopMonitoring s with running := false } := by
      have := pushOnly_stopMonitoring s
      exact ⟨this.1, this.2⟩
    exact pushOnly_trans h0 (pushOnly_resolveCompletion _)
  · exact pushOnly_refl s

theorem pushOnly_spawnWorker (s : State) (task : Task) (fork : SpawnOutcome) :
    PushOnly s (_spawnWorker s task fork) := by
  unfold _spawnWorker setTimeout send requeue markFailed
  dsimp only
  split
  · exact ⟨rfl, List.prefix_refl _⟩
  · split
    · exact ⟨rfl, List.prefix_append _ _⟩
    · exact ⟨rfl, List.prefix_refl _⟩
  · split
    · exact ⟨rfl, List.prefix_append _ _⟩
    · exact ⟨rfl, List.prefix_refl _⟩

theorem queueOrder_spawnNextWorker (s : State) (fork : SpawnOutcome) :
    QueueOrder s (spawnNextWorker s fork) := by
  unfold spawnNextWorker
  split
  · exact queueOrder_refl s
  · split
    · split
      · exact queueOrder_refl s
      · rename_i task rest hq
        dsimp only
        obtain ⟨ha, t, ht⟩ := pushOnly_spawnWorker
          { s with taskQueue := rest, admitted := s.admitted ++ [task] } task fork
        refine ⟨⟨[task], ?_⟩, ⟨t, ?_⟩⟩
        · unfold setTimeout
          exact ha.symm
        · unfold setTimeout
          show _ = (_spawnWorker _ task fork).admitted ++ (_spawnWorker _ task fork).taskQueue
          rw [ha, ← ht, hq]
          simp
    · exact queueOrder_of_pushOnly (pushOnly_checkCompletion s)

theorem queueOrder_processQueue (s : State) (fork : SpawnOutcome) :
    QueueOrder s (_processQueue s fork) := by
  unfold _processQueue
  split
  · exact queueOrder_refl s
  · exact queueOrder_spawnNextWorker s fork

theorem pushOnly_onMessage (s : State) (task : Task) (m : WorkerMessage) :
    PushOnly s (onMessage s task m) := by
  cases m with
  | result data =>
    unfold onMessage _saveResult
    dsimp only
    split
    · exact ⟨rfl, List.prefix_refl _⟩
    · exact ⟨rfl, List.prefix_refl _⟩
    · split <;> exact ⟨rfl, List.prefix_refl _⟩
  | error e =>
    unfold onMessage requeue markFailed
    dsimp only
    split
    · exact ⟨rfl, List.prefix_append _ _⟩
    · exact ⟨rfl, List.prefix_refl _⟩
  | log d => exact pushOnly_refl s
  | progress => exact pushOnly_refl s
  | memory => exact pushOnly_refl s
  | other => exact pushOnly_refl s

theorem pushOnly_onExit (s : State) (id : String) (task : Task) (code : Option Int)
    (signal : Option String) : PushOnly s (onExit s id task code signal) := by
  unfold onExit setTimeout requeue markFailed
  dsimp only
  split
  · split
    · split
      · exact ⟨rfl, List.prefix_append _ _⟩
      · split <;> exact ⟨rfl, List.prefix_refl _⟩
    · exact ⟨rfl, List.prefix_refl _⟩
  · exact ⟨rfl, List.prefix_refl _⟩

theorem pushOnly_onSendCallback (s : State) (w : Nat) (id : String) (err : Bool) :
    PushOnly s (onSendCallback s w id err) := by
  unfold onSendCallback setTimeout send
  split <;> exact ⟨rfl, List.prefix_refl _⟩

theorem pushOnly_onHardTimeout (s : State) (w : Nat) (id : String) (task : Task) :
    PushOnly s (onHardTimeout s w id task) := by
  unfold onHardTimeout setTimeout send requeue markFailed
  dsimp only
  split
  · split
    · exact ⟨rfl, List.prefix_append _ _⟩
    · exact ⟨rfl, List.prefix_refl _⟩
  · exact ⟨rfl, List.prefix_refl _⟩

theorem pushOnly_onGraceKill (s : State) (w : Nat) (id : String) :
    PushOnly s (onGraceKill s w id) := by
  unfold onGraceKill send
  split <;> exact ⟨rfl, List.prefix_refl _⟩

theorem pushOnly_onForceKill (s : State) (w : Nat) (c : Bool) :
    PushOnly s (onForceKill s w c) := by
  unfold onForceKill send
  split <;> exact ⟨rfl, List.prefix_refl _⟩

theorem pushOnly_addSymbols (s : State) (a : JSArg) : PushOnly s (addSymbols s a) := by
  unfold addSymbols
  split
  · exact pushOnly_refl s
  · split
    · exact pushOnly_refl s
    · exact ⟨rfl, List.prefix_append _ _⟩

theorem pushOnly_stopWorker (s : State) (e : String × WorkerInfo) :
    PushOnly s (stopWorker s e) := by
  unfold stopWorker setTimeout send clearTimeout
  dsimp only
  split <;> exact ⟨rfl, List.prefix_refl _⟩

theorem pushOnly_foldl_stopWorker (l : List (String × WorkerInfo)) (s : State) :
    PushOnly s (l.foldl stopWorker s) := by
  induction l generalizing s with
  | nil => exact pushOnly_refl s
  | cons e l ih =>
    rw [List.foldl_cons]
    exact pushOnly_trans (pushOnly_stopWorker s e) (ih _)

theorem pushOnly_stopFinish (s : State) : PushOnly s (stopFinish s) := by
  unfold stopFinish
  have h0 : PushOnly s { s with activeWorkers := [] } := ⟨rfl, List.prefix_refl _⟩
  exact pushOnly_trans h0 (pushOnly_resolveCompletion _)

theorem pushOnly_stop (s : State) : PushOnly s (stop s) := by
  unfold stop
  dsimp only
  split
  · exact pushOnly_refl s
  · have h0 : PushOnly s { s with running := false } := ⟨rfl, List.prefix_refl _⟩
    have h1 := pushOnly_trans h0 (pushOnly_stopMonitoring _)
    have h2 := pushOnly_trans h1 (pushOnly_foldl_stopWorker
      (stopMonitoring { s with running := false }).activeWorkers _)
    split
    · exact pushOnly_trans h2 ⟨rfl, List.prefix_refl _⟩
    · exact pushOnly_trans h2 (pushOnly_stopFinish _)

theorem queueOrder_resourceMonitorTick (s : State) (p : Option Nat) (fork : SpawnOutcome) :
    QueueOrder s (resourceMonitorTick s p fork) := by
  unfold resourceMonitorTick
  split
  · exact queueOrder_refl s
  · split
    · split
      · exact ⟨List.prefix_refl _, List.prefix_refl _⟩
      · exact queueOrder_refl s
    · split
      · have h0 : QueueOrder s { s with throttled := false } :=
          ⟨List.prefix_refl _, List.prefix_refl _⟩
        exact queueOrder_trans h0 (queueOrder_processQueue _ fork)
      · exact queueOrder_refl s

theorem queueOrder_fireTimer (s : State) (t : Timer) (fork : SpawnOutcome) (c : Bool) :
    QueueOrder s (fireTimer s t fork c) := by
  unfold fireTimer
  split
  · exact queueOrder_spawnNextWorker s fork
  · exact queueOrder_processQueue s fork
  · split
    · exact queueOrder_of_pushOnly (pushOnly_onHardTimeout _ _ _ _)
    · exact queueOrder_refl s
  · split
    · exact queueOrder_of_pushOnly (pushOnly_onGraceKill _ _ _)
    · exact queueOrder_refl s
  · exact queueOrder_of_pushOnly (pushOnly_onForceKill _ _ _)

theorem queueOrder_step {s s1 : State} (e : Event) (hs : step s e = some s1) :
    QueueOrder s s1 := by
  cases e with
  | addSymbols a =>
    simp only [step, Option.some.injEq] at hs
    subst hs
    exact queueOrder_of_pushOnly (pushOnly_addSymbols s a)
  | start =>
    simp only [step, Option.some.injEq] at hs
    subst hs
    unfold start
    split
    · exact queueOrder_refl s
    · exact ⟨List.prefix_refl _, List.prefix_refl _⟩
  | startResume fork =>
    simp only [step] at hs
    split at hs
    · simp only [Option.some.injEq] at hs
      subst hs
      unfold startResume
      have h0 : QueueOrder s
          (_startResourceMonitoring { s with pendingStarts := s.pendingStarts - 1 }) :=
        ⟨List.prefix_refl _, List.prefix_refl _⟩
      exact queueOrder_trans h0 (queueOrder_processQueue _ fork)
    · simp at hs
  | stop =>
    simp only [step, Option.some.injEq] at hs
    subst hs
    exact queueOrder_of_pushOnly (pushOnly_stop s)
  | stopResume k =>
    simp only [step] at hs
    split at hs
    · simp only [Option.some.injEq] at hs
      subst hs
      unfold stopResume
      have h0 : PushOnly s { s with pendingStops := s.pendingStops.eraseIdx k } :=
        ⟨rfl, List.prefix_refl _⟩
      exact queueOrder_of_pushOnly (pushOnly_trans h0 (pushOnly_stopFinish _))
    · simp at hs
  | waitForCompletion =>
    simp only [step, Option.some.injEq] at hs
    subst hs
    unfold waitForCompletion
    split
    · exact queueOrder_refl s
    · split
      · exact ⟨List.prefix_refl _, List.prefix_refl _⟩
      · exact queueOrder_refl s
  | advance ms =>
    simp only [step, Option.some.injEq] at hs
    subst hs
    exact ⟨List.prefix_refl _, List.prefix_refl _⟩
  | timer id fork c =>
    simp only [step] at hs
    split at hs
    · split at hs
      · simp only [Option.some.injEq] at hs
        subst hs
        have h0 : QueueOrder s (clearTimeout s id) :=
          ⟨List.prefix_refl _, List.prefix_refl _⟩
        exact queueOrder_trans h0 (queueOrder_fireTimer _ _ fork c)
      · simp at hs
    · simp at hs
  | monitorTick hd p fork =>
    simp only [step] at hs
    split at hs
    · simp only [Option.some.injEq] at hs
      subst hs
      exact queueOrder_resourceMonitorTick s p fork
    · simp at hs
  | workerMessage w m =>
    simp only [step] at hs
    split at hs
    · simp only [Option.some.injEq] at hs
      subst hs
      exact queueOrder_of_pushOnly (pushOnly_onMessage _ _ m)
    · simp at hs
  | workerError w m =>
    simp only [step] at hs
    split at hs
    · simp only [Option.some.injEq] at hs
      subst hs
      exact ⟨List.prefix_refl _, List.prefix_refl _⟩
    · simp at hs
  | workerExit w code signal =>
    simp only [step] at hs
    split at hs
    · rename_i p hp
      split at hs
      · simp at hs
      · simp only [Option.some.injEq] at hs
        subst hs
        have h0 : PushOnly s
            { s with spawned := s.spawned.set w { p with exited := true } } :=
          ⟨rfl, List.prefix_refl _⟩
        have h1 := pushOnly_trans h0 (pushOnly_onExit _ p.id p.task code signal)
        exact queueOrder_of_pushOnly ⟨h1.1, h1.2⟩
    · simp at hs
  | sendCallback w err =>
    simp only [step] at hs
    split at hs
    · rename_i p hp
      split at hs
      · simp at hs
      · simp only [Option.some.injEq] at hs
        subst hs
        have h0 : PushOnly s
            { s with spawned := s.spawned.set w { p with startAcked := true } } :=
          ⟨rfl, List.prefix_refl _⟩
        exact queueOrder_of_pushOnly
          (pushOnly_trans h0 (pushOnly_onSendCallback _ w p.id err))
    · simp at hs

theorem queueOrder_run (evs : List Event) (s s1 : State) (hr : run s evs = some s1) :
    QueueOrder s s1 := by
  induction evs generalizing s with
  | nil =>
    simp only [run, Option.some.injEq] at hr
    subst hr
    exact queueOrder_refl s
  | cons e es ih =>
    simp only [run] at hr
    split at hr
    · rename_i s2 hs
      exact queueOrder_trans (queueOrder_step e hs) (ih s2 hr)
    · simp at hr

theorem get_storeTimeoutId (m : JSMap String WorkerInfo) (id k : String) (t : Nat) :
    JSMap.get (storeTimeoutId m id t) k =
      (JSMap.get m k).map
        (fun i => if k = id then { i with timeoutId := some t } else i) := by
  unfold JSMap.get storeTimeoutId
  induction m with
  | nil => rfl
  | cons a m ih =>
    rw [List.map_cons]
    by_cases ha : a.1 = k
    · have h1 : (if a.1 = id then (a.1, { a.2 with timeoutId := some t }) else a).1 = k := by
        split <;> exact ha
      rw [List.find?_cons_of_pos _ (by simpa using h1),
        List.find?_cons_of_pos _ (by simpa using ha)]
      by_cases hid : a.1 = id
      · simp [hid, ← ha]
      · have hk : ¬ k = id := fun h => hid (ha.trans h)
        simp [hid, hk]
    · have h1 : ¬ (if a.1 = id then (a.1, { a.2 with timeoutId := some t }) else a).1 = k := by
        split <;> exact ha
      rw [List.find?_cons_of_neg _ (by simpa using h1),
        List.find?_cons_of_neg _ (by simpa using ha)]
      exact ih

theorem requeuedAtTail_onMessage (s : State) (task : Task) (m : WorkerMessage) :
    RequeuedAtTail task s (onMessage s task m) := by
  cases m with
  | result data =>
    unfold onMessage _saveResult
    dsimp only
    split
    · exact Or.inl ⟨rfl, rfl⟩
    · exact Or.inl ⟨rfl, rfl⟩
    · split <;> exact Or.inl ⟨rfl, rfl⟩
  | error e =>
    unfold onMessage requeue markFailed
    dsimp only
    split
    · exact Or.inr ⟨rfl, rfl⟩
    · exact Or.inl ⟨rfl, rfl⟩
  | log d => exact Or.inl ⟨rfl, rfl⟩
  | progress => exact Or.inl ⟨rfl, rfl⟩
  | memory => exact Or.inl ⟨rfl, rfl⟩
  | other => exact Or.inl ⟨rfl, rfl⟩

theorem requeuedAtTail_onExit (s : State) (id : String) (task : Task) (code : Option Int)
    (signal : Option String) : RequeuedAtTail task s (onExit s id task code signal) := by
  unfold onExit setTimeout requeue markFailed
  dsimp only
  split
  · split
    · split
      · exact Or.inr ⟨rfl, rfl⟩
      · split <;> exact Or.inl ⟨rfl, rfl⟩
    · exact Or.inl ⟨rfl, rfl⟩
  · exact Or.inl ⟨rfl, rfl⟩

theorem requeuedAtTail_onHardTimeout (s : State) (w : Nat) (id : String) (task : Task) :
    RequeuedAtTail task s (onHardTimeout s w id task) := by
  unfold onHardTimeout setTimeout send requeue markFailed
  dsimp only
  split
  · split
    · exact Or.inr ⟨rfl, rfl⟩
    · exact Or.inl ⟨rfl, rfl⟩
  · exact Or.inl ⟨rfl, rfl⟩

theorem requeuedAtTail_spawnWorker (s : State) (task : Task) (fork : SpawnOutcome) :
    RequeuedAtTail task s (_spawnWorker s task fork) := by
  unfold _spawnWorker setTimeout send requeue markFailed
  dsimp only
  split
  · exact Or.inl ⟨rfl, rfl⟩
  · split
    · exact Or.inr ⟨rfl, rfl⟩
    · exact Or.inl ⟨rfl, rfl⟩
  · split
    · exact Or.inr ⟨rfl, rfl⟩
    · exact Or.inl ⟨rfl, rfl⟩

theorem spawnNextWorker_admits (s : State) (fork : SpawnOutcome) (task : Task)
    (rest : List Task) (hrun : s.running = true) (hthr : s.throttled = false)
    (hfree : s.activeWorkers.size < s.options.maxWorkers) (hq : s.taskQueue = task :: rest) :
    spawnNextWorker s fork =
      setTimeout
        (_spawnWorker { s with taskQueue := rest, admitted := s.admitted ++ [task] } task fork)
        .spawnNext s.options.throttleDelay := by
  unfold spawnNextWorker
  rw [if_neg (by simp [hrun, hthr]), if_pos ⟨hfree, by rw [hq]; exact Nat.succ_pos _⟩]
  split
  · rename_i h
    rw [hq] at h
    exact absurd h (by simp)
  · rename_i t r h
    rw [hq] at h
    injection h with h1 h2
    subst h1 h2
    dsimp only
    rw [spawnWorker_options]

theorem spawnNextWorker_no_admission (s : State) (fork : SpawnOutcome)
    (h : ¬ (s.running = true ∧ s.throttled = false ∧
      s.activeWorkers.size < s.options.maxWorkers ∧ s.taskQueue ≠ [])) :
    (spawnNextWorker s fork).admitted = s.admitted ∧
      (spawnNextWorker s fork).taskQueue = s.taskQueue ∧
      (spawnNextWorker s fork).spawned = s.spawned := by
  unfold spawnNextWorker
  split
  · exact ⟨rfl, rfl, rfl⟩
  · rename_i hg
    split
    · rename_i hc
      refine absurd ⟨?_, ?_, hc.1, ?_⟩ h
      · cases hr : s.running <;> simp_all
      · cases ht : s.throttled <;> simp_all
      · intro hq
        rw [hq] at hc
        exact absurd hc.2 (by decide)
    · unfold _checkCompletion resolveCompletion stopMonitoring clearInterval
      split
      · split <;> split <;> simp_all
      · exact ⟨rfl, rfl, rfl⟩

/-- C23: at every point `s1` of every run.  (1) An admission attempt of `spawnNextWorker`
admits at most one task, and only the head of the queue: when it admits (running, not
throttled, a free slot, queue `task :: rest`) the log of admitted tasks grows by `task`
and `_spawnWorker` is called for `task`.  If its `try` block runs to the end, the queue
is `rest`, in its previous order, and the new process and the new `activeWorkers` entry
(hard timeout stored) are those of `task`.  If `fork` throws, no process and no entry is
added; if `worker.send` throws, the process and the entry of `task` are there, without a
hard timeout; in both cases the queue is `rest`, followed by the retried copy of `task`
when a retry is left.  Otherwise queue, log and processes are unchanged.  (2) Each place
that re-enqueues (the `error` message, the exit handler, the hard timeout, the `catch`
block of `_spawnWorker`) leaves the queue as it was or appends the copy of the task with
`retries + 1` at the tail.  (3) Along the run from `s` to `s1` the admitted tasks and the
sequence "admitted, then queued" only grow at the end: tasks are admitted in the order in
which they entered the queue. -/
theorem admission_takes_head_requeue_appends_tail (s s1 : State) (es : List Event)
    (hrun : run s es = some s1) :
    (∀ fork : SpawnOutcome,
      match s1.taskQueue with
      | [] =>
        (spawnNextWorker s1 fork).admitted = s1.admitted ∧
          (spawnNextWorker s1 fork).taskQueue = [] ∧
          (spawnNextWorker s1 fork).spawned = s1.spawned
      | task :: rest =>
        if s1.running = true ∧ s1.throttled = false ∧
            s1.activeWorkers.size < s1.options.maxWorkers then
          (spawnNextWorker s1 fork).admitted = s1.admitted ++ [task] ∧
            (match fork with
              | .ok =>
                (spawnNextWorker s1 fork).taskQueue = rest ∧
                  (spawnNextWorker s1 fork).spawned =
                    s1.spawned ++ [⟨workerId task s1.clock, task, false, false⟩] ∧
                  JSMap.get (spawnNextWorker s1 fork).activeWorkers (workerId task s1.clock) =
                    some ⟨s1.spawned.length, task, s1.clock, task.retriesOrZero,
                      some s1.nextHandle⟩
              | .throws _ =>
                (spawnNextWorker s1 fork).taskQueue =
                    (if task.retriesOrZero < s1.options.retries then rest ++ [task.retried]
                     else rest) ∧
                  (spawnNextWorker s1 fork).spawned = s1.spawned ∧
                  (spawnNextWorker s1 fork).activeWorkers = s1.activeWorkers
              | .sendThrows _ =>
                (spawnNextWorker s1 fork).taskQueue =
                    (if task.retriesOrZero < s1.options.retries then rest ++ [task.retried]
                     else rest) ∧
                  (spawnNextWorker s1 fork).spawned =
                    s1.spawned ++ [⟨workerId task s1.clock, task, false, true⟩] ∧
                  JSMap.get (spawnNextWorker s1 fork).activeWorkers (workerId task s1.clock) =
                    some ⟨s1.spawned.length, task, s1.clock, task.retriesOrZero, none⟩)
        else
          (spawnNextWorker s1 fork).admitted = s1.admitted ∧
            (spawnNextWorker s1 fork).taskQueue = task :: rest ∧
            (spawnNextWorker s1 fork).spawned = s1.spawned) ∧
      (∀ (task : Task) (message : WorkerMessage) (id : String) (code : Option Int)
          (signal : Option String) (w : Nat) (fork : SpawnOutcome),
        RequeuedAtTail task s1 (onMessage s1 task message) ∧
          RequeuedAtTail task s1 (onExit s1 id task code signal) ∧
          RequeuedAtTail task s1 (onHardTimeout s1 w id task) ∧
          RequeuedAtTail task s1 (_spawnWorker s1 task fork)) ∧
      s.admitted <+: s1.admitted ∧
      s.admitted ++ s.taskQueue <+: s1.admitted ++ s1.taskQueue := by
  refine ⟨?_, ?_, (queueOrder_run es s s1 hrun).1, (queueOrder_run es s s1 hrun).2⟩
  · intro fork
    cases hq : s1.taskQueue with
    | nil =>
      have h := spawnNextWorker_no_admission s1 fork (fun hc => hc.2.2.2 hq)
      exact ⟨h.1, h.2.1.trans hq, h.2.2⟩
    | cons task rest =>
      dsimp only
      split
      · rename_i hc
        rw [spawnNextWorker_admits s1 fork task rest hc.1 hc.2.1 hc.2.2 hq]
        cases fork with
        | ok =>
          refine ⟨rfl, rfl, rfl, ?_⟩
          unfold _spawnWorker setTimeout send
          dsimp only
          rw [get_storeTimeoutId, JSMap.get_set_self]
          simp
        | throws message =>
          unfold _spawnWorker setTimeout requeue markFailed
          dsimp only
          refine ⟨?_, ?_, ?_, ?_⟩
          · split <;> rfl
          · split <;> rfl
          · split <;> rfl
          · split <;> rfl
        | sendThrows message =>
          unfold _spawnWorker setTimeout requeue markFailed
          dsimp only
          refine ⟨?_, ?_, ?_, ?_⟩
          · split <;> rfl
          · split <;> rfl
          · split <;> rfl
          · split <;> exact JSMap.get_set_self _ _ _
      · rename_i hc
        have h := spawnNextWorker_no_admission s1 fork
          (fun hn => hc ⟨hn.1, hn.2.1, hn.2.2.1⟩)
        exact ⟨h.1, h.2.1.trans hq, h.2.2⟩
  · intro task message id code signal w fork
    exact ⟨requeuedAtTail_onMessage s1 task message,
      requeuedAtTail_onExit s1 id task code signal,
      requeuedAtTail_onHardTimeout s1 w id task,
      requeuedAtTail_spawnWorker s1 task fork⟩

/-- Witness for C23: with one worker slot, `A`, `B`, `C` are queued and the worker for
`A` crashes, so the copy of `A` with `retries = 1` goes to the tail behind `B` and `C`.
The following admissions take `B`, then `C`: the order of entry `A, B, C, A (retry)` is
the order of admission. -/
theorem admission_takes_head_requeue_appends_tail_witness :
    run afterCrash fifoRest = some afterThirdAdmission ∧
      afterCrash.admitted = [taskFor "A"] ∧
      afterCrash.taskQueue = [taskFor "B", taskFor "C", (taskFor "A").retried] ∧
      afterThirdAdmission.admitted = [taskFor "A", taskFor "B", taskFor "C"] ∧
      afterThirdAdmission.taskQueue = [(taskFor "A").retried] ∧
      afterCrash.admitted <+: afterThirdAdmission.admitted ∧
      afterCrash.admitted ++ afterCrash.taskQueue <+:
        afterThirdAdmission.admitted ++ afterThirdAdmission.taskQueue :=
  have hrun : run afterCrash fifoRest = some afterThirdAdmission := by decide
  have h := admission_takes_head_requeue_appends_tail afterCrash afterThirdAdmission
    fifoRest hrun
  ⟨hrun, by decide, by decide, by decide, by decide, h.2.2.1, h.2.2.2⟩

/-! ### C24: spacing of worker spawns -/

/-- C24 (the code at the failing input): with `throttleDelay = 500` and two slots, the
workers for `A` and `B` exit 40 ms apart.  Each exit handler arms its own
`_processQueue` call, and each call spawns at once when it finds a free slot and a
queued task, whatever the time of the last spawn: `C` is forked at 3100 ms and `D` at
3140 ms, 40 ms apart. -/
theorem pending_triggers_spawn_within_delay :
    defaultOptions.throttleDelay = 500 ∧
      run (init defaultOptions) burstEvents = some afterBurst ∧
      spawnTimes (init defaultOptions) burstEvents = [0, 500, 3100, 3140] ∧
      afterBurst.spawned.map (fun p => p.id) = ["A_0", "B_500", "C_3100", "D_3140"] ∧
      (JSMap.get afterBurst.activeWorkers "C_3100").map (fun i => i.startTime) = some 3100 ∧
      (JSMap.get afterBurst.activeWorkers "D_3140").map (fun i => i.startTime) = some 3140 ∧
      3140 - 3100 < afterBurst.options.throttleDelay := by
  decide

/-! ### C2: where a task is -/

theorem digitChar_ne_underscore : ∀ m < 10, Nat.digitChar m ≠ '_' := by
  decide

theorem toDigitsCore_no_underscore (fuel : Nat) :
    ∀ (n : Nat) (ds : List Char), '_' ∉ ds → '_' ∉ Nat.toDigitsCore 10 fuel n ds := by
  induction fuel with
  | zero =>
    intro n ds h
    exact h
  | succ fuel ih =>
    intro n ds h
    unfold Nat.toDigitsCore
    have hd : '_' ∉ Nat.digitChar (n % 10) :: ds := by
      intro hin
      rcases List.mem_cons.mp hin with h1 | h1
      · exact digitChar_ne_underscore _ (Nat.mod_lt n (by decide)) h1.symm
      · exact h h1
    dsimp only
    split
    · exact hd
    · exact ih _ _ hd

theorem toString_no_underscore (n : Nat) : '_' ∉ (toString n).data := by
  show '_' ∉ (Nat.repr n).data
  unfold Nat.repr Nat.toDigits
  exact toDigitsCore_no_underscore _ _ _ (List.not_mem_nil _)

theorem prefix_before_separator {α : Type} (c : α) :
    ∀ (x x1 y y1 : List α), c ∉ x → c ∉ x1 → x ++ c :: y = x1 ++ c :: y1 → y = y1 := by
  intro x
  induction x with
  | nil =>
    intro x1 y y1 _ h1 h
    cases x1 with
    | nil => exact List.tail_eq_of_cons_eq h
    | cons d x2 =>
      exfalso
      apply h1
      have := List.head_eq_of_cons_eq h
      rw [this]
      exact List.mem_cons_self _ _
  | cons d x0 ih =>
    intro x1 y y1 h0 h1 h
    cases x1 with
    | nil =>
      exfalso
      apply h0
      have := List.head_eq_of_cons_eq h
      rw [← this]
      exact List.mem_cons_self _ _
    | cons d1 x2 =>
      exact ih x2 y y1 (fun hin => h0 (List.mem_cons_of_mem _ hin))
        (fun hin => h1 (List.mem_cons_of_mem _ hin)) (List.tail_eq_of_cons_eq h)

theorem append_digits_inj (a b : String) (n m : Nat)
    (h : a ++ "_" ++ toString n = b ++ "_" ++ toString m) : a = b := by
  have hd := congrArg String.data h
  simp only [String.data_append] at hd
  have hr := congrArg List.reverse hd
  simp only [List.reverse_append, List.append_assoc] at hr
  have hu : ("_" : String).data.reverse = ['_'] := rfl
  rw [hu] at hr
  have := prefix_before_separator '_' _ _ _ _
    (by simpa using toString_no_underscore n) (by simpa using toString_no_underscore m) hr
  exact String.ext (List.reverse_injective this)

theorem workerId_symbol {t u : Task} {n m : Nat} {x y : String} (hx : t.symbol = .str x)
    (hy : u.symbol = .str y) (h : workerId t n = workerId u m) : t.symbol = u.symbol := by
  unfold workerId at h
  have := append_digits_inj _ _ _ _ h
  rw [hx, hy] at this ⊢
  exact congrArg JSVal.str this

theorem has_set_of_has {κ ν : Type} [DecidableEq κ] {m : JSMap κ ν} {k k1 : κ} {v : ν}
    (h : JSMap.has m k1 = true) : JSMap.has (JSMap.set m k v) k1 = true := by
  unfold JSMap.has at h ⊢
  rw [List.any_eq_true] at h ⊢
  obtain ⟨e, he, hk⟩ := h
  unfold JSMap.set
  split
  · by_cases hek : e.1 = k
    · refine ⟨(k, v), List.mem_map.mpr ⟨e, he, by simp [hek]⟩, ?_⟩
      rw [← hek]
      exact hk
    · exact ⟨e, List.mem_map.mpr ⟨e, he, by simp [hek]⟩, hk⟩
  · exact ⟨e, List.mem_append_left _ he, hk⟩

theorem has_set_same {κ ν : Type} [DecidableEq κ] (m : JSMap κ ν) (k : κ) (v : ν) :
    JSMap.has (JSMap.set m k v) k = true := by
  obtain ⟨e, he, hk⟩ := JSMap.exists_mem_set m k v
  unfold JSMap.has
  rw [List.any_eq_true]
  exact ⟨e, he, decide_eq_true hk⟩

theorem mem_set_of_ne {κ ν : Type} [DecidableEq κ] {m : JSMap κ ν} {k : κ} {v : ν}
    {e : κ × ν} (he : e ∈ m) (hk : e.1 ≠ k) : e ∈ JSMap.set m k v := by
  unfold JSMap.set
  split
  · exact List.mem_map.mpr ⟨e, he, by simp [hk]⟩
  · exact List.mem_append_left _ he

theorem mem_delete_of_ne {κ ν : Type} [DecidableEq κ] {m : JSMap κ ν} {k : κ}
    {e : κ × ν} (he : e ∈ m) (hk : e.1 ≠ k) : e ∈ JSMap.delete m k :=
  List.mem_filter.mpr ⟨he, by simpa using hk⟩

theorem heldActive_iff {s : State} {c : JSVal} :
    heldActive s c = true ↔ ∃ e ∈ s.activeWorkers, e.2.task.symbol = c := by
  unfold heldActive
  rw [List.any_eq_true]
  constructor
  · rintro ⟨e, he, hk⟩
    exact ⟨e, he, of_decide_eq_true hk⟩
  · rintro ⟨e, he, hk⟩
    exact ⟨e, he, decide_eq_true hk⟩

theorem terminal_after_result (r : JSMap JSVal JSData) (e : JSMap JSVal String)
    (c : JSVal) (d : JSData) : (JSMap.has (JSMap.set r c d) c || JSMap.has e c) = true := by
  rw [has_set_same]
  exact Bool.true_or _

theorem terminal_after_error (r : JSMap JSVal JSData) (e : JSMap JSVal String)
    (c : JSVal) (m : String) : (JSMap.has r c || JSMap.has (JSMap.set e c m) c) = true := by
  rw [has_set_same]
  exact Bool.or_true _

theorem terminal_mono_result (r : JSMap JSVal JSData) (e : JSMap JSVal String)
    (c : JSVal) (d : JSData) (k : JSVal) (h : (JSMap.has r k || JSMap.has e k) = true) :
    (JSMap.has (JSMap.set r c d) k || JSMap.has e k) = true := by
  rw [Bool.or_eq_true] at h ⊢
  rcases h with h | h
  · exact Or.inl (has_set_of_has h)
  · exact Or.inr h

theorem terminal_mono_error (r : JSMap JSVal JSData) (e : JSMap JSVal String)
    (c : JSVal) (m : String) (k : JSVal) (h : (JSMap.has r k || JSMap.has e k) = true) :
    (JSMap.has r k || JSMap.has (JSMap.set e c m) k) = true := by
  rw [Bool.or_eq_true] at h ⊢
  rcases h with h | h
  · exact Or.inl h
  · exact Or.inr (has_set_of_has h)

theorem isTerminal_same {s s1 : State} (hr : s1.results = s.results)
    (he : s1.errors = s.errors) (k : JSVal) : isTerminal s1 k = isTerminal s k := by
  unfold isTerminal
  rw [hr, he]

theorem heldActive_same {s s1 : State} (ha : s1.activeWorkers = s.activeWorkers)
    (k : JSVal) : heldActive s1 k = heldActive s k := by
  unfold heldActive
  rw [ha]

theorem handles_refl (c : JSVal) (s : State) : Handles c s s :=
  ⟨le_refl _, fun _ => rfl, rfl, rfl, fun _ he => he, fun _ he _ => he, fun _ hk => hk,
    fun _ h => h⟩

theorem handles_of_same {c : JSVal} {s s1 : State}
    (h1 : s1.taskStats.retried = s.taskStats.retried) (h2 : s1.taskQueue = s.taskQueue)
    (h3 : s1.admitted = s.admitted) (h4 : s1.spawned = s.spawned)
    (h5 : s1.activeWorkers = s.activeWorkers) (h6 : s1.results = s.results)
    (h7 : s1.errors = s.errors) : Handles c s s1 where
  retried := le_of_eq h1.symm
  queue := fun _ => h2
  admitted := h3
  spawned := h4
  active := fun e he => h5 ▸ he
  kept := fun e he _ => h5.symm ▸ he
  terminal := fun k hk => by rw [isTerminal_same h6 h7]; exact hk
  own := fun _ h => by rw [heldActive_same h5, isTerminal_same h6 h7]; exact h

theorem handles_trans {c : JSVal} {a b d : State} (h1 : Handles c a b)
    (h2 : Handles c b d) : Handles c a d where
  retried := le_trans h1.retried h2.retried
  queue := by
    intro h
    have hb : b.taskStats.retried = a.taskStats.retried :=
      le_antisymm (h ▸ h2.retried) h1.retried
    rw [h2.queue (h.trans hb.symm), h1.queue hb]
  admitted := h2.admitted.trans h1.admitted
  spawned := h2.spawned.trans h1.spawned
  active := fun e he => h1.active e (h2.active e he)
  kept := fun e he hc => h2.kept e (h1.kept e he hc) hc
  terminal := fun k hk => h2.terminal k (h1.terminal k hk)
  own := by
    intro h hat
    have hb : b.taskStats.retried = a.taskStats.retried :=
      le_antisymm (h ▸ h2.retried) h1.retried
    exact h2.own (h.trans hb.symm) (h1.own hb hat)

theorem Keyed.of_handles {c : JSVal} {s s1 : State} (h : Keyed s) (hh : Handles c s s1) :
    Keyed s1 where
  procs := by
    rw [hh.spawned]
    exact h.procs
  workers := fun e he => h.workers e (hh.active e he)

theorem taken_of_handles {c : JSVal} {s s1 : State} (hh : Handles c s s1) (ht : Taken s) :
    Taken s1 := by
  intro hr k hk
  have h0 : s.taskStats.retried = 0 := Nat.le_zero.mp (hr ▸ hh.retried)
  have heq : s1.taskStats.retried = s.taskStats.retried := hr.trans h0.symm
  rw [hh.admitted] at hk
  obtain ⟨hq, hat⟩ := ht h0 k hk
  refine ⟨?_, ?_⟩
  · unfold queueCopies at hq ⊢
    rw [hh.queue heq]
    exact hq
  · by_cases hkc : k = c
    · subst hkc
      exact hh.own heq hat
    · rcases hat with ha | hterm
      · left
        obtain ⟨e, he, hs⟩ := heldActive_iff.mp ha
        exact heldActive_iff.mpr ⟨e, hh.kept e he (fun h => hkc (hs.symm.trans h)), hs⟩
      · right
        exact hh.terminal k hterm

theorem handles_recorded {c : JSVal} {s s1 : State}
    (h1 : s1.taskStats.retried = s.taskStats.retried) (h2 : s1.taskQueue = s.taskQueue)
    (h3 : s1.admitted = s.admitted) (h4 : s1.spawned = s.spawned)
    (h5 : s1.activeWorkers = s.activeWorkers)
    (hT : isTerminal s1 c = true ∧ ∀ k, isTerminal s k = true → isTerminal s1 k = true) :
    Handles c s s1 where
  retried := le_of_eq h1.symm
  queue := fun _ => h2
  admitted := h3
  spawned := h4
  active := fun e he => h5 ▸ he
  kept := fun e he _ => h5.symm ▸ he
  terminal := hT.2
  own := fun _ _ => Or.inr hT.1

theorem handles_requeued {c : JSVal} {s s1 : State}
    (h1 : s1.taskStats.retried = s.taskStats.retried + 1)
    (h3 : s1.admitted = s.admitted) (h4 : s1.spawned = s.spawned)
    (h5 : s1.activeWorkers = s.activeWorkers)
    (hT : ∀ k, isTerminal s k = true → isTerminal s1 k = true) : Handles c s s1 where
  retried := by omega
  queue := fun h => by omega
  admitted := h3
  spawned := h4
  active := fun e he => h5 ▸ he
  kept := fun e he _ => h5.symm ▸ he
  terminal := hT
  own := fun h => by omega

theorem handles_removed {c : JSVal} {s s1 : State} (id : String)
    (hr : s.taskStats.retried ≤ s1.taskStats.retried)
    (hq : s1.taskStats.retried = s.taskStats.retried → s1.taskQueue = s.taskQueue)
    (h3 : s1.admitted = s.admitted) (h4 : s1.spawned = s.spawned)
    (h5 : s1.activeWorkers = s.activeWorkers)
    (hk : ∀ e ∈ s.activeWorkers, e.1 = id → e.2.task.symbol = c)
    (hT : ∀ k, isTerminal s k = true → isTerminal s1 k = true)
    (hown : s1.taskStats.retried = s.taskStats.retried →
      isTerminal s1 c = true ∨ ∀ e ∈ s.activeWorkers, e.1 ≠ id) :
    Handles c s
      (setTimeout { s1 with activeWorkers := JSMap.delete s1.activeWorkers id }
        .processQueue 100) where
  retried := hr
  queue := hq
  admitted := h3
  spawned := h4
  active := fun e he => h5 ▸ JSMap.mem_delete he
  kept := by
    intro e he hc
    show e ∈ JSMap.delete s1.activeWorkers id
    rw [h5]
    exact mem_delete_of_ne he (fun h => hc (hk e he h))
  terminal := hT
  own := by
    intro heq hat
    rcases hown heq with h | h
    · exact Or.inr h
    · rcases hat with ha | ht
      · left
        obtain ⟨e, he, hs⟩ := heldActive_iff.mp ha
        refine heldActive_iff.mpr ⟨e, ?_, hs⟩
        show e ∈ JSMap.delete s1.activeWorkers id
        rw [h5]
        exact mem_delete_of_ne he (h e he)
      · exact Or.inr (hT c ht)

theorem get_none_no_key {κ ν : Type} [DecidableEq κ] {m : JSMap κ ν} {k : κ}
    (h : JSMap.get m k = none) : ∀ e ∈ m, e.1 ≠ k := by
  intro e he hk
  unfold JSMap.get at h
  rw [Option.map_eq_none', List.find?_eq_none] at h
  exact h e he (decide_eq_true hk)

theorem handles_onMessage (s : State) (task : Task) (m : WorkerMessage) :
    Handles task.symbol s (onMessage s task m) := by
  cases m with
  | result data =>
    unfold onMessage _saveResult
    dsimp only
    split
    · exact handles_recorded rfl rfl rfl rfl rfl
        ⟨terminal_after_result _ _ _ _, terminal_mono_result _ _ _ _⟩
    · exact handles_recorded rfl rfl rfl rfl rfl
        ⟨terminal_after_result _ _ _ _, terminal_mono_result _ _ _ _⟩
    · split
      · exact handles_recorded rfl rfl rfl rfl rfl
          ⟨terminal_after_result _ _ _ _, terminal_mono_result _ _ _ _⟩
      · exact handles_recorded rfl rfl rfl rfl rfl
          ⟨terminal_after_result _ _ _ _, terminal_mono_result _ _ _ _⟩
  | error e =>
    unfold onMessage requeue markFailed
    dsimp only
    split
    · exact handles_requeued rfl rfl rfl rfl (terminal_mono_error _ _ _ _)
    · exact handles_recorded rfl rfl rfl rfl rfl
        ⟨terminal_after_error _ _ _ _, terminal_mono_error _ _ _ _⟩
  | log d => exact handles_refl _ s
  | progress => exact handles_refl _ s
  | memory => exact handles_refl _ s
  | other => exact handles_refl _ s

theorem handles_onHardTimeout (s : State) (w : Nat) (id : String) (task : Task) :
    Handles task.symbol s (onHardTimeout s w id task) := by
  unfold onHardTimeout requeue markFailed setTimeout send
  dsimp only
  split
  · split
    · exact handles_requeued rfl rfl rfl rfl (fun _ hk => hk)
    · exact handles_recorded rfl rfl rfl rfl rfl
        ⟨terminal_after_error _ _ _ _, terminal_mono_error _ _ _ _⟩
  · exact handles_refl _ s

theorem handles_onGraceKill (c : JSVal) (s : State) (w : Nat) (id : String) :
    Handles c s (onGraceKill s w id) := by
  unfold onGraceKill send
  split
  · exact handles_of_same rfl rfl rfl rfl rfl rfl rfl
  · exact handles_refl _ s

theorem handles_onForceKill (c : JSVal) (s : State) (w : Nat) (connected : Bool) :
    Handles c s (onForceKill s w connected) := by
  unfold onForceKill send
  split
  · exact handles_of_same rfl rfl rfl rfl rfl rfl rfl
  · exact handles_refl _ s

theorem handles_onError (s : State) (id : String) (task : Task) (m : String)
    (hk : ∀ e ∈ s.activeWorkers, e.1 = id → e.2.task.symbol = task.symbol) :
    Handles task.symbol s (onError s id task m) := by
  unfold onError
  dsimp only
  have h := @handles_removed task.symbol s
    { s with errors := JSMap.set s.errors task.symbol m } id (le_refl _) (fun _ => rfl) rfl rfl
    rfl hk (terminal_mono_error _ _ _ _) (fun _ => Or.inl (terminal_after_error _ _ _ _))
  exact h

theorem handles_onExit (s : State) (id : String) (task : Task) (code : Option Int)
    (signal : Option String)
    (hk : ∀ e ∈ s.activeWorkers, e.1 = id → e.2.task.symbol = task.symbol)
    (hord : (code ≠ some 0 ∧ signal ≠ some "SIGTERM") ∨ isTerminal s task.symbol = true) :
    Handles task.symbol s (onExit s id task code signal) := by
  unfold onExit
  dsimp only
  split
  · split
    · rename_i hcrash
      split
      · exact handles_removed id (Nat.le_succ _) (fun h => absurd h (Nat.succ_ne_self _)) rfl
          rfl rfl hk (fun _ hk => hk) (fun h => absurd h (Nat.succ_ne_self _))
      · split
        · exact handles_removed id (le_refl _) (fun _ => rfl) rfl rfl rfl hk
            (terminal_mono_error _ _ _ _)
            (fun _ => Or.inl (terminal_after_error _ _ _ _))
        · rename_i hne
          exact absurd hcrash.1 hne
    · rename_i hcrash
      refine handles_removed id (le_refl _) (fun _ => rfl) rfl rfl rfl hk (fun _ hk => hk) ?_
      intro _
      rcases hord with h | h
      · exact absurd h hcrash
      · exact Or.inl h
  · rename_i hnone
    exact handles_removed id (le_refl _) (fun _ => rfl) rfl rfl rfl hk (fun _ hk => hk)
      (fun _ => Or.inr (get_none_no_key hnone))

theorem handles_onSendCallback (c : JSVal) (s : State) (w : Nat) (id : String) :
    Handles c s (onSendCallback s w id false) := by
  unfold onSendCallback
  exact handles_refl _ s

theorem handles_resolveCompletion (c : JSVal) (s : State) :
    Handles c s (resolveCompletion s) := by
  unfold resolveCompletion
  split
  · exact handles_of_same rfl rfl rfl rfl rfl rfl rfl
  · exact handles_refl _ s

theorem handles_stopMonitoring (c : JSVal) (s : State) :
    Handles c s (stopMonitoring s) := by
  unfold stopMonitoring clearInterval
  split
  · exact handles_of_same rfl rfl rfl rfl rfl rfl rfl
  · exact handles_refl _ s

theorem handles_checkCompletion (c : JSVal) (s : State) :
    Handles c s (_checkCompletion s) := by
  unfold _checkCompletion
  split
  · have h0 := handles_stopMonitoring c s
    have h1 : Handles c (stopMonitoring s) { stopMonitoring s with running := false } :=
      handles_of_same rfl rfl rfl rfl rfl rfl rfl
    exact handles_trans (handles_trans h0 h1) (handles_resolveCompletion c _)
  · exact handles_refl _ s

theorem mem_storeTimeoutId_cases {m : JSMap String WorkerInfo} {id : String} {t : Nat}
    {e : String × WorkerInfo} (h : e ∈ storeTimeoutId m id t) :
    (e ∈ m ∧ e.1 ≠ id) ∨ ∃ e0 ∈ m, e0.1 = id ∧ e.1 = id ∧ e.2.task = e0.2.task := by
  unfold storeTimeoutId at h
  rw [List.mem_map] at h
  obtain ⟨a, ha, rfl⟩ := h
  by_cases hid : a.1 = id
  · right
    rw [if_pos hid]
    exact ⟨a, ha, hid, hid, rfl⟩
  · left
    rw [if_neg hid]
    exact ⟨ha, hid⟩

theorem mem_storeTimeoutId_of_ne {m : JSMap String WorkerInfo} {id : String} {t : Nat}
    {e : String × WorkerInfo} (he : e ∈ m) (hk : e.1 ≠ id) : e ∈ storeTimeoutId m id t := by
  unfold storeTimeoutId
  exact List.mem_map.mpr ⟨e, he, by rw [if_neg hk]⟩

theorem registered_workers (m : JSMap String WorkerInfo) (id : String) (info : WorkerInfo)
    (e : String × WorkerInfo) (he : e ∈ JSMap.set m id info) :
    e ∈ m ∨ (e.1 = id ∧ e.2.task = info.task) := by
  rcases JSMap.mem_set he with h | h
  · exact Or.inl h
  · right
    rw [h]
    exact ⟨rfl, rfl⟩

theorem registered_held (m : JSMap String WorkerInfo) (id : String) (info : WorkerInfo) :
    ∃ e ∈ JSMap.set m id info, e.2.task.symbol = info.task.symbol := by
  obtain ⟨e, he, hk⟩ := JSMap.exists_mem_set m id info
  exact ⟨e, he, by rw [JSMap.value_of_mem_set he hk]⟩

theorem spawns_spawnWorker (s : State) (task : Task) (fork : SpawnOutcome) :
    Spawns task s (_spawnWorker s task fork) := by
  cases fork with
  | ok =>
    unfold _spawnWorker setTimeout send
    dsimp only
    refine ⟨le_refl _, fun _ => rfl, rfl, ?_, ?_, ?_, fun _ hp => List.mem_append_left _ hp,
      ?_, fun _ hk => hk, fun _ => Or.inl ?_⟩
    · intro p hp
      rcases List.mem_append.mp hp with h | h
      · exact Or.inl h
      · rw [List.mem_singleton] at h
        rw [h]
        exact Or.inr ⟨rfl, rfl⟩
    · intro e he
      rcases mem_storeTimeoutId_cases he with ⟨h1, _⟩ | ⟨e0, h0, hk0, hk, htask⟩
      · exact registered_workers _ _ _ e h1
      · right
        refine ⟨hk, ?_⟩
        rw [htask, JSMap.value_of_mem_set h0 hk0]
    · intro e he hk
      exact mem_storeTimeoutId_of_ne (mem_set_of_ne he hk) hk
    · intro e he
      rcases mem_storeTimeoutId_cases he with ⟨h1, hne⟩ | ⟨e0, h0, hk0, hk, htask⟩
      · rcases registered_workers _ _ _ e h1 with h2 | ⟨h2, _⟩
        · exact Or.inl h2
        · exact absurd h2 hne
      · exact Or.inr ⟨⟨workerId task s.clock, task, false, false⟩,
          List.mem_append_right _ (List.mem_singleton.mpr rfl), hk.symm, rfl⟩
    · obtain ⟨e, he, hk⟩ := JSMap.exists_mem_set s.activeWorkers (workerId task s.clock)
        (⟨s.spawned.length, task, s.clock, task.retriesOrZero, none⟩ : WorkerInfo)
      have hv := JSMap.value_of_mem_set he hk
      rw [heldActive_iff]
      refine ⟨(e.1, { e.2 with timeoutId := some s.nextHandle }), ?_, ?_⟩
      · unfold storeTimeoutId
        exact List.mem_map.mpr ⟨e, he, by rw [if_pos hk]⟩
      · show e.2.task.symbol = task.symbol
        rw [hv]
  | throws message =>
    unfold _spawnWorker setTimeout requeue markFailed
    dsimp only
    split
    · exact ⟨Nat.le_succ _, fun h => absurd h (Nat.succ_ne_self _), rfl,
        fun _ hp => Or.inl hp, fun _ he => Or.inl he, fun _ he _ => he, fun _ hp => hp,
        fun _ he => Or.inl he, terminal_mono_error _ _ _ _,
        fun h => absurd h (Nat.succ_ne_self _)⟩
    · exact ⟨le_refl _, fun _ => rfl, rfl, fun _ hp => Or.inl hp, fun _ he => Or.inl he,
        fun _ he _ => he, fun _ hp => hp, fun _ he => Or.inl he,
        terminal_mono_error _ _ _ _, fun _ => Or.inr (terminal_after_error _ _ _ _)⟩
  | sendThrows message =>
    have hprocs : ∀ p ∈ s.spawned ++ [(⟨workerId task s.clock, task, false, true⟩ : Proc)],
        p ∈ s.spawned ∨ (p.id = workerId task s.clock ∧ p.task = task) := by
      intro p hp
      rcases List.mem_append.mp hp with h | h
      · exact Or.inl h
      · rw [List.mem_singleton] at h
        rw [h]
        exact Or.inr ⟨rfl, rfl⟩
    have hborn : ∀ e ∈ JSMap.set s.activeWorkers (workerId task s.clock)
        (⟨s.spawned.length, task, s.clock, task.retriesOrZero, none⟩ : WorkerInfo),
        e ∈ s.activeWorkers ∨
          ∃ p ∈ s.spawned ++ [(⟨workerId task s.clock, task, false, true⟩ : Proc)],
            p.id = e.1 ∧ p.exited = false := by
      intro e he
      rcases registered_workers _ _ _ e he with h | ⟨h, _⟩
      · exact Or.inl h
      · exact Or.inr ⟨⟨workerId task s.clock, task, false, true⟩,
          List.mem_append_right _ (List.mem_singleton.mpr rfl), h.symm, rfl⟩
    unfold _spawnWorker setTimeout requeue markFailed
    dsimp only
    split
    · exact ⟨Nat.le_succ _, fun h => absurd h (Nat.succ_ne_self _), rfl, hprocs,
        registered_workers _ _ _, fun _ he hk => mem_set_of_ne he hk,
        fun _ hp => List.mem_append_left _ hp, hborn,
        terminal_mono_error _ _ _ _, fun h => absurd h (Nat.succ_ne_self _)⟩
    · exact ⟨le_refl _, fun _ => rfl, rfl, hprocs, registered_workers _ _ _,
        fun _ he hk => mem_set_of_ne he hk, fun _ hp => List.mem_append_left _ hp, hborn,
        terminal_mono_error _ _ _ _, fun _ => Or.inr (terminal_after_error _ _ _ _)⟩

theorem queueCopies_head {s : State} {task : Task} {rest : List Task}
    (hq : s.taskQueue = task :: rest) (c : JSVal) :
    queueCopies s c =
      (if task.symbol = c then 1 else 0) +
        (rest.filter (fun t => decide (t.symbol = c))).length := by
  unfold queueCopies
  rw [hq]
  by_cases h : task.symbol = c
  · rw [List.filter_cons_of_pos (by simpa using h), if_pos h, List.length_cons, Nat.add_comm]
  · rw [List.filter_cons_of_neg (by simpa using h), if_neg h, Nat.zero_add]

theorem lifecycle_admit {added : List Task} {s : State} (hp : Placement added s)
    (hs : ∀ k ∈ symbolsOf added, ∃ x, k = JSVal.str x) (hk : Keyed s) (ha : Alive s)
    (ht : Taken s) {task : Task} {rest : List Task} (hq : s.taskQueue = task :: rest)
    (s1 : State)
    (hsp : Spawns task { s with taskQueue := rest, admitted := s.admitted ++ [task] } s1)
    (delay : Nat) :
    Keyed (setTimeout s1 .spawnNext delay) ∧ Alive (setTimeout s1 .spawnNext delay) ∧
      Taken (setTimeout s1 .spawnNext delay) := by
  have htq : task ∈ s.taskQueue := by
    rw [hq]
    exact List.mem_cons_self _ _
  obtain ⟨x, hx⟩ := hs _ (hp.queued task htq)
  refine ⟨⟨?_, ?_⟩, ?_, ?_⟩
  rotate_left 2
  · intro e hem
    rcases hsp.born e hem with h | h
    · obtain ⟨p, hpm, hid, hex⟩ := ha e h
      exact ⟨p, hsp.grown p hpm, hid, hex⟩
    · exact h
  rotate_left 1
  · intro p hpm
    rcases hsp.procs p hpm with h | ⟨h1, h2⟩
    · exact hk.procs p h
    · exact ⟨s.clock, by rw [h1, h2]⟩
  · intro e hem
    rcases hsp.workers e hem with h | ⟨h1, h2⟩
    · exact hk.workers e h
    · exact ⟨s.clock, by rw [h1, h2]⟩
  · intro hr c hc
    have hr1 : s1.taskStats.retried = 0 := hr
    have h0 : s.taskStats.retried = 0 := Nat.le_zero.mp (hr1 ▸ hsp.retried)
    have heq : s1.taskQueue = rest := hsp.queue (hr1.trans h0.symm)
    have hnew : task.symbol ∉ symbolsOf s.admitted := by
      intro hin
      have := (ht h0 _ hin).1
      rw [queueCopies_head hq, if_pos rfl] at this
      omega
    obtain ⟨t0, ht0, hsym⟩ := List.mem_map.mp (hp.queued task htq)
    have hone := (hp.waiting t0 ht0 (by rw [hsym]; exact hnew)).2
    rw [hsym, queueCopies_head hq, if_pos rfl] at hone
    have hadm : s1.admitted = s.admitted ++ [task] := hsp.admitted
    have hcadm : c ∈ symbolsOf (s.admitted ++ [task]) := by
      rw [← hadm]
      exact hc
    rw [symbolsOf_append, List.mem_append] at hcadm
    have hqueue : ∀ k, queueCopies (setTimeout s1 .spawnNext delay) k =
        (rest.filter (fun t => decide (t.symbol = k))).length := by
      intro k
      unfold queueCopies setTimeout
      dsimp only
      rw [heq]
    have hheld : ∀ k, heldActive s1 k = true →
        heldActive (setTimeout s1 .spawnNext delay) k = true := fun _ h => h
    have hterm : ∀ k, isTerminal s1 k = true →
        isTerminal (setTimeout s1 .spawnNext delay) k = true := fun _ h => h
    rcases hcadm with hold | hself
    · obtain ⟨hq0, hat⟩ := ht h0 c hold
      have hne : task.symbol ≠ c := fun h => hnew (h ▸ hold)
      rw [queueCopies_head hq, if_neg hne, Nat.zero_add] at hq0
      refine ⟨(hqueue c).trans hq0, ?_⟩
      rcases hat with ha | hterm0
      · left
        apply hheld
        obtain ⟨e, he, hes⟩ := heldActive_iff.mp ha
        refine heldActive_iff.mpr ⟨e, hsp.kept e he ?_, hes⟩
        intro hid
        obtain ⟨n, hn⟩ := hk.workers e he
        obtain ⟨y, hy⟩ := hs _ (hp.admitted _ (hp.active e he))
        have hsame := workerId_symbol hy hx (hn.symm.trans hid)
        exact hne (hsame.symm.trans hes)
      · right
        exact hterm c (hsp.terminal c hterm0)
    · have hc1 : c = task.symbol := by
        unfold symbolsOf at hself
        simpa using hself
      subst hc1
      refine ⟨(hqueue _).trans (by omega), ?_⟩
      rcases hsp.own (hr1.trans h0.symm) with h | h
      · exact Or.inl (hheld _ h)
      · exact Or.inr (hterm _ h)

theorem alive_of_handles {c : JSVal} {s s1 : State} (hh : Handles c s s1) (ha : Alive s) :
    Alive s1 := by
  intro e he
  rw [hh.spawned]
  exact ha e (hh.active e he)

theorem lifecycle_spawnNextWorker {added : List Task} {s : State} (hp : Placement added s)
    (hs : ∀ k ∈ symbolsOf added, ∃ x, k = JSVal.str x)
    (hk : Keyed s) (ha : Alive s) (ht : Taken s) (fork : SpawnOutcome) :
    Keyed (spawnNextWorker s fork) ∧ Alive (spawnNextWorker s fork) ∧
      Taken (spawnNextWorker s fork) := by
  unfold spawnNextWorker
  split
  · exact ⟨hk, ha, ht⟩
  · split
    · split
      · exact ⟨hk, ha, ht⟩
      · rename_i task rest hq
        dsimp only
        exact lifecycle_admit hp hs hk ha ht hq _ (spawns_spawnWorker _ task fork) _
    · exact ⟨hk.of_handles (handles_checkCompletion .undefined s),
        alive_of_handles (handles_checkCompletion .undefined s) ha,
        taken_of_handles (handles_checkCompletion .undefined s) ht⟩

theorem lifecycle_processQueue {added : List Task} {s : State} (hp : Placement added s)
    (hs : ∀ k ∈ symbolsOf added, ∃ x, k = JSVal.str x)
    (hk : Keyed s) (ha : Alive s) (ht : Taken s) (fork : SpawnOutcome) :
    Keyed (_processQueue s fork) ∧ Alive (_processQueue s fork) ∧
      Taken (_processQueue s fork) := by
  unfold _processQueue
  split
  · exact ⟨hk, ha, ht⟩
  · exact lifecycle_spawnNextWorker hp hs hk ha ht fork

theorem lifecycle_of_handles (c : JSVal) {s s1 : State} (hk : Keyed s) (ha : Alive s)
    (ht : Taken s) (h : Handles c s s1) : Keyed s1 ∧ Alive s1 ∧ Taken s1 :=
  ⟨hk.of_handles h, alive_of_handles h ha, taken_of_handles h ht⟩

theorem keys_agree {added : List Task} {s : State} (hp : Placement added s)
    (hs : ∀ k ∈ symbolsOf added, ∃ x, k = JSVal.str x) (hk : Keyed s) {p : Proc}
    (hpm : p ∈ s.spawned) :
    ∀ e ∈ s.activeWorkers, e.1 = p.id → e.2.task.symbol = p.task.symbol := by
  intro e he hid
  obtain ⟨n, hn⟩ := hk.workers e he
  obtain ⟨m, hm⟩ := hk.procs p hpm
  obtain ⟨x, hx⟩ := hs _ (hp.admitted _ (hp.active e he))
  obtain ⟨y, hy⟩ := hs _ (hp.admitted _ (hp.forked p hpm))
  exact workerId_symbol hx hy (hn.symm.trans (hid.trans hm))

theorem lifecycle_resourceMonitorTick {added : List Task} {s : State}
    (hp : Placement added s) (hs : ∀ k ∈ symbolsOf added, ∃ x, k = JSVal.str x)
    (hk : Keyed s) (ha : Alive s) (ht : Taken s) (p : Option Nat) (fork : SpawnOutcome) :
    Keyed (resourceMonitorTick s p fork) ∧ Alive (resourceMonitorTick s p fork) ∧
      Taken (resourceMonitorTick s p fork) := by
  unfold resourceMonitorTick
  split
  · exact ⟨hk, ha, ht⟩
  · split
    · split
      · refine lifecycle_of_handles .undefined hk ha ht ?_
        exact handles_of_same rfl rfl rfl rfl rfl rfl rfl
      · exact ⟨hk, ha, ht⟩
    · split
      · have h0 : Handles .undefined s { s with throttled := false } :=
          handles_of_same rfl rfl rfl rfl rfl rfl rfl
        obtain ⟨hk1, ha1, ht1⟩ := lifecycle_of_handles _ hk ha ht h0
        refine lifecycle_processQueue ?_ hs hk1 ha1 ht1 fork
        exact hp.of_quiet ⟨rfl, rfl, fun _ he => he, rfl, rfl, rfl⟩
      · exact ⟨hk, ha, ht⟩

theorem lifecycle_fireTimer {added : List Task} {s : State} (hp : Placement added s)
    (hs : ∀ k ∈ symbolsOf added, ∃ x, k = JSVal.str x) (hk : Keyed s) (ha : Alive s)
    (ht : Taken s) (t : Timer) (fork : SpawnOutcome) (c : Bool) :
    Keyed (fireTimer s t fork c) ∧ Alive (fireTimer s t fork c) ∧
      Taken (fireTimer s t fork c) := by
  unfold fireTimer
  split
  · exact lifecycle_spawnNextWorker hp hs hk ha ht fork
  · exact lifecycle_processQueue hp hs hk ha ht fork
  · split
    · exact lifecycle_of_handles _ hk ha ht (handles_onHardTimeout s _ _ _)
    · exact ⟨hk, ha, ht⟩
  · split
    · exact lifecycle_of_handles _ hk ha ht (handles_onGraceKill .undefined s _ _)
    · exact ⟨hk, ha, ht⟩
  · exact lifecycle_of_handles _ hk ha ht (handles_onForceKill .undefined s _ _)

theorem addSymbols_retried (s : State) (a : JSArg) :
    (addSymbols s a).taskStats.retried = s.taskStats.retried := by
  unfold addSymbols
  split
  · rfl
  · split <;> rfl

theorem lifecycle_addSymbols {added : List Task} {s : State} (hp : Placement added s)
    (hk : Keyed s) (ha : Alive s) (ht : Taken s) (a : JSArg)
    (hd : (symbolsOf (added ++ validTasks a)).Nodup) :
    Keyed (addSymbols s a) ∧ Alive (addSymbols s a) ∧ Taken (addSymbols s a) := by
  obtain ⟨f1, f2, f3, f4, f5⟩ := addSymbols_frame s a
  have fq := addSymbols_queue s a
  have fr := addSymbols_retried s a
  rw [symbolsOf_append] at hd
  obtain ⟨_, _, hdis⟩ := List.nodup_append.mp hd
  refine ⟨⟨?_, ?_⟩, ?_, ?_⟩
  · rw [f3]
    exact hk.procs
  · rw [f2]
    exact hk.workers
  · unfold Alive
    rw [f2, f3]
    exact ha
  · intro hr c hc
    rw [fr] at hr
    rw [f1] at hc
    obtain ⟨hq, hat⟩ := ht hr c hc
    have hnew : c ∉ symbolsOf (validTasks a) :=
      fun hin => List.disjoint_left.mp hdis (hp.admitted c hc) hin
    refine ⟨?_, ?_⟩
    · unfold queueCopies at hq ⊢
      rw [fq, List.filter_append, List.length_append, hq, filter_symbol_eq_nil _ _ hnew]
      rfl
    · rw [heldActive_same f2, isTerminal_same f4 f5]
      exact hat

theorem keyed_markProc {s : State} (hk : Keyed s) (w : Nat) (p q : Proc)
    (hp : s.spawned.get? w = some p) (hid : q.id = p.id) (htask : q.task = p.task) :
    Keyed { s with spawned := s.spawned.set w q } where
  procs := by
    intro r hr
    rcases List.mem_or_eq_of_mem_set hr with hr | rfl
    · exact hk.procs r hr
    · obtain ⟨n, hn⟩ := hk.procs p (List.get?_mem hp)
      exact ⟨n, by rw [hid, htask, hn]⟩
  workers := hk.workers

theorem mem_set_or_old {α : Type} (q : α) :
    ∀ (l : List α) (w : Nat) (p x : α), l.get? w = some p → x ∈ l →
      (x ∈ l.set w q ∨ x = p) ∧ q ∈ l.set w q := by
  intro l
  induction l with
  | nil =>
    intro w p x hp
    simp at hp
  | cons a l ih =>
    intro w p x hp hx
    cases w with
    | zero =>
      simp only [List.get?_cons_zero, Option.some.injEq] at hp
      subst hp
      rw [List.set_cons_zero]
      refine ⟨?_, List.mem_cons_self _ _⟩
      rcases List.mem_cons.mp hx with h | h
      · exact Or.inr h
      · exact Or.inl (List.mem_cons_of_mem _ h)
    | succ w =>
      rw [List.get?_cons_succ] at hp
      rw [List.set_cons_succ]
      rcases List.mem_cons.mp hx with h | h
      · obtain ⟨y, hy⟩ : ∃ y, y ∈ l := by
          cases l with
          | nil => simp at hp
          | cons b l => exact ⟨b, List.mem_cons_self _ _⟩
        exact ⟨Or.inl (h ▸ List.mem_cons_self _ _),
          List.mem_cons_of_mem _ (ih w p y hp hy).2⟩
      · obtain ⟨h1, h2⟩ := ih w p x hp h
        refine ⟨?_, List.mem_cons_of_mem _ h2⟩
        rcases h1 with h1 | h1
        · exact Or.inl (List.mem_cons_of_mem _ h1)
        · exact Or.inr h1

theorem alive_markProc {s : State} (ha : Alive s) (w : Nat) (p q : Proc)
    (hp : s.spawned.get? w = some p) (hid : q.id = p.id) (hex : q.exited = p.exited) :
    Alive { s with spawned := s.spawned.set w q } := by
  intro e he
  obtain ⟨p0, hp0, hid0, hex0⟩ := ha e he
  obtain ⟨h1, h2⟩ := mem_set_or_old q s.spawned w p p0 hp hp0
  rcases h1 with h1 | h1
  · exact ⟨p0, h1, hid0, hex0⟩
  · exact ⟨q, h2, by rw [hid, ← h1, hid0], by rw [hex, ← h1, hex0]⟩

theorem onExit_active (s : State) (id : String) (task : Task) (code : Option Int)
    (signal : Option String) :
    ∀ e ∈ (onExit s id task code signal).activeWorkers,
      e ∈ s.activeWorkers ∧ e.1 ≠ id := by
  have key : ∀ s1 : State, s1.activeWorkers = s.activeWorkers →
      ∀ e ∈ (setTimeout { s1 with activeWorkers := JSMap.delete s1.activeWorkers id }
        .processQueue 100).activeWorkers, e ∈ s.activeWorkers ∧ e.1 ≠ id := by
    intro s1 h1 e he
    have he1 : e ∈ JSMap.delete s1.activeWorkers id := he
    rw [h1] at he1
    obtain ⟨h2, h3⟩ := List.mem_filter.mp he1
    exact ⟨h2, by simpa using h3⟩
  unfold onExit
  dsimp only
  apply key
  unfold requeue markFailed
  split
  · split
    · split
      · rfl
      · split <;> rfl
    · rfl
  · rfl

theorem lifecycle_step {added : List Task} {s s1 : State} (e : Event)
    (hp : Placement added s)
    (hs : ∀ k ∈ symbolsOf added, ∃ x, k = JSVal.str x)
    (hd : (symbolsOf (added ++ addedBy e)).Nodup)
    (hk : Keyed s) (ha : Alive s) (ht : Taken s) (ho : e.orderly s = true)
    (hst : step s e = some s1) : Keyed s1 ∧ Alive s1 ∧ Taken s1 := by
  cases e with
  | addSymbols a =>
    simp only [step, Option.some.injEq] at hst
    subst hst
    exact lifecycle_addSymbols hp hk ha ht a hd
  | start =>
    simp only [step, Option.some.injEq] at hst
    subst hst
    unfold start
    split
    · exact ⟨hk, ha, ht⟩
    · refine lifecycle_of_handles .undefined hk ha ht ?_
      exact handles_of_same rfl rfl rfl rfl rfl rfl rfl
  | startResume fork =>
    simp only [step] at hst
    split at hst
    · simp only [Option.some.injEq] at hst
      subst hst
      unfold startResume
      have h0 : Handles .undefined s
          (_startResourceMonitoring { s with pendingStarts := s.pendingStarts - 1 }) :=
        handles_of_same rfl rfl rfl rfl rfl rfl rfl
      obtain ⟨hk1, ha1, ht1⟩ := lifecycle_of_handles _ hk ha ht h0
      refine lifecycle_processQueue ?_ hs hk1 ha1 ht1 fork
      exact hp.of_quiet ⟨rfl, rfl, fun _ he => he, rfl, rfl, rfl⟩
    · simp at hst
  | stop => simp [Event.orderly] at ho
  | stopResume k => simp [Event.orderly] at ho
  | waitForCompletion =>
    simp only [step, Option.some.injEq] at hst
    subst hst
    unfold waitForCompletion
    split
    · exact ⟨hk, ha, ht⟩
    · split
      · refine lifecycle_of_handles .undefined hk ha ht ?_
        exact handles_of_same rfl rfl rfl rfl rfl rfl rfl
      · exact ⟨hk, ha, ht⟩
  | advance ms =>
    simp only [step, Option.some.injEq] at hst
    subst hst
    refine lifecycle_of_handles .undefined hk ha ht ?_
    exact handles_of_same rfl rfl rfl rfl rfl rfl rfl
  | timer id fork c =>
    simp only [step] at hst
    split at hst
    · split at hst
      · simp only [Option.some.injEq] at hst
        subst hst
        have h0 : Handles .undefined s (clearTimeout s id) :=
          handles_of_same rfl rfl rfl rfl rfl rfl rfl
        obtain ⟨hk1, ha1, ht1⟩ := lifecycle_of_handles _ hk ha ht h0
        refine lifecycle_fireTimer ?_ hs hk1 ha1 ht1 _ fork c
        exact hp.of_quiet ⟨rfl, rfl, fun _ he => he, rfl, rfl, rfl⟩
      · simp at hst
    · simp at hst
  | monitorTick hdl p fork =>
    simp only [step] at hst
    split at hst
    · simp only [Option.some.injEq] at hst
      subst hst
      exact lifecycle_resourceMonitorTick hp hs hk ha ht p fork
    · simp at hst
  | workerMessage w m =>
    simp only [step] at hst
    split at hst
    · simp only [Option.some.injEq] at hst
      subst hst
      exact lifecycle_of_handles _ hk ha ht (handles_onMessage s _ m)
    · simp at hst
  | workerError w m =>
    simp only [step] at hst
    split at hst
    · rename_i p hpw
      simp only [Option.some.injEq] at hst
      subst hst
      exact lifecycle_of_handles _ hk ha ht
        (handles_onError s p.id p.task m (keys_agree hp hs hk (List.get?_mem hpw)))
    · simp at hst
  | workerExit w code signal =>
    simp only [step] at hst
    split at hst
    · rename_i p hpw
      split at hst
      · simp at hst
      · simp only [Option.some.injEq] at hst
        subst hst
        have hord : (code ≠ some 0 ∧ signal ≠ some "SIGTERM") ∨
            isTerminal s p.task.symbol = true := by
          simp only [Event.orderly, hpw, Bool.or_eq_true, Bool.and_eq_true,
            decide_eq_true_eq] at ho
          exact ho
        have hk0 := keyed_markProc hk w p { p with exited := true } hpw rfl rfl
        have ht0 : Taken { s with spawned := s.spawned.set w { p with exited := true } } := ht
        have h1 := handles_onExit
          { s with spawned := s.spawned.set w { p with exited := true } } p.id p.task code
          signal (keys_agree hp hs hk (List.get?_mem hpw)) hord
        have hact := onExit_active
          { s with spawned := s.spawned.set w { p with exited := true } } p.id p.task code
          signal
        have h2 : Handles .undefined
            (onExit { s with spawned := s.spawned.set w { p with exited := true } } p.id
              p.task code signal)
            (settleExit (onExit
              { s with spawned := s.spawned.set w { p with exited := true } } p.id p.task
              code signal) w) := handles_of_same rfl rfl rfl rfl rfl rfl rfl
        refine ⟨(hk0.of_handles h1).of_handles h2, ?_,
          taken_of_handles h2 (taken_of_handles h1 ht0)⟩
        intro e he
        obtain ⟨he0, hne⟩ := hact e he
        obtain ⟨p0, hp0, hid0, hex0⟩ := ha e he0
        have hsp : (settleExit (onExit
            { s with spawned := s.spawned.set w { p with exited := true } } p.id p.task code
            signal) w).spawned = s.spawned.set w { p with exited := true } := h1.spawned
        rw [hsp]
        rcases (mem_set_or_old { p with exited := true } s.spawned w p p0 hpw hp0).1 with h | h
        · exact ⟨p0, h, hid0, hex0⟩
        · exact absurd (hid0.symm.trans (congrArg Proc.id h)) hne
    · simp at hst
  | sendCallback w err =>
    simp only [step] at hst
    split at hst
    · rename_i p hpw
      split at hst
      · simp at hst
      · simp only [Option.some.injEq] at hst
        subst hst
        have herr : err = false := by
          simpa [Event.orderly] using ho
        subst herr
        have hk0 := keyed_markProc hk w p { p with startAcked := true } hpw rfl rfl
        have ha0 := alive_markProc ha w p { p with startAcked := true } hpw rfl rfl
        have ht0 : Taken { s with spawned := s.spawned.set w { p with startAcked := true } } :=
          ht
        exact lifecycle_of_handles _ hk0 ha0 ht0 (handles_onSendCallback .undefined _ w p.id)
    · simp at hst

theorem lifecycle_run (evs : List Event) (added : List Task) (s s1 : State)
    (hp : Placement added s) (hk : Keyed s) (ha : Alive s) (ht : Taken s)
    (hr : run s evs = some s1)
    (hd : (symbolsOf (added ++ addedTasks evs)).Nodup)
    (hs : ∀ k ∈ symbolsOf (added ++ addedTasks evs), ∃ x, k = JSVal.str x)
    (ho : orderlyRun s evs = true) :
    Placement (added ++ addedTasks evs) s1 ∧ Keyed s1 ∧ Alive s1 ∧ Taken s1 := by
  induction evs generalizing s added with
  | nil =>
    simp only [run, Option.some.injEq] at hr
    subst hr
    exact ⟨by simpa [addedTasks] using hp, hk, ha, ht⟩
  | cons e es ih =>
    simp only [run] at hr
    split at hr
    · rename_i s2 hst
      have hassoc : added ++ addedTasks (e :: es) = (added ++ addedBy e) ++ addedTasks es := by
        simp [addedTasks, List.append_assoc]
      rw [hassoc] at hd hs ⊢
      have hd1 : (symbolsOf (added ++ addedBy e)).Nodup := by
        rw [symbolsOf_append] at hd
        exact (List.nodup_append.mp hd).1
      have hs0 : ∀ k ∈ symbolsOf added, ∃ x, k = JSVal.str x := by
        intro k hkm
        apply hs
        rw [symbolsOf_append, symbolsOf_append]
        exact List.mem_append_left _ (List.mem_append_left _ hkm)
      simp only [orderlyRun, hst, Bool.and_eq_true] at ho
      obtain ⟨hk2, ha2, ht2⟩ := lifecycle_step e hp hs0 hd1 hk ha ht ho.1 hst
      exact ih (added ++ addedBy e) s2 (placement_step e hp hst hd1) hk2 ha2 ht2 hr hd hs
        ho.2
    · simp at hr

theorem keyed_init (o : Options) : Keyed (init o) where
  procs := fun p hp => absurd hp (List.not_mem_nil p)
  workers := fun e he => absurd he (List.not_mem_nil e)

theorem alive_init (o : Options) : Alive (init o) :=
  fun e he => absurd he (List.not_mem_nil e)

theorem taken_init (o : Options) : Taken (init o) := by
  intro _ c hc
  simp [init, symbolsOf] at hc

/-- C2 (amended): in every run in which the tasks added through `addSymbols` have
pairwise distinct symbols (strings), `stop` is not called, no send of a `start` message
fails and a worker exits with code 0 or on `SIGTERM` only after its result or error has
been recorded, and in every state reached before any task has been re-queued
(`retried = 0`): each added task is in exactly one of the three places, the queue (with
a single copy), `activeWorkers` or terminal; or it is in none but the last two, held in
`activeWorkers` and terminal at once.  The queue never holds it twice, and never while it
is held or terminal, and it is held in `activeWorkers` only while a worker forked for it
has not exited. -/
theorem task_in_one_place_or_active_and_terminal (o : Options) (evs : List Event)
    (s : State) (h : run (init o) evs = some s)
    (hd : (symbolsOf (addedTasks evs)).Nodup)
    (hstr : ∀ t ∈ addedTasks evs, ∃ x, t.symbol = JSVal.str x)
    (hord : orderlyRun (init o) evs = true)
    (hret : s.taskStats.retried = 0)
    (t : Task) (ht : t ∈ addedTasks evs) :
    queueCopies s t.symbol ≤ 1 ∧
      (placeCount s t.symbol = 1 ∨
        (queueCopies s t.symbol = 0 ∧ heldActive s t.symbol = true ∧
          isTerminal s t.symbol = true)) ∧
      (heldActive s t.symbol = true →
        ∃ p ∈ s.spawned, p.task.symbol = t.symbol ∧ p.exited = false) := by
  have hs : ∀ k ∈ symbolsOf ([] ++ addedTasks evs), ∃ x, k = JSVal.str x := by
    intro k hk
    rw [List.nil_append] at hk
    obtain ⟨u, hu, hku⟩ := List.mem_map.mp hk
    obtain ⟨x, hx⟩ := hstr u hu
    exact ⟨x, hku ▸ hx⟩
  obtain ⟨hp, hk, ha, htk⟩ := lifecycle_run evs [] (init o) s (placement_init o)
    (keyed_init o) (alive_init o) (taken_init o) h (by simpa using hd) hs hord
  rw [List.nil_append] at hp hs
  have hlive : heldActive s t.symbol = true →
      ∃ p ∈ s.spawned, p.task.symbol = t.symbol ∧ p.exited = false := by
    intro hheld
    obtain ⟨e, he, hes⟩ := heldActive_iff.mp hheld
    obtain ⟨p, hpm, hid, hex⟩ := ha e he
    exact ⟨p, hpm, (keys_agree hp hs hk hpm e he hid.symm).symm.trans hes, hex⟩
  by_cases hadm : t.symbol ∈ symbolsOf s.admitted
  · obtain ⟨hq, hat⟩ := htk hret _ hadm
    refine ⟨by omega, ?_, hlive⟩
    unfold placeCount
    rw [hq]
    cases ha : heldActive s t.symbol <;> cases hte : isTerminal s t.symbol
    · rw [ha, hte] at hat
      simp at hat
    · left
      rfl
    · left
      rfl
    · right
      exact ⟨rfl, rfl, rfl⟩
  · have h1 := unadmitted_task_only_in_queue o evs s h hd t ht hadm
    exact ⟨by omega, Or.inl h1.2.2.2.2, hlive⟩

/-- Witness for C2: `A`, `B` and `C` are added with two worker slots.  `A` has reported
and its worker has exited: it is terminal only.  `B` has reported and its worker has not
exited yet: it is held in `activeWorkers` and terminal at once.  `C` is still waiting: it
is in the queue only. -/
theorem task_in_one_place_or_active_and_terminal_witness :
    run (init defaultOptions) lifecycleEvents = some midLifecycle ∧
      orderlyRun (init defaultOptions) lifecycleEvents = true ∧
      midLifecycle.taskStats.retried = 0 ∧
      (queueCopies midLifecycle (taskFor "B").symbol ≤ 1 ∧
        (placeCount midLifecycle (taskFor "B").symbol = 1 ∨
          (queueCopies midLifecycle (taskFor "B").symbol = 0 ∧
            heldActive midLifecycle (taskFor "B").symbol = true ∧
            isTerminal midLifecycle (taskFor "B").symbol = true)) ∧
        (heldActive midLifecycle (taskFor "B").symbol = true →
          ∃ p ∈ midLifecycle.spawned,
            p.task.symbol = (taskFor "B").symbol ∧ p.exited = false)) ∧
      placeCount midLifecycle (taskFor "B").symbol = 2 ∧
      placeCount midLifecycle (taskFor "A").symbol = 1 ∧
      heldActive midLifecycle (taskFor "A").symbol = false ∧
      isTerminal midLifecycle (taskFor "A").symbol = true ∧
      placeCount midLifecycle (taskFor "C").symbol = 1 ∧
      queueCopies midLifecycle (taskFor "C").symbol = 1 :=
  have hrun : run (init defaultOptions) lifecycleEvents = some midLifecycle := by decide
  have hord : orderlyRun (init defaultOptions) lifecycleEvents = true := by decide
  have hret : midLifecycle.taskStats.retried = 0 := by decide
  have hadd : addedTasks lifecycleEvents = [taskFor "A", taskFor "B", taskFor "C"] := by
    decide
  have hstr : ∀ t ∈ addedTasks lifecycleEvents, ∃ x, t.symbol = JSVal.str x := by
    intro t ht
    rw [hadd] at ht
    simp only [List.mem_cons, List.mem_singleton, List.not_mem_nil, or_false] at ht
    rcases ht with rfl | rfl | rfl
    · exact ⟨"A", rfl⟩
    · exact ⟨"B", rfl⟩
    · exact ⟨"C", rfl⟩
  have h := task_in_one_place_or_active_and_terminal defaultOptions lifecycleEvents
    midLifecycle hrun (by decide) hstr hord hret (taskFor "B") (by decide)
  ⟨hrun, hord, hret, h, by decide, by decide, by decide, by decide, by decide, by decide⟩

end TradingViewCrawler
